import Mathlib

/-!
# sing-box configuration builder and share-link parsers

A shallow embedding of `internal/builder/singbox.go` (the outbound graph assembled
by `ConfigBuilder.buildOutbounds`, the node/filter predicate `matchFilter`, and
the route section), of `pkg/utils/base64.go` and of the share-link parsers of
`internal/parser`. Go maps are association lists with replace-or-append update,
Go slices are lists, `append(s, v)` is `s ++ [v]`, and every `for ... range` loop
is a left fold of its body over the ranged slice. A Go string is shown by the runes Go
reads from it (`utf8.DecodeRune`): the characters of a UTF-8 text, which is every string
given as input, and U+FFFD for each byte of a decoded string that belongs to no valid
encoding; ASCII bytes are always read as themselves.
-/

namespace SingBox

/-! ## Dynamic values and maps -/

/-- Dynamic value stored in a Go `map[string]interface{}`: the builder and the
parsers store booleans, integers, strings, string slices and nested maps. -/
inductive Value where
  | bool (b : Bool)
  | int (n : Int)
  | str (s : String)
  | strs (l : List String)
  | obj (fields : List (String × Value))

mutual
/-- Decision procedure for equality of values. -/
def Value.decEq : (a b : Value) → Decidable (a = b)
  | .bool a, .bool b =>
      if h : a = b then isTrue (by rw [h]) else isFalse (fun e => h (Value.bool.inj e))
  | .int a, .int b =>
      if h : a = b then isTrue (by rw [h]) else isFalse (fun e => h (Value.int.inj e))
  | .str a, .str b =>
      if h : a = b then isTrue (by rw [h]) else isFalse (fun e => h (Value.str.inj e))
  | .strs a, .strs b =>
      if h : a = b then isTrue (by rw [h]) else isFalse (fun e => h (Value.strs.inj e))
  | .obj a, .obj b =>
      match Value.decEqFields a b with
      | isTrue h => isTrue (by rw [h])
      | isFalse h => isFalse (fun e => h (Value.obj.inj e))
  | .bool _, .int _ | .bool _, .str _ | .bool _, .strs _ | .bool _, .obj _
  | .int _, .bool _ | .int _, .str _ | .int _, .strs _ | .int _, .obj _
  | .str _, .bool _ | .str _, .int _ | .str _, .strs _ | .str _, .obj _
  | .strs _, .bool _ | .strs _, .int _ | .strs _, .str _ | .strs _, .obj _
  | .obj _, .bool _ | .obj _, .int _ | .obj _, .str _ | .obj _, .strs _ =>
      isFalse (fun e => Value.noConfusion e)
/-- Decision procedure for equality of field lists. -/
def Value.decEqFields : (a b : List (String × Value)) → Decidable (a = b)
  | [], [] => isTrue rfl
  | (k, v) :: xs, (k2, v2) :: ys =>
      if hk : k = k2 then
        match Value.decEq v v2 with
        | isTrue hv =>
            match Value.decEqFields xs ys with
            | isTrue hr => isTrue (by rw [hk, hv, hr])
            | isFalse hr => isFalse (fun e => hr (List.cons.inj e).2)
        | isFalse hv => isFalse (fun e => hv (Prod.mk.inj (List.cons.inj e).1).2)
      else isFalse (fun e => hk (Prod.mk.inj (List.cons.inj e).1).1)
  | [], _ :: _ => isFalse (fun e => List.noConfusion e)
  | _ :: _, [] => isFalse (fun e => List.noConfusion e)
end

instance : DecidableEq Value := Value.decEq

/-- Lookup `m[k]` in a Go map held as an association list. -/
def mapGet {β : Type} (m : List (String × β)) (k : String) : Option β :=
  match m with
  | [] => none
  | (k2, v) :: rest => if k2 = k then some v else mapGet rest k

/-- Assignment `m[k] = v`: replaces the binding of `k` or adds one. -/
def mapSet {β : Type} (m : List (String × β)) (k : String) (v : β) : List (String × β) :=
  match m with
  | [] => [(k, v)]
  | (k2, v2) :: rest => if k2 = k then (k2, v) :: rest else (k2, v2) :: mapSet rest k v

/-- Keys of a Go map (listed in order of first insertion). -/
def mapKeys {β : Type} (m : List (String × β)) : List String := m.map Prod.fst

/-! ## Data model -/

/-- Modelled from the spec: `storage.URLTestConfig` (the storage package is not
among the sources), with the fields the builder reads. -/
structure URLTestConfig where
  URL : String
  Interval : String
  Tolerance : Int
  deriving DecidableEq

/-- Modelled from the spec: `storage.Node`, a single proxy endpoint. The Go
field `Type` is named `NodeType` here. -/
structure Node where
  Tag : String
  NodeType : String
  Server : String
  ServerPort : Int
  Country : String
  Extra : List (String × Value)
  deriving DecidableEq

/-- Modelled from the spec: `storage.Filter`; `URLTestConfig` is a nil-able pointer. -/
structure Filter where
  Name : String
  Enabled : Bool
  Mode : String
  URLTestConfig : Option URLTestConfig
  IncludeCountries : List String
  ExcludeCountries : List String
  Include : List String
  Exclude : List String
  deriving DecidableEq

/-- Modelled from the spec: `storage.Rule`, one custom routing directive. -/
structure Rule where
  Priority : Int
  Enabled : Bool
  RuleType : String
  Values : List String
  Outbound : String
  deriving DecidableEq

/-- Modelled from the spec: `storage.RuleGroup`. -/
structure RuleGroup where
  Name : String
  Enabled : Bool
  Outbound : String
  SiteRules : List String
  IPRules : List String
  deriving DecidableEq

/-- Modelled from the spec: `storage.Settings`, with the fields the builder reads. -/
structure Settings where
  ProxyDNS : String
  DirectDNS : String
  MixedPort : Int
  TunEnabled : Bool
  ClashAPIPort : Int
  ClashUIPath : String
  FinalOutbound : String
  RuleSetBaseURL : String
  deriving DecidableEq

/-- Functions called by the builder whose code is not among the sources: the
country display lookups of the storage package and the Unicode case mappings of
the Go standard library (`unicode.ToLower` on one rune, `strings.EqualFold`). -/
structure Externals where
  GetCountryEmoji : String → String
  GetCountryName : String → String
  ToLowerRune : Char → Char
  EqualFold : String → String → Bool

/-- An `Outbound` is `map[string]interface{}`. -/
abbrev Outbound := List (String × Value)

/-- A `RouteRule` is `map[string]interface{}`. -/
abbrev RouteRule := List (String × Value)

/-- Record `RuleSet` of the route section. -/
structure RuleSet where
  Tag : String
  Type_ : String
  Format : String
  URL : String
  DownloadDetour : String
  deriving DecidableEq

/-- Record `RouteConfig`. -/
structure RouteConfig where
  Rules : List RouteRule
  RuleSet : List RuleSet
  Final : String
  AutoDetectInterface : Bool
  deriving DecidableEq

/-- Record `ConfigBuilder`: the snapshots one build reads. -/
structure ConfigBuilder where
  settings : Settings
  nodes : List Node
  filters : List Filter
  rules : List Rule
  ruleGroups : List RuleGroup

/-! ## Strings -/

/-- Go `strings.ToLower` on a valid UTF-8 string: the rune mapping applied to every rune. -/
def ToLower (x : Externals) (s : String) : String := ⟨s.data.map x.ToLowerRune⟩

/-- Go `strings.Contains`: `substr` occurs as a contiguous block of `s`. -/
def Contains (s substr : String) : Bool := decide (substr.data <:+: s.data)

/-- Decision procedure for the order on strings through their character lists. -/
def strDecLe : DecidableRel (fun a b : String => a ≤ b) :=
  fun a b => decidable_of_iff (¬ b.data < a.data) (by
    show ¬ b.toList < a.toList ↔ a ≤ b
    rw [String.le_iff_toList_le]; exact not_lt)

/-- Go `sort.Strings`: the slice in ascending order. -/
def sortStrings (l : List String) : List String :=
  @List.insertionSort String (fun a b => a ≤ b) strDecLe l

/-! ## The filter matcher -/

/-- Method `ConfigBuilder.matchFilter`: does the node satisfy the filter. Each
`for` loop that sets a flag and breaks (or returns) on the first hit is `List.any`. -/
def matchFilter (x : Externals) (node : Node) (filter : Filter) : Bool :=
  let name := ToLower x node.Tag
  if filter.IncludeCountries.length > 0 ∧
      ¬ filter.IncludeCountries.any (fun country => x.EqualFold node.Country country) then
    false
  else if filter.ExcludeCountries.any (fun country => x.EqualFold node.Country country) then
    false
  else if filter.Include.length > 0 ∧
      ¬ filter.Include.any (fun keyword => Contains name (ToLower x keyword)) then
    false
  else if filter.Exclude.any (fun keyword => Contains name (ToLower x keyword)) then
    false
  else
    true

/-! ## Outbounds -/

/-- Method `ConfigBuilder.nodeToOutbound`: the envelope, then every `Extra` entry assigned
on top of it. -/
def nodeToOutbound (node : Node) : Outbound :=
  node.Extra.foldl (fun outbound kv => mapSet outbound kv.1 kv.2)
    [("tag", .str node.Tag), ("type", .str node.NodeType), ("server", .str node.Server),
     ("server_port", .int node.ServerPort)]

/-- Variables of `buildOutbounds` updated by the loop over the nodes. -/
structure NodeAcc where
  outbounds : List Outbound
  allNodeTags : List String
  nodeTagSet : List (String × Bool)
  countryNodes : List (String × List String)

/-- Body of the loop `for _, node := range b.nodes` of `buildOutbounds`. -/
def nodeStep (s : NodeAcc) (node : Node) : NodeAcc :=
  let outbounds := s.outbounds ++ [nodeToOutbound node]
  let tag := node.Tag
  let seen := (mapGet s.nodeTagSet tag).getD false
  let allNodeTags := if !seen then s.allNodeTags ++ [tag] else s.allNodeTags
  let nodeTagSet := if !seen then mapSet s.nodeTagSet tag true else s.nodeTagSet
  let countryNodes :=
    if node.Country ≠ "" then
      mapSet s.countryNodes node.Country
        ((mapGet s.countryNodes node.Country).getD [] ++ [tag])
    else s.countryNodes
  { outbounds := outbounds, allNodeTags := allNodeTags, nodeTagSet := nodeTagSet,
    countryNodes := countryNodes }

/-- Variables of `buildOutbounds` updated by the loop over the filters. -/
structure FilterAcc where
  outbounds : List Outbound
  filterGroupTags : List String
  filterNodeMap : List (String × List String)

/-- Inner loop of the filter loop: the tags of the nodes the filter matches. -/
def filteredTags (x : Externals) (nodes : List Node) (filter : Filter) : List String :=
  nodes.foldl (fun acc node => if matchFilter x node filter then acc ++ [node.Tag] else acc) []

/-- Group object built for a filter inside the filter loop of `buildOutbounds`. -/
def filterGroup (filter : Filter) (tags : List String) : Outbound :=
  let group : Outbound :=
    [("tag", .str filter.Name), ("type", .str filter.Mode), ("outbounds", .strs tags)]
  if filter.Mode = "urltest" then
    match filter.URLTestConfig with
    | some c =>
        mapSet (mapSet (mapSet group "url" (.str c.URL)) "interval" (.str c.Interval))
          "tolerance" (.int c.Tolerance)
    | none =>
        mapSet (mapSet (mapSet group "url" (.str "https://www.gstatic.com/generate_204"))
          "interval" (.str "5m")) "tolerance" (.int 50)
  else group

/-- Body of the loop `for _, filter := range b.filters` of `buildOutbounds`. -/
def filterStep (x : Externals) (nodes : List Node) (s : FilterAcc) (filter : Filter) :
    FilterAcc :=
  if !filter.Enabled then s
  else
    let tags := filteredTags x nodes filter
    if tags.length = 0 then s
    else
      let groupTag := filter.Name
      { outbounds := s.outbounds ++ [filterGroup filter tags],
        filterGroupTags := s.filterGroupTags ++ [groupTag],
        filterNodeMap := mapSet s.filterNodeMap groupTag tags }

/-- Variables of `buildOutbounds` updated by the loop over the country codes. -/
structure CountryAcc where
  outbounds : List Outbound
  countryGroupTags : List String

/-- Display tag of a country group: `fmt.Sprintf("%s %s", emoji, name)`. -/
def countryGroupTag (x : Externals) (code : String) : String :=
  x.GetCountryEmoji code ++ " " ++ x.GetCountryName code

/-- Body of the loop `for _, code := range countryCodes` of `buildOutbounds`. -/
def countryStep (x : Externals) (countryNodes : List (String × List String))
    (s : CountryAcc) (code : String) : CountryAcc :=
  let nodes := (mapGet countryNodes code).getD []
  if nodes.length = 0 then s
  else
    let groupTag := countryGroupTag x code
    { outbounds := s.outbounds ++
        [[("tag", .str groupTag), ("type", .str "urltest"), ("outbounds", .strs nodes),
          ("url", .str "https://www.gstatic.com/generate_204"), ("interval", .str "5m"),
          ("tolerance", .int 50)]],
      countryGroupTags := s.countryGroupTags ++ [groupTag] }

/-- Body of the loop `for _, rg := range b.ruleGroups` of `buildOutbounds`. -/
def ruleGroupStep (countryGroupTags filterGroupTags allNodeTags : List String)
    (outbounds : List Outbound) (rg : RuleGroup) : List Outbound :=
  if !rg.Enabled then outbounds
  else
    let selectorOutbounds :=
      ["Proxy", "Auto", "DIRECT", "REJECT"] ++ countryGroupTags ++ filterGroupTags ++ allNodeTags
    outbounds ++
      [[("tag", .str rg.Name), ("type", .str "selector"), ("outbounds", .strs selectorOutbounds),
        ("default", .str rg.Outbound)]]

/-- Method `ConfigBuilder.buildOutbounds`. The keys of `countryNodes` are ranged over in
the order the map model lists them; `sort.Strings` then fixes the order. -/
def buildOutbounds (x : Externals) (b : ConfigBuilder) : List Outbound :=
  let outbounds : List Outbound :=
    [[("type", .str "direct"), ("tag", .str "DIRECT")],
     [("type", .str "block"), ("tag", .str "REJECT")],
     [("type", .str "dns"), ("tag", .str "dns-out")]]
  let s1 := b.nodes.foldl nodeStep
    { outbounds := outbounds, allNodeTags := [], nodeTagSet := [], countryNodes := [] }
  let allNodeTags := s1.allNodeTags
  let countryNodes := s1.countryNodes
  let s2 := b.filters.foldl (filterStep x b.nodes)
    { outbounds := s1.outbounds, filterGroupTags := [], filterNodeMap := [] }
  let filterGroupTags := s2.filterGroupTags
  let countryCodes := sortStrings (mapKeys countryNodes)
  let s3 := countryCodes.foldl (countryStep x countryNodes)
    { outbounds := s2.outbounds, countryGroupTags := [] }
  let countryGroupTags := s3.countryGroupTags
  let outbounds := s3.outbounds
  let outbounds :=
    if allNodeTags.length > 0 then
      outbounds ++
        [[("tag", .str "Auto"), ("type", .str "urltest"), ("outbounds", .strs allNodeTags),
          ("url", .str "https://www.gstatic.com/generate_204"), ("interval", .str "5m"),
          ("tolerance", .int 50)]]
    else outbounds
  let proxyOutbounds := ["Auto"] ++ countryGroupTags ++ filterGroupTags ++ allNodeTags
  let outbounds := outbounds ++
    [[("tag", .str "Proxy"), ("type", .str "selector"), ("outbounds", .strs proxyOutbounds),
      ("default", .str "Auto")]]
  let outbounds :=
    b.ruleGroups.foldl (ruleGroupStep countryGroupTags filterGroupTags allNodeTags) outbounds
  let fallbackOutbounds := ["Proxy", "DIRECT"] ++ countryGroupTags ++ filterGroupTags
  outbounds ++
    [[("tag", .str "Final"), ("type", .str "selector"), ("outbounds", .strs fallbackOutbounds),
      ("default", .str b.settings.FinalOutbound)]]

/-! ## Route -/

/-- Variables of `buildRoute` updated while the rule sets are collected. -/
structure RuleSetAcc where
  ruleSetMap : List (String × Bool)
  ruleSets : List RuleSet

/-- Body of the loop `for _, sr := range rg.SiteRules` of `buildRoute`. -/
def siteRuleStep (settings : Settings) (s : RuleSetAcc) (sr : String) : RuleSetAcc :=
  let tag := "geosite-" ++ sr
  if !((mapGet s.ruleSetMap tag).getD false) then
    { ruleSetMap := mapSet s.ruleSetMap tag true,
      ruleSets := s.ruleSets ++
        [{ Tag := tag, Type_ := "remote", Format := "binary",
           URL := settings.RuleSetBaseURL ++ "/geosite-" ++ sr ++ ".srs",
           DownloadDetour := "DIRECT" }] }
  else s

/-- Body of the loop `for _, ir := range rg.IPRules` of `buildRoute`. -/
def ipRuleStep (settings : Settings) (s : RuleSetAcc) (ir : String) : RuleSetAcc :=
  let tag := "geoip-" ++ ir
  if !((mapGet s.ruleSetMap tag).getD false) then
    { ruleSetMap := mapSet s.ruleSetMap tag true,
      ruleSets := s.ruleSets ++
        [{ Tag := tag, Type_ := "remote", Format := "binary",
           URL := settings.RuleSetBaseURL ++ "/../rule-set-geoip/geoip-" ++ ir ++ ".srs",
           DownloadDetour := "DIRECT" }] }
  else s

/-- Body of the first loop over the rule groups in `buildRoute`. -/
def ruleSetStep (settings : Settings) (s : RuleSetAcc) (rg : RuleGroup) : RuleSetAcc :=
  if !rg.Enabled then s
  else rg.IPRules.foldl (ipRuleStep settings) (rg.SiteRules.foldl (siteRuleStep settings) s)

/-- The call `sort.Slice(sortedRules, less)` with `less` comparing `Priority`: insertion
sort, which is what Go runs on slices of at most 12 elements (on longer slices Go leaves
the relative order of equal priorities unspecified). -/
def sortRules (rules : List Rule) : List Rule :=
  rules.insertionSort (fun a b => a.Priority ≤ b.Priority)

/-- Route rule built for one enabled custom rule (the `switch rule.RuleType`). -/
def customRouteRule (rule : Rule) : RouteRule :=
  let routeRule : RouteRule := [("outbound", .str rule.Outbound)]
  if rule.RuleType = "domain_suffix" then mapSet routeRule "domain_suffix" (.strs rule.Values)
  else if rule.RuleType = "domain_keyword" then
    mapSet routeRule "domain_keyword" (.strs rule.Values)
  else if rule.RuleType = "domain" then mapSet routeRule "domain" (.strs rule.Values)
  else if rule.RuleType = "ip_cidr" then mapSet routeRule "ip_cidr" (.strs rule.Values)
  else if rule.RuleType = "port" then mapSet routeRule "port" (.strs rule.Values)
  else if rule.RuleType = "geosite" then
    mapSet routeRule "rule_set"
      (.strs (rule.Values.foldl (fun tags v => tags ++ ["geosite-" ++ v]) []))
  else if rule.RuleType = "geoip" then
    mapSet routeRule "rule_set"
      (.strs (rule.Values.foldl (fun tags v => tags ++ ["geoip-" ++ v]) []))
  else routeRule

/-- Body of the loop `for _, rule := range sortedRules` of `buildRoute`. -/
def customRuleStep (rules : List RouteRule) (rule : Rule) : List RouteRule :=
  if !rule.Enabled then rules else rules ++ [customRouteRule rule]

/-- Body of the second loop over the rule groups in `buildRoute`. -/
def ruleGroupRuleStep (rules : List RouteRule) (rg : RuleGroup) : List RouteRule :=
  if !rg.Enabled then rules
  else
    let rules :=
      if rg.SiteRules.length > 0 then
        rules ++
          [[("rule_set", .strs (rg.SiteRules.foldl (fun tags sr => tags ++ ["geosite-" ++ sr]) [])),
            ("outbound", .str rg.Name)]]
      else rules
    if rg.IPRules.length > 0 then
      rules ++
        [[("rule_set", .strs (rg.IPRules.foldl (fun tags ir => tags ++ ["geoip-" ++ ir]) [])),
          ("outbound", .str rg.Name)]]
    else rules

/-- Method `ConfigBuilder.buildRoute`. -/
def buildRoute (b : ConfigBuilder) : RouteConfig :=
  let s := b.ruleGroups.foldl (ruleSetStep b.settings) { ruleSetMap := [], ruleSets := [] }
  let rules : List RouteRule := [[("protocol", .str "dns"), ("outbound", .str "dns-out")]]
  let sortedRules := sortRules b.rules
  let rules := sortedRules.foldl customRuleStep rules
  let rules := b.ruleGroups.foldl ruleGroupRuleStep rules
  { Rules := rules, RuleSet := s.ruleSets, Final := "Final", AutoDetectInterface := true }

/-! ## The remaining sections and `Build` -/

/-- Record `LogConfig`. -/
structure LogConfig where
  Level : String
  Timestamp : Bool
  Output : String
  deriving DecidableEq

/-- Record `DNSServer`. -/
structure DNSServer where
  Tag : String
  Address : String
  AddressResolver : String
  Detour : String
  deriving DecidableEq

/-- Record `DNSRule`. -/
structure DNSRule where
  RuleSet : List String
  QueryType : List String
  Server : String
  Outbound : String
  deriving DecidableEq

/-- Record `DNSConfig`. -/
structure DNSConfig where
  Servers : List DNSServer
  Rules : List DNSRule
  Final : String
  deriving DecidableEq

/-- Record `NTPConfig`. -/
structure NTPConfig where
  Enabled : Bool
  Server : String
  deriving DecidableEq

/-- Record `Inbound`. -/
structure Inbound where
  Type_ : String
  Tag : String
  Listen : String
  ListenPort : Int
  Address : List String
  AutoRoute : Bool
  StrictRoute : Bool
  Stack : String
  Sniff : Bool
  SniffOverrideDestination : Bool
  deriving DecidableEq

/-- Record `ClashAPIConfig`. -/
structure ClashAPIConfig where
  ExternalController : String
  ExternalUI : String
  ExternalUIDownloadURL : String
  Secret : String
  DefaultMode : String
  deriving DecidableEq

/-- Record `CacheFileConfig`. -/
structure CacheFileConfig where
  Enabled : Bool
  Path : String
  deriving DecidableEq

/-- Record `ExperimentalConfig`. -/
structure ExperimentalConfig where
  ClashAPI : Option ClashAPIConfig
  CacheFile : Option CacheFileConfig
  deriving DecidableEq

/-- Record `SingBoxConfig`; a nil section pointer is `none`. -/
structure SingBoxConfig where
  Log : Option LogConfig
  DNS : Option DNSConfig
  NTP : Option NTPConfig
  Inbounds : List Inbound
  Outbounds : List Outbound
  Route : Option RouteConfig
  Experimental : Option ExperimentalConfig
  deriving DecidableEq

/-- Method `ConfigBuilder.buildLog`. -/
def buildLog (_b : ConfigBuilder) : LogConfig :=
  { Level := "info", Timestamp := true, Output := "" }

/-- Method `ConfigBuilder.buildDNS`. -/
def buildDNS (b : ConfigBuilder) : DNSConfig :=
  { Servers :=
      [{ Tag := "dns_proxy", Address := b.settings.ProxyDNS, AddressResolver := "dns_resolver",
         Detour := "Proxy" },
       { Tag := "dns_direct", Address := b.settings.DirectDNS, AddressResolver := "dns_resolver",
         Detour := "DIRECT" },
       { Tag := "dns_resolver", Address := "223.5.5.5", AddressResolver := "", Detour := "" },
       { Tag := "dns_block", Address := "rcode://success", AddressResolver := "", Detour := "" }],
    Rules :=
      [{ RuleSet := ["geosite-category-ads-all"], QueryType := [], Server := "dns_block",
         Outbound := "" },
       { RuleSet := ["geosite-geolocation-cn"], QueryType := [], Server := "dns_direct",
         Outbound := "" },
       { RuleSet := ["geosite-geolocation-!cn"], QueryType := [], Server := "dns_proxy",
         Outbound := "" }],
    Final := "dns_direct" }

/-- Method `ConfigBuilder.buildNTP`. -/
def buildNTP (_b : ConfigBuilder) : NTPConfig :=
  { Enabled := true, Server := "time.apple.com" }

/-- Method `ConfigBuilder.buildInbounds`. -/
def buildInbounds (b : ConfigBuilder) : List Inbound :=
  let inbounds : List Inbound :=
    [{ Type_ := "mixed", Tag := "mixed-in", Listen := "127.0.0.1",
       ListenPort := b.settings.MixedPort, Address := [], AutoRoute := false,
       StrictRoute := false, Stack := "", Sniff := true, SniffOverrideDestination := true }]
  if b.settings.TunEnabled then
    inbounds ++
      [{ Type_ := "tun", Tag := "tun-in", Listen := "", ListenPort := 0,
         Address := ["172.19.0.1/30", "fdfe:dcba:9876::1/126"], AutoRoute := true,
         StrictRoute := true, Stack := "system", Sniff := true,
         SniffOverrideDestination := true }]
  else inbounds

/-- Decimal digits of a natural number, most significant first; `fuel` bounds the
number of digits produced. -/
def decimalDigits : Nat → Nat → List Char
  | 0, _ => []
  | fuel + 1, n =>
      if n < 10 then [Char.ofNat (48 + n)]
      else decimalDigits fuel (n / 10) ++ [Char.ofNat (48 + n % 10)]

/-- The verb `%d` of `fmt.Sprintf` on an `int`. -/
def formatInt (n : Int) : String :=
  match n with
  | Int.ofNat m => ⟨decimalDigits (m + 1) m⟩
  | Int.negSucc m => ⟨'-' :: decimalDigits (m + 2) (m + 1)⟩

/-- Method `ConfigBuilder.buildExperimental`. -/
def buildExperimental (b : ConfigBuilder) : ExperimentalConfig :=
  { ClashAPI := some
      { ExternalController := "127.0.0.1:" ++ formatInt b.settings.ClashAPIPort,
        ExternalUI := b.settings.ClashUIPath,
        ExternalUIDownloadURL :=
          "https://github.com/Zephyruso/zashboard/archive/refs/heads/gh-pages.zip",
        Secret := "", DefaultMode := "rule" },
    CacheFile := some { Enabled := true, Path := "cache.db" } }

/-- Method `ConfigBuilder.Build`; the Go error result is always nil. -/
def Build (x : Externals) (b : ConfigBuilder) : Except String SingBoxConfig :=
  let config : SingBoxConfig :=
    { Log := some (buildLog b), DNS := some (buildDNS b), NTP := some (buildNTP b),
      Inbounds := buildInbounds b, Outbounds := buildOutbounds x b,
      Route := some (buildRoute b), Experimental := none }
  if b.settings.ClashAPIPort > 0 then
    .ok { config with Experimental := some (buildExperimental b) }
  else .ok config

/-! ## Descriptions used in the statements -/

/-- Every string of the list once, at the position of its first occurrence. -/
def firstSeen : List String → List String
  | [] => []
  | t :: ts => t :: (firstSeen ts).filter (fun u => u ≠ t)

/-- Tags of the nodes the filter matches, in node order. -/
def matchingTags (x : Externals) (nodes : List Node) (f : Filter) : List String :=
  (nodes.filter (fun n => matchFilter x n f)).map Node.Tag

/-- Filters that are enabled and match at least one node, in filter order. -/
def emittedFilters (x : Externals) (b : ConfigBuilder) : List Filter :=
  b.filters.filter (fun f => f.Enabled && b.nodes.any (fun n => matchFilter x n f))

/-- Distinct non-empty country codes of the nodes, in ascending order. -/
def countryCodes (nodes : List Node) : List String :=
  sortStrings ((nodes.map Node.Country).filter (fun c => c ≠ "")).dedup

/-- Tags of the nodes of one country, in node order. -/
def countryMembers (nodes : List Node) (code : String) : List String :=
  (nodes.filter (fun n => n.Country = code)).map Node.Tag

/-- Enabled rule groups, in input order. -/
def enabledRuleGroups (b : ConfigBuilder) : List RuleGroup :=
  b.ruleGroups.filter (fun rg => rg.Enabled)

/-- A `urltest` object with the default probe URL, interval and tolerance. -/
def urltestGroup (tag : String) (members : List String) : Outbound :=
  [("tag", .str tag), ("type", .str "urltest"), ("outbounds", .strs members),
   ("url", .str "https://www.gstatic.com/generate_204"), ("interval", .str "5m"),
   ("tolerance", .int 50)]

/-- A `selector` object. -/
def selectorGroup (tag : String) (options : List String) (dflt : String) : Outbound :=
  [("tag", .str tag), ("type", .str "selector"), ("outbounds", .strs options),
   ("default", .str dflt)]

/-- The three fixed primitives. -/
def fixedOutbounds : List Outbound :=
  [[("type", .str "direct"), ("tag", .str "DIRECT")],
   [("type", .str "block"), ("tag", .str "REJECT")],
   [("type", .str "dns"), ("tag", .str "dns-out")]]

/-- Country-group tags in ascending country-code order. -/
def countryTags (x : Externals) (nodes : List Node) : List String :=
  (countryCodes nodes).map (countryGroupTag x)

/-- Names of the filters that produce a group, in filter order. -/
def filterNames (x : Externals) (b : ConfigBuilder) : List String :=
  (emittedFilters x b).map Filter.Name

/-- Node tags, each once, in first-seen order. -/
def nodeTags (b : ConfigBuilder) : List String := firstSeen (b.nodes.map Node.Tag)

/-- The set `nodeTagSet` records exactly the tags collected in `allNodeTags`. -/
def TagSetOk (s : NodeAcc) : Prop :=
  ∀ t, (mapGet s.nodeTagSet t).getD false = true ↔ t ∈ s.allNodeTags

/-! ## Sections of the outbound list, as the design describes them -/

/-- One outbound per node, in node order. -/
def nodeSection (b : ConfigBuilder) : List Outbound := b.nodes.map nodeToOutbound

/-- One group per filter that is enabled and matches a node, over the matching tags. -/
def filterSection (x : Externals) (b : ConfigBuilder) : List Outbound :=
  (emittedFilters x b).map (fun f => filterGroup f (matchingTags x b.nodes f))

/-- One `urltest` group per country code, in ascending code order. -/
def countrySection (x : Externals) (b : ConfigBuilder) : List Outbound :=
  (countryCodes b.nodes).map
    (fun c => urltestGroup (countryGroupTag x c) (countryMembers b.nodes c))

/-- The `Auto` group, present when there is a node. -/
def autoSection (b : ConfigBuilder) : List Outbound :=
  if b.nodes = [] then [] else [urltestGroup "Auto" (nodeTags b)]

/-- The `Proxy` selector. -/
def proxySelector (x : Externals) (b : ConfigBuilder) : Outbound :=
  selectorGroup "Proxy" (["Auto"] ++ countryTags x b.nodes ++ filterNames x b ++ nodeTags b) "Auto"

/-- One selector per enabled rule group, in input order. -/
def ruleGroupSection (x : Externals) (b : ConfigBuilder) : List Outbound :=
  (enabledRuleGroups b).map (fun rg =>
    selectorGroup rg.Name
      (["Proxy", "Auto", "DIRECT", "REJECT"] ++ countryTags x b.nodes ++ filterNames x b
        ++ nodeTags b) rg.Outbound)

/-- The `Final` selector. -/
def finalSelector (x : Externals) (b : ConfigBuilder) : Outbound :=
  selectorGroup "Final" (["Proxy", "DIRECT"] ++ countryTags x b.nodes ++ filterNames x b)
    b.settings.FinalOutbound

/-! ## Sample inputs -/

/-- ASCII upper-case letters with their lower-case forms. -/
def asciiLowerTable : List (Char × Char) :=
  [('A', 'a'), ('B', 'b'), ('C', 'c'), ('D', 'd'), ('E', 'e'), ('F', 'f'), ('G', 'g'),
   ('H', 'h'), ('I', 'i'), ('J', 'j'), ('K', 'k'), ('L', 'l'), ('M', 'm'), ('N', 'n'),
   ('O', 'o'), ('P', 'p'), ('Q', 'q'), ('R', 'r'), ('S', 's'), ('T', 't'), ('U', 'u'),
   ('V', 'v'), ('W', 'w'), ('X', 'x'), ('Y', 'y'), ('Z', 'z')]

/-- Lower-casing restricted to ASCII letters. -/
def asciiLower (c : Char) : Char := (asciiLowerTable.lookup c).getD c

/-- Sample externals: ASCII case mapping and a two-entry country table. -/
def sampleExternals : Externals :=
  { GetCountryEmoji := fun code => if code = "HK" then "🇭🇰" else "🌐",
    GetCountryName := fun code => if code = "HK" then "香港" else code,
    ToLowerRune := asciiLower,
    EqualFold := fun s t => decide (s.data.map asciiLower = t.data.map asciiLower) }

/-- Sample settings. -/
def sampleSettings : Settings :=
  { ProxyDNS := "https://1.1.1.1/dns-query", DirectDNS := "223.5.5.5", MixedPort := 2080,
    TunEnabled := false, ClashAPIPort := 9091, ClashUIPath := "ui", FinalOutbound := "Proxy",
    RuleSetBaseURL := "https://example.com/rule-set" }

/-- Sample node in Hong Kong. -/
def nodeHK1 : Node :=
  { Tag := "HK-01", NodeType := "trojan", Server := "hk1.example.com", ServerPort := 443,
    Country := "HK", Extra := [("password", .str "secret")] }

/-- Sample node in the United States. -/
def nodeUS1 : Node :=
  { Tag := "US-01", NodeType := "vless", Server := "us1.example.com", ServerPort := 8443,
    Country := "US", Extra := [("uuid", .str "u-1")] }

/-- Sample node without a country. -/
def nodePlain : Node :=
  { Tag := "plain", NodeType := "shadowsocks", Server := "10.0.0.1", ServerPort := 8388,
    Country := "", Extra := [] }

/-- Sample node whose `Extra` carries its own `tag`. -/
def nodeRetagged : Node :=
  { Tag := "JP-01", NodeType := "trojan", Server := "jp1.example.com", ServerPort := 443,
    Country := "", Extra := [("tag", .str "renamed")] }

/-- Sample filter selecting Hong Kong nodes, with default probe settings. -/
def filterHK : Filter :=
  { Name := "HK", Enabled := true, Mode := "urltest", URLTestConfig := none,
    IncludeCountries := ["hk"], ExcludeCountries := [], Include := [], Exclude := [] }

/-- Sample filter matching no node. -/
def filterEmpty : Filter :=
  { Name := "Empty", Enabled := true, Mode := "urltest", URLTestConfig := none,
    IncludeCountries := ["DE"], ExcludeCountries := [], Include := [], Exclude := [] }

/-- Sample filter excluding the keyword `us`. -/
def filterNoUS : Filter :=
  { Name := "NoUS", Enabled := true, Mode := "selector", URLTestConfig := none,
    IncludeCountries := [], ExcludeCountries := [], Include := ["0"], Exclude := ["us"] }

/-- Sample enabled rule group. -/
def groupStreaming : RuleGroup :=
  { Name := "Streaming", Enabled := true, Outbound := "Proxy", SiteRules := ["netflix"],
    IPRules := ["netflix"] }

/-- Sample disabled rule group. -/
def groupOff : RuleGroup :=
  { Name := "Off", Enabled := false, Outbound := "DIRECT", SiteRules := ["cn"], IPRules := [] }

/-- Sample build input with three nodes (one tag repeated), three filters, two rule groups. -/
def sampleBuilder : ConfigBuilder :=
  { settings := sampleSettings, nodes := [nodeUS1, nodeHK1, nodePlain, nodeHK1],
    filters := [filterHK, filterEmpty, filterNoUS], rules := [],
    ruleGroups := [groupStreaming, groupOff] }

/-- Sample build input with no node, filter, rule or rule group. -/
def emptyBuilder : ConfigBuilder :=
  { settings := sampleSettings, nodes := [], filters := [], rules := [], ruleGroups := [] }

/-- Sample build input with a single node whose `Extra` overrides `tag`. -/
def retaggedBuilder : ConfigBuilder :=
  { settings := sampleSettings, nodes := [nodeRetagged], filters := [], rules := [],
    ruleGroups := [] }

/-! ## References between outbounds -/

/-- Tags listed in the `outbounds` field of an object (none when the field is absent). -/
def memberTags (g : Outbound) : List String :=
  match mapGet g "outbounds" with
  | some (.strs l) => l
  | _ => []

/-- Some outbound of the list carries the tag `t`. -/
def HasTag (l : List Outbound) (t : String) : Prop :=
  ∃ o ∈ l, mapGet o "tag" = some (.str t)

/-- Every tag listed by `g`, apart from the exempted ones, is the tag of an outbound of
`earlier`. -/
def RefsResolved (exempt : String → Prop) (earlier : List Outbound) (g : Outbound) : Prop :=
  ∀ t ∈ memberTags g, exempt t ∨ HasTag earlier t

/-- Every object of `groups` lists only exempted tags and tags of outbounds of `seen` or of
objects standing before it in `groups`. -/
def GroupsResolved (exempt : String → Prop) (seen groups : List Outbound) : Prop :=
  ∀ pre g post, groups = pre ++ g :: post → RefsResolved exempt (seen ++ pre) g

instance (l : List Outbound) (t : String) : Decidable (HasTag l t) := by
  unfold HasTag; infer_instance

/-! ## More sample inputs -/

/-- Sample filter with an upper-case include keyword. -/
def filterUpperHK : Filter :=
  { Name := "UpperHK", Enabled := true, Mode := "selector", URLTestConfig := none,
    IncludeCountries := [], ExcludeCountries := [], Include := ["HK"], Exclude := [] }

/-- Sample node with a tag in lower case. -/
def nodeLowerHK : Node :=
  { Tag := "hk-01", NodeType := "trojan", Server := "hk1.example.com", ServerPort := 443,
    Country := "", Extra := [] }

/-- Sample filter whose only condition is the exclude keyword `HK`, in upper case. -/
def filterExcludeUpperHK : Filter :=
  { Name := "NoHK", Enabled := true, Mode := "selector", URLTestConfig := none,
    IncludeCountries := [], ExcludeCountries := [], Include := [], Exclude := ["HK"] }

/-- Sample filter with no condition at all. -/
def filterAll : Filter :=
  { Name := "All", Enabled := true, Mode := "urltest", URLTestConfig := none,
    IncludeCountries := [], ExcludeCountries := [], Include := [], Exclude := [] }

/-! ## Descriptions of the route section -/

/-- Route rules of one rule group: one over its geosite tags when `SiteRules` is non-empty,
then one over its geoip tags when `IPRules` is non-empty, both routed to the group. -/
def groupRouteRules (rg : RuleGroup) : List RouteRule :=
  (if rg.SiteRules = [] then []
    else [[("rule_set", Value.strs (rg.SiteRules.map (fun s => "geosite-" ++ s))),
           ("outbound", Value.str rg.Name)]]) ++
  (if rg.IPRules = [] then []
    else [[("rule_set", Value.strs (rg.IPRules.map (fun i => "geoip-" ++ i))),
           ("outbound", Value.str rg.Name)]])

/-- Rule-set entry of a geosite category. -/
def siteRuleSet (settings : Settings) (s : String) : RuleSet :=
  { Tag := "geosite-" ++ s, Type_ := "remote", Format := "binary",
    URL := settings.RuleSetBaseURL ++ "/geosite-" ++ s ++ ".srs", DownloadDetour := "DIRECT" }

/-- Rule-set entry of a geoip category. -/
def ipRuleSet (settings : Settings) (i : String) : RuleSet :=
  { Tag := "geoip-" ++ i, Type_ := "remote", Format := "binary",
    URL := settings.RuleSetBaseURL ++ "/../rule-set-geoip/geoip-" ++ i ++ ".srs",
    DownloadDetour := "DIRECT" }

/-- Rule-set entries referenced by the enabled rule groups, in order of reference, with
repetitions. -/
def referencedRuleSets (b : ConfigBuilder) : List RuleSet :=
  (b.ruleGroups.filter (fun rg => rg.Enabled)).flatMap (fun rg =>
    rg.SiteRules.map (siteRuleSet b.settings) ++ rg.IPRules.map (ipRuleSet b.settings))

/-- Body shared by the two rule-set loops of `buildRoute`: the entry is added unless its
tag is already recorded. -/
def addRuleSet (s : RuleSetAcc) (e : RuleSet) : RuleSetAcc :=
  if !((mapGet s.ruleSetMap e.Tag).getD false) then
    { ruleSetMap := mapSet s.ruleSetMap e.Tag true, ruleSets := s.ruleSets ++ [e] }
  else s

/-- The map `ruleSetMap` records exactly the tags of the entries collected so far. -/
def RuleSetOk (s : RuleSetAcc) : Prop :=
  ∀ t, (mapGet s.ruleSetMap t).getD false = true ↔ t ∈ s.ruleSets.map RuleSet.Tag

/-- Sample custom rules, out of priority order, one disabled, one of unknown type. -/
def sampleRules : List Rule :=
  [{ Priority := 20, Enabled := true, RuleType := "geosite", Values := ["openai"],
     Outbound := "Proxy" },
   { Priority := 10, Enabled := true, RuleType := "domain_suffix", Values := ["example.com"],
     Outbound := "DIRECT" },
   { Priority := 15, Enabled := false, RuleType := "port", Values := ["22"],
     Outbound := "REJECT" }]

/-- Sample enabled rule group sharing a geosite category with `groupStreaming`. -/
def groupMedia : RuleGroup :=
  { Name := "Media", Enabled := true, Outbound := "Auto", SiteRules := ["youtube", "netflix"],
    IPRules := [] }

/-- Sample build input with custom rules and three rule groups. -/
def routeBuilder : ConfigBuilder :=
  { settings := sampleSettings, nodes := [nodeHK1], filters := [], rules := sampleRules,
    ruleGroups := [groupStreaming, groupOff, groupMedia] }

/-! ## Strings as bytes -/

/-- UTF-8 bytes of one rune. -/
def runeBytes (c : Char) : List Nat :=
  let v := c.toNat
  if v < 128 then [v]
  else if v < 2048 then [192 + v / 64, 128 + v % 64]
  else if v < 65536 then [224 + v / 4096, 128 + v / 64 % 64, 128 + v % 64]
  else [240 + v / 262144, 128 + v / 4096 % 64, 128 + v / 64 % 64, 128 + v % 64]

/-- Conversion `[]byte(s)`: the UTF-8 bytes of the string. -/
def stringBytes (s : String) : List Nat := s.data.flatMap runeBytes

/-- Builtin `len(s)`: the number of bytes of the string. -/
def byteLen (s : String) : Nat := (stringBytes s).length

/-- Constant `utf8.RuneError`, the rune U+FFFD. -/
def RuneError : Char := Char.ofNat 0xFFFD

/-- Table `first` with `acceptRanges` of package utf8: for a leading byte of a multi-byte
encoding, the width of the encoding and the bounds of its second byte; `none` for a byte
that leads no encoding. -/
def leadInfo (p0 : Nat) : Option (Nat × Nat × Nat) :=
  if 0xC2 ≤ p0 ∧ p0 ≤ 0xDF then some (2, 0x80, 0xBF)
  else if p0 = 0xE0 then some (3, 0xA0, 0xBF)
  else if 0xE1 ≤ p0 ∧ p0 ≤ 0xEC then some (3, 0x80, 0xBF)
  else if p0 = 0xED then some (3, 0x80, 0x9F)
  else if 0xEE ≤ p0 ∧ p0 ≤ 0xEF then some (3, 0x80, 0xBF)
  else if p0 = 0xF0 then some (4, 0x90, 0xBF)
  else if 0xF1 ≤ p0 ∧ p0 ≤ 0xF3 then some (4, 0x80, 0xBF)
  else if p0 = 0xF4 then some (4, 0x80, 0x8F)
  else none

/-- Function `utf8.DecodeRune`: the first rune of the bytes and its width. A byte that does
not start a complete valid encoding yields `RuneError` with width 1. -/
def DecodeRune : List Nat → Char × Nat
  | [] => (RuneError, 0)
  | p0 :: rest =>
      if p0 < 0x80 then (Char.ofNat p0, 1)
      else
        match leadInfo p0 with
        | none => (RuneError, 1)
        | some (sz, lo, hi) =>
            match rest with
            | [] => (RuneError, 1)
            | b1 :: rest1 =>
                if b1 < lo ∨ hi < b1 then (RuneError, 1)
                else if sz = 2 then (Char.ofNat ((p0 - 0xC0) * 64 + (b1 - 0x80)), 2)
                else
                  match rest1 with
                  | [] => (RuneError, 1)
                  | b2 :: rest2 =>
                      if b2 < 0x80 ∨ 0xBF < b2 then (RuneError, 1)
                      else if sz = 3 then
                        (Char.ofNat (((p0 - 0xE0) * 64 + (b1 - 0x80)) * 64 + (b2 - 0x80)), 3)
                      else
                        match rest2 with
                        | [] => (RuneError, 1)
                        | b3 :: _ =>
                            if b3 < 0x80 ∨ 0xBF < b3 then (RuneError, 1)
                            else
                              (Char.ofNat ((((p0 - 0xF0) * 64 + (b1 - 0x80)) * 64
                                + (b2 - 0x80)) * 64 + (b3 - 0x80)), 4)

/-- Runes of a byte sequence as Go reads them (`for range`, `[]rune(s)`): `DecodeRune`
applied until the bytes are used up. `fuel` bounds the number of runes; the number of
bytes is enough. -/
def bytesRunes : Nat → List Nat → List Char
  | 0, _ => []
  | _ + 1, [] => []
  | fuel + 1, p0 :: rest =>
      (DecodeRune (p0 :: rest)).1
        :: bytesRunes fuel ((p0 :: rest).drop (DecodeRune (p0 :: rest)).2)

/-- Conversion `string(b)`. The string is shown by its runes as Go reads them: for the bytes
of a UTF-8 text these are the characters of the text; a byte that starts no complete valid
encoding appears as U+FFFD, one for each such byte, and no other byte is dropped or
joined. -/
def bytesString (b : List Nat) : String := ⟨bytesRunes b.length b⟩

/-- Equality of results is decidable. -/
instance exceptDecEq {ε α : Type} [DecidableEq ε] [DecidableEq α] : DecidableEq (Except ε α)
  | .ok a, .ok b =>
      if h : a = b then isTrue (by rw [h]) else isFalse (fun e => h (Except.ok.inj e))
  | .error a, .error b =>
      if h : a = b then isTrue (by rw [h]) else isFalse (fun e => h (Except.error.inj e))
  | .ok _, .error _ => isFalse (fun e => Except.noConfusion e)
  | .error _, .ok _ => isFalse (fun e => Except.noConfusion e)

/-! ## Package encoding/base64 of the Go library -/

/-- White space in the sense of `unicode.IsSpace`. -/
def isSpace (c : Char) : Bool :=
  c = '\t' || c = '\n' || c.toNat = 11 || c.toNat = 12 || c = '\r' || c = ' ' ||
  c.toNat = 133 || c.toNat = 160 || c.toNat = 5760 || (8192 ≤ c.toNat && c.toNat ≤ 8202) ||
  c.toNat = 8232 || c.toNat = 8233 || c.toNat = 8239 || c.toNat = 8287 || c.toNat = 12288

/-- A base64 encoding: its 64-character alphabet and whether it pads with `=`. -/
structure Encoding where
  alphabet : List Char
  padded : Bool

/-- Alphabet of `base64.StdEncoding`. -/
def stdAlphabet : List Char :=
  "ABCDEFGHIJKLMNOPQRSTUVWXYZabcdefghijklmnopqrstuvwxyz0123456789+/".data

/-- Alphabet of `base64.URLEncoding`. -/
def urlAlphabet : List Char :=
  "ABCDEFGHIJKLMNOPQRSTUVWXYZabcdefghijklmnopqrstuvwxyz0123456789-_".data

/-- Encoding `base64.StdEncoding`. -/
def StdEncoding : Encoding := { alphabet := stdAlphabet, padded := true }

/-- Encoding `base64.URLEncoding`. -/
def URLEncoding : Encoding := { alphabet := urlAlphabet, padded := true }

/-- Encoding `base64.RawStdEncoding`. -/
def RawStdEncoding : Encoding := { alphabet := stdAlphabet, padded := false }

/-- Encoding `base64.RawURLEncoding`. -/
def RawURLEncoding : Encoding := { alphabet := urlAlphabet, padded := false }

/-- Character of a 6-bit value. -/
def sextetChar (enc : Encoding) (v : Nat) : Char := enc.alphabet.getD v 'A'

/-- Position of a character in a list of characters. -/
def charIndex : List Char → Char → Option Nat
  | [], _ => none
  | a :: rest, c => if a = c then some 0 else (charIndex rest c).map (fun i => i + 1)

/-- The 6-bit value of a character, if it belongs to the alphabet. -/
def charSextet (enc : Encoding) (c : Char) : Option Nat := charIndex enc.alphabet c

/-- Characters of the encoding of a byte sequence. -/
def encodeBytes (enc : Encoding) : List Nat → List Char
  | a :: b :: c :: rest =>
      sextetChar enc (a / 4) :: sextetChar enc (a % 4 * 16 + b / 16)
        :: sextetChar enc (b % 16 * 4 + c / 64) :: sextetChar enc (c % 64)
        :: encodeBytes enc rest
  | [a, b] =>
      sextetChar enc (a / 4) :: sextetChar enc (a % 4 * 16 + b / 16)
        :: sextetChar enc (b % 16 * 4) :: (if enc.padded then ['='] else [])
  | [a] =>
      sextetChar enc (a / 4) :: sextetChar enc (a % 4 * 16)
        :: (if enc.padded then ['=', '='] else [])
  | [] => []

/-- Method `Encoding.EncodeToString`. -/
def EncodeToString (enc : Encoding) (src : List Nat) : String := ⟨encodeBytes enc src⟩

/-- Where the decoder stands: inside a quantum with the sextets read so far (fewer than
four), after the first `=` of a two-character padding, or after the complete padding. -/
inductive DecodeState where
  | quantum (buf : List Nat)
  | padding
  | done

/-- Bytes held by the sextets of a quantum: three for four sextets, two for three, one for
two. -/
def quantumBytes (buf : List Nat) : List Nat :=
  let val := buf.getD 0 0 * 262144 + buf.getD 1 0 * 4096 + buf.getD 2 0 * 64 + buf.getD 3 0
  ([val / 65536 % 256, val / 256 % 256, val % 256]).take (buf.length - 1)

/-- The decoder of `Encoding.Decode` (not strict): line breaks are skipped, a quantum ends
at four sextets or at the padding, nothing but line breaks may follow the padding, and an
input that stops inside a quantum is accepted only without padding and after at least two
sextets. The result is `none` where Go returns a `CorruptInputError`. -/
def decodeLoop (enc : Encoding) : DecodeState → List Nat → List Char → Option (List Nat)
  | .quantum buf, out, [] =>
      if buf.length = 0 then some out
      else if buf.length = 1 ∨ enc.padded then none
      else some (out ++ quantumBytes buf)
  | .quantum buf, out, c :: rest =>
      match charSextet enc c with
      | some v =>
          if buf.length = 3 then decodeLoop enc (.quantum []) (out ++ quantumBytes (buf ++ [v])) rest
          else decodeLoop enc (.quantum (buf ++ [v])) out rest
      | none =>
          if c = '\n' ∨ c = '\r' then decodeLoop enc (.quantum buf) out rest
          else if enc.padded ∧ c = '=' then
            if buf.length = 2 then decodeLoop enc .padding (out ++ quantumBytes buf) rest
            else if buf.length = 3 then decodeLoop enc .done (out ++ quantumBytes buf) rest
            else none
          else none
  | .padding, _, [] => none
  | .padding, out, c :: rest =>
      if c = '\n' ∨ c = '\r' then decodeLoop enc .padding out rest
      else if c = '=' then decodeLoop enc .done out rest
      else none
  | .done, out, [] => some out
  | .done, out, c :: rest =>
      if c = '\n' ∨ c = '\r' then decodeLoop enc .done out rest else none

/-- The alphabet assigns distinct characters, none of them `=` or a line break, to the 64
sextets. -/
def Encoding.WellFormed (enc : Encoding) : Prop :=
  charSextet enc '=' = none ∧ ∀ v, v < 64 →
    charSextet enc (sextetChar enc v) = some v ∧ sextetChar enc v ≠ '=' ∧
    sextetChar enc v ≠ '\n' ∧ sextetChar enc v ≠ '\r' ∧ isSpace (sextetChar enc v) = false ∧
    (sextetChar enc v).toNat < 128

/-- Method `Encoding.DecodeString`; `none` stands for the error result. -/
def DecodeString (enc : Encoding) (s : String) : Option (List Nat) :=
  decodeLoop enc (.quantum []) [] s.data

/-! ## Package strings of the Go library -/

/-- Characters left after dropping the trailing ones that satisfy `p`. -/
def dropTrailing (p : Char → Bool) (l : List Char) : List Char :=
  (l.reverse.dropWhile p).reverse

/-- Function `strings.TrimSpace`. -/
def TrimSpace (s : String) : String := ⟨dropTrailing isSpace (s.data.dropWhile isSpace)⟩

/-- Function `strings.TrimRight(s, "=")`. -/
def TrimRightEq (s : String) : String := ⟨dropTrailing (fun c => c = '=') s.data⟩

/-- Function `strings.Repeat("=", n)`. -/
def RepeatEq (n : Nat) : String := ⟨List.replicate n '='⟩

/-! ## Package utils -/

/-- The padding step of `DecodeBase64`: `=` appended up to a multiple of four bytes. -/
def padQuantum (s : String) : String :=
  let m := byteLen s % 4
  if m ≠ 0 then s ++ RepeatEq (4 - m) else s

/-- Function `DecodeBase64`; the error of the last attempt is shown as a fixed text, and the
decoded string by its runes (see `bytesString`). -/
def DecodeBase64 (s : String) : Except String String :=
  let s := TrimSpace s
  let s := padQuantum s
  match DecodeString StdEncoding s with
  | some decoded => .ok (bytesString decoded)
  | none =>
    match DecodeString URLEncoding s with
    | some decoded => .ok (bytesString decoded)
    | none =>
      let s := TrimRightEq s
      match DecodeString RawStdEncoding s with
      | some decoded => .ok (bytesString decoded)
      | none =>
        match DecodeString RawURLEncoding s with
        | some decoded => .ok (bytesString decoded)
        | none => .error "illegal base64 data"

/-- Function `EncodeBase64`. -/
def EncodeBase64 (s : String) : String := EncodeToString StdEncoding (stringBytes s)

/-! ## String functions used by the parsers -/

/-- Position of the first occurrence of `sub` in a list of characters. -/
def indexOfChars (sub : List Char) : List Char → Option Nat
  | [] => if sub = [] then some 0 else none
  | c :: rest =>
      if sub.isPrefixOf (c :: rest) then some 0
      else (indexOfChars sub rest).map (fun i => i + 1)

/-- Function `strings.Index`; `none` stands for the result -1. -/
def Index (s substr : String) : Option Nat := indexOfChars substr.data s.data

/-- Function `strings.LastIndex`; `none` stands for the result -1. -/
def LastIndex (s substr : String) : Option Nat :=
  (indexOfChars substr.data.reverse s.data.reverse).map
    (fun i => s.data.length - i - substr.data.length)

/-- Slice `s[:i]`. -/
def sliceTo (s : String) (i : Nat) : String := ⟨s.data.take i⟩

/-- Slice `s[i:]`. -/
def sliceFrom (s : String) (i : Nat) : String := ⟨s.data.drop i⟩

/-- Function `strings.TrimPrefix`. -/
def TrimPrefix (s pre : String) : String :=
  if pre.data.isPrefixOf s.data then ⟨s.data.drop pre.data.length⟩ else s

/-- Pieces of a list of characters between the occurrences of `sep`; `cur` holds the
piece being read. -/
def splitChars (sep : Char) : List Char → List Char → List (List Char)
  | cur, [] => [cur]
  | cur, c :: rest => if c = sep then cur :: splitChars sep [] rest else splitChars sep (cur ++ [c]) rest

/-- Function `strings.Split` for a one-character separator. -/
def Split (s : String) (sep : Char) : List String :=
  (splitChars sep [] s.data).map (fun l => (⟨l⟩ : String))

/-- Value of a hexadecimal digit. -/
def hexValue (c : Char) : Option Nat :=
  if '0' ≤ c ∧ c ≤ '9' then some (c.toNat - 48)
  else if 'a' ≤ c ∧ c ≤ 'f' then some (c.toNat - 87)
  else if 'A' ≤ c ∧ c ≤ 'F' then some (c.toNat - 55)
  else none

/-- Bytes of a query component with `%XX` replaced by the byte and `+` by a space; `none`
when a `%` is not followed by two hexadecimal digits. -/
def unescapeBytes : List Char → Option (List Nat)
  | [] => some []
  | c :: rest =>
      if c = '%' then
        match rest with
        | h1 :: h2 :: rest2 =>
            match hexValue h1, hexValue h2, unescapeBytes rest2 with
            | some a, some b, some tail => some ((a * 16 + b) :: tail)
            | _, _, _ => none
        | _ => none
      else if c = '+' then (unescapeBytes rest).map (fun tail => 32 :: tail)
      else (unescapeBytes rest).map (fun tail => runeBytes c ++ tail)

/-- Function `url.QueryUnescape`; the unescaped string is shown by its runes (see
`bytesString`). -/
def QueryUnescape (s : String) : Except String String :=
  match unescapeBytes s.data with
  | some b => .ok (bytesString b)
  | none => .error "invalid URL escape"

/-- The string result of `url.QueryUnescape` with the error discarded (`v, _ := ...`): Go
returns the empty string along with an error. -/
def queryUnescaped (s : String) : String :=
  match QueryUnescape s with
  | .ok v => v
  | .error _ => ""

/-- Type `url.Values`: the values of each query key. -/
abbrev Values := List (String × List String)

/-- Method `Values.Get`: the first value of the key, or the empty string. -/
def Values.Get (v : Values) (key : String) : String :=
  match mapGet v key with
  | some (first :: _) => first
  | _ => ""

/-- Functions of package parser whose code is not among the sources. -/
structure Helpers where
  parseServerInfo : String → Except String (String × Int)
  parseURLParams : String → Except String (String × Values × String)
  getParamString : Values → String → String → String
  getParamBool : Values → String → Bool
  getParamInt : Values → String → Int → Int

/-! ## The absent helpers, after their description in the design -/

/-- Value of a string of decimal digits, `none` when it is empty or has another character. -/
def parseDecimal (l : List Char) : Option Nat :=
  if l = [] then none
  else l.foldl (fun acc c =>
    match acc with
    | some n => if '0' ≤ c ∧ c ≤ '9' then some (n * 10 + (c.toNat - 48)) else none
    | none => none) (some 0)

/-- Modelled from the spec: `parseServerInfo`, absent from the sources, "splits a
`host:port` literal (supporting bracketed IPv6), fails with `MalformedAddress` if the port
segment is missing or non-numeric". The split is at the last colon. -/
def specParseServerInfo (hostPort : String) : Except String (String × Int) :=
  match LastIndex hostPort ":" with
  | none => .error "MalformedAddress"
  | some idx =>
      let host := (sliceTo hostPort idx).data
      let host :=
        if host.head? = some '[' ∧ host.getLast? = some ']' then (host.drop 1).dropLast
        else host
      match parseDecimal (sliceFrom hostPort (idx + 1)).data with
      | some port => .ok (⟨host⟩, Int.ofNat port)
      | none => .error "MalformedAddress"

/-- One `key=value` piece of a query string added to the values. -/
def addQueryPair (acc : Option Values) (piece : String) : Option Values :=
  match acc with
  | none => none
  | some v =>
      if piece = "" then some v
      else
        let key := match Index piece "=" with
          | some i => sliceTo piece i
          | none => piece
        let value := match Index piece "=" with
          | some i => sliceFrom piece (i + 1)
          | none => ""
        match QueryUnescape key, QueryUnescape value with
        | .ok k, .ok w => some (mapSet v k ((mapGet v k).getD [] ++ [w]))
        | _, _ => none

/-- Function `url.ParseQuery`: the pieces between `&`, each split at its first `=` and
unescaped. -/
def ParseQuery (query : String) : Except String Values :=
  match (Split query '&').foldl addQueryPair (some []) with
  | some v => .ok v
  | none => .error "MalformedURI"

/-- Modelled from the spec: `parseURLParams`, absent from the sources, "strips the scheme
prefix, extracts and percent-decodes the fragment as `name` (empty if absent), extracts and
parses the query string, and returns the remaining `user-info@host:port` segment
unmodified"; it fails with `MalformedURI` when the fragment or the query cannot be
decoded. -/
def specParseURLParams (uri : String) : Except String (String × Values × String) :=
  let rest := match Index uri "://" with
    | some i => sliceFrom uri (i + 3)
    | none => uri
  let fragment := match Index rest "#" with
    | some i => sliceFrom rest (i + 1)
    | none => ""
  let rest := match Index rest "#" with
    | some i => sliceTo rest i
    | none => rest
  let query := match Index rest "?" with
    | some i => sliceFrom rest (i + 1)
    | none => ""
  let addressPart := match Index rest "?" with
    | some i => sliceTo rest i
    | none => rest
  match QueryUnescape fragment, ParseQuery query with
  | .ok name, .ok params => .ok (addressPart, params, name)
  | _, _ => .error "MalformedURI"

/-- Modelled from the spec: `getParamString`, absent from the sources, "read a query
parameter with a typed default": the value of the key, or the default when the key has no
value or an empty one. -/
def specGetParamString (params : Values) (key defaultValue : String) : String :=
  if params.Get key = "" then defaultValue else params.Get key

/-- Modelled from the spec: `getParamBool`, absent from the sources: "boolean parsing
accepts `true`/`1` case-insensitively, anything else maps to `false`". -/
def specGetParamBool (params : Values) (key : String) : Bool :=
  decide ((params.Get key).data.map asciiLower = "true".data) || decide (params.Get key = "1")

/-- Modelled from the spec: `getParamInt`, absent from the sources, "read a query parameter
with a typed default": the decimal value of the key, or the default. -/
def specGetParamInt (params : Values) (key : String) (defaultValue : Int) : Int :=
  match (params.Get key).data with
  | '-' :: digits =>
      match parseDecimal digits with
      | some n => - Int.ofNat n
      | none => defaultValue
  | digits =>
      match parseDecimal digits with
      | some n => Int.ofNat n
      | none => defaultValue

/-- The absent helpers as the design describes them. -/
def specHelpers : Helpers :=
  { parseServerInfo := specParseServerInfo, parseURLParams := specParseURLParams,
    getParamString := specGetParamString, getParamBool := specGetParamBool,
    getParamInt := specGetParamInt }

/-! ## Protocol parsers -/

/-- The two branches of `ShadowsocksParser.Parse` on the text before the fragment: the
SIP002 form when it has an `@`, the legacy form otherwise. The result is method, password,
server and port. -/
def shadowsocksCredentials (h : Helpers) (rawURL : String) :
    Except String (String × String × String × Int) :=
  match LastIndex rawURL "@" with
  | some atIdx =>
      let userInfo := sliceTo rawURL atIdx
      let serverPart := sliceFrom rawURL (atIdx + 1)
      match h.parseServerInfo serverPart with
      | .error e => .error ("解析服务器地址失败: " ++ e)
      | .ok (server, port) =>
          let decoded : Except String String :=
            match DecodeBase64 userInfo with
            | .ok d => .ok d
            | .error _ =>
                match QueryUnescape userInfo with
                | .ok d => .ok d
                | .error e => .error ("解码用户信息失败: " ++ e)
          match decoded with
          | .error e => .error e
          | .ok decoded =>
              match Index decoded ":" with
              | none => .error "无效的用户信息格式"
              | some colonIdx =>
                  .ok (sliceTo decoded colonIdx, sliceFrom decoded (colonIdx + 1), server, port)
  | none =>
      match DecodeBase64 rawURL with
      | .error e => .error ("解码失败: " ++ e)
      | .ok decoded =>
          match LastIndex decoded "@" with
          | none => .error "无效的 URL 格式"
          | some atIdx =>
              let userInfo := sliceTo decoded atIdx
              let serverPart := sliceFrom decoded (atIdx + 1)
              match h.parseServerInfo serverPart with
              | .error e => .error ("解析服务器地址失败: " ++ e)
              | .ok (server, port) =>
                  match Index userInfo ":" with
                  | none => .error "无效的用户信息格式"
                  | some colonIdx =>
                      .ok (sliceTo userInfo colonIdx, sliceFrom userInfo (colonIdx + 1),
                        server, port)

/-- The fragment name read by `ShadowsocksParser.Parse`, empty without a `#`. -/
def shadowsocksName (rawURL : String) : String :=
  match Index rawURL "#" with
  | some idx => queryUnescaped (sliceFrom rawURL (idx + 1))
  | none => ""

/-- The text before the fragment in `ShadowsocksParser.Parse`. -/
def shadowsocksBody (rawURL : String) : String :=
  match Index rawURL "#" with
  | some idx => sliceTo rawURL idx
  | none => rawURL

/-- Method `ShadowsocksParser.Parse`. -/
def ShadowsocksParser.Parse (h : Helpers) (rawURL : String) : Except String Node :=
  let rawURL := TrimPrefix rawURL "ss://"
  let name := shadowsocksName rawURL
  let rawURL := shadowsocksBody rawURL
  match shadowsocksCredentials h rawURL with
  | .error e => .error e
  | .ok (method, password, server, port) =>
      let name := if name = "" then server ++ ":" ++ formatInt port else name
      .ok { Tag := name, NodeType := "shadowsocks", Server := server, ServerPort := port,
            Country := "",
            Extra := [("method", .str method), ("password", .str password)] }

/-- The block `TLS/Reality` of `TrojanParser.Parse` and `VlessParser.Parse` (the same text
in both): the `tls` object for a security value other than `none`. -/
def realityTLS (h : Helpers) (params : Values) (security : String) : List (String × Value) :=
  let tls : List (String × Value) := [("enabled", .bool true)]
  let tls :=
    if params.Get "sni" ≠ "" then mapSet tls "server_name" (.str (params.Get "sni"))
    else if params.Get "host" ≠ "" then mapSet tls "server_name" (.str (params.Get "host"))
    else tls
  let tls :=
    if h.getParamBool params "allowInsecure" || h.getParamBool params "insecure" then
      mapSet tls "insecure" (.bool true)
    else tls
  let tls :=
    if params.Get "alpn" ≠ "" then mapSet tls "alpn" (.strs (Split (params.Get "alpn") ','))
    else tls
  if security = "reality" then
    let reality : List (String × Value) := [("enabled", .bool true)]
    let reality :=
      if params.Get "pbk" ≠ "" then mapSet reality "public_key" (.str (params.Get "pbk"))
      else reality
    let reality :=
      if params.Get "sid" ≠ "" then mapSet reality "short_id" (.str (params.Get "sid"))
      else reality
    let tls := mapSet tls "reality" (.obj reality)
    let fp := h.getParamString params "fp" "chrome"
    mapSet tls "utls" (.obj [("enabled", .bool true), ("fingerprint", .str fp)])
  else if params.Get "fp" ≠ "" then
    mapSet tls "utls" (.obj [("enabled", .bool true), ("fingerprint", .str (params.Get "fp"))])
  else tls

/-- The `transport` object of `TrojanParser.Parse` for a transport type other than `tcp`. -/
def trojanTransport (params : Values) (transportType : String) : List (String × Value) :=
  let transport : List (String × Value) := [("type", .str transportType)]
  if transportType = "ws" then
    let transport :=
      if params.Get "path" ≠ "" then mapSet transport "path" (.str (params.Get "path"))
      else transport
    if params.Get "host" ≠ "" then
      mapSet transport "headers" (.obj [("Host", .str (params.Get "host"))])
    else transport
  else if transportType = "grpc" then
    if params.Get "serviceName" ≠ "" then
      mapSet transport "service_name" (.str (params.Get "serviceName"))
    else transport
  else transport

/-- Method `TrojanParser.Parse`. -/
def TrojanParser.Parse (h : Helpers) (rawURL : String) : Except String Node :=
  match h.parseURLParams rawURL with
  | .error e => .error e
  | .ok (addressPart, params, name) =>
      match Index addressPart "@" with
      | none => .error "无效的 Trojan URL 格式"
      | some atIdx =>
          let password := queryUnescaped (sliceTo addressPart atIdx)
          let serverPart := sliceFrom addressPart (atIdx + 1)
          match h.parseServerInfo serverPart with
          | .error e => .error ("解析服务器地址失败: " ++ e)
          | .ok (server, port) =>
              let name := if name = "" then server ++ ":" ++ formatInt port else name
              let extra : List (String × Value) := [("password", .str password)]
              let extra :=
                if params.Get "flow" ≠ "" then mapSet extra "flow" (.str (params.Get "flow"))
                else extra
              let transportType := h.getParamString params "type" "tcp"
              let extra :=
                if transportType ≠ "tcp" then
                  mapSet extra "transport" (.obj (trojanTransport params transportType))
                else extra
              let security := h.getParamString params "security" "tls"
              let extra :=
                if security ≠ "none" then mapSet extra "tls" (.obj (realityTLS h params security))
                else extra
              .ok { Tag := name, NodeType := "trojan", Server := server, ServerPort := port,
                    Country := "", Extra := extra }

/-- The `transport` object of `VlessParser.Parse` for a transport type other than `tcp`. -/
def vlessTransport (params : Values) (transportType : String) : List (String × Value) :=
  let transport : List (String × Value) := [("type", .str transportType)]
  if transportType = "ws" then
    let transport :=
      if params.Get "path" ≠ "" then mapSet transport "path" (.str (params.Get "path"))
      else transport
    if params.Get "host" ≠ "" then
      mapSet transport "headers" (.obj [("Host", .str (params.Get "host"))])
    else transport
  else if transportType = "http" ∨ transportType = "h2" then
    let transport :=
      if params.Get "path" ≠ "" then mapSet transport "path" (.str (params.Get "path"))
      else transport
    if params.Get "host" ≠ "" then
      mapSet transport "host" (.strs (Split (params.Get "host") ','))
    else transport
  else if transportType = "grpc" then
    let transport :=
      if params.Get "serviceName" ≠ "" then
        mapSet transport "service_name" (.str (params.Get "serviceName"))
      else transport
    if params.Get "mode" ≠ "" then mapSet transport "mode" (.str (params.Get "mode"))
    else transport
  else if transportType = "quic" then
    if params.Get "quicSecurity" ≠ "" then
      mapSet transport "security" (.str (params.Get "quicSecurity"))
    else transport
  else transport

/-- Method `VlessParser.Parse`. -/
def VlessParser.Parse (h : Helpers) (rawURL : String) : Except String Node :=
  match h.parseURLParams rawURL with
  | .error e => .error e
  | .ok (addressPart, params, name) =>
      match Index addressPart "@" with
      | none => .error "无效的 VLESS URL 格式"
      | some atIdx =>
          let uuid := sliceTo addressPart atIdx
          let serverPart := sliceFrom addressPart (atIdx + 1)
          match h.parseServerInfo serverPart with
          | .error e => .error ("解析服务器地址失败: " ++ e)
          | .ok (server, port) =>
              let name := if name = "" then server ++ ":" ++ formatInt port else name
              let extra : List (String × Value) := [("uuid", .str uuid)]
              let extra :=
                if params.Get "flow" ≠ "" then mapSet extra "flow" (.str (params.Get "flow"))
                else extra
              let transportType := h.getParamString params "type" "tcp"
              let extra :=
                if transportType ≠ "tcp" then
                  mapSet extra "transport" (.obj (vlessTransport params transportType))
                else extra
              let security := h.getParamString params "security" "none"
              let extra :=
                if security ≠ "none" then mapSet extra "tls" (.obj (realityTLS h params security))
                else extra
              .ok { Tag := name, NodeType := "vless", Server := server, ServerPort := port,
                    Country := "", Extra := extra }

/-- The `tls` object of `TuicParser.Parse`. -/
def tuicTLS (h : Helpers) (params : Values) : List (String × Value) :=
  let tls : List (String × Value) := [("enabled", .bool true)]
  let tls :=
    if params.Get "sni" ≠ "" then mapSet tls "server_name" (.str (params.Get "sni")) else tls
  let tls :=
    if h.getParamBool params "insecure" || h.getParamBool params "allowInsecure"
        || h.getParamBool params "skip-cert-verify" then
      mapSet tls "insecure" (.bool true)
    else tls
  let tls :=
    if params.Get "alpn" ≠ "" then mapSet tls "alpn" (.strs (Split (params.Get "alpn") ','))
    else tls
  if h.getParamBool params "disable-sni" then mapSet tls "disable_sni" (.bool true) else tls

/-- Method `TuicParser.Parse`. -/
def TuicParser.Parse (h : Helpers) (rawURL : String) : Except String Node :=
  match h.parseURLParams rawURL with
  | .error e => .error e
  | .ok (addressPart, params, name) =>
      match LastIndex addressPart "@" with
      | none => .error "无效的 TUIC URL 格式"
      | some atIdx =>
          let userInfo := queryUnescaped (sliceTo addressPart atIdx)
          let serverPart := sliceFrom addressPart (atIdx + 1)
          match h.parseServerInfo serverPart with
          | .error e => .error ("解析服务器地址失败: " ++ e)
          | .ok (server, port) =>
              let uuid := match Index userInfo ":" with
                | none => userInfo
                | some colonIdx => sliceTo userInfo colonIdx
              let password := match Index userInfo ":" with
                | none => params.Get "password"
                | some colonIdx => sliceFrom userInfo (colonIdx + 1)
              let name := if name = "" then server ++ ":" ++ formatInt port else name
              let extra : List (String × Value) :=
                [("uuid", .str uuid), ("password", .str password)]
              let extra := mapSet extra "tls" (.obj (tuicTLS h params))
              let extra :=
                if params.Get "congestion_control" ≠ "" then
                  mapSet extra "congestion_control" (.str (params.Get "congestion_control"))
                else if params.Get "congestion-control" ≠ "" then
                  mapSet extra "congestion_control" (.str (params.Get "congestion-control"))
                else extra
              let extra :=
                if params.Get "udp-relay-mode" ≠ "" then
                  mapSet extra "udp_relay_mode" (.str (params.Get "udp-relay-mode"))
                else if params.Get "udp_relay_mode" ≠ "" then
                  mapSet extra "udp_relay_mode" (.str (params.Get "udp_relay_mode"))
                else extra
              let extra :=
                if h.getParamBool params "zero-rtt" || h.getParamBool params "reduce-rtt" then
                  mapSet extra "zero_rtt_handshake" (.bool true)
                else extra
              let extra :=
                if params.Get "heartbeat" ≠ "" then
                  mapSet extra "heartbeat" (.str (params.Get "heartbeat"))
                else extra
              .ok { Tag := name, NodeType := "tuic", Server := server, ServerPort := port,
                    Country := "", Extra := extra }

/-- The `tls` object of `Hysteria2Parser.Parse`. -/
def hysteria2TLS (h : Helpers) (params : Values) : List (String × Value) :=
  let tls : List (String × Value) := [("enabled", .bool true)]
  let tls :=
    if params.Get "sni" ≠ "" then mapSet tls "server_name" (.str (params.Get "sni")) else tls
  let tls :=
    if h.getParamBool params "insecure" || h.getParamBool params "allowInsecure" then
      mapSet tls "insecure" (.bool true)
    else tls
  if params.Get "alpn" ≠ "" then mapSet tls "alpn" (.strs (Split (params.Get "alpn") ','))
  else tls

/-- The part of `Hysteria2Parser.Parse` after the password check: the `Extra` map. -/
def hysteria2Extra (h : Helpers) (params : Values) (password : String) :
    List (String × Value) :=
  let extra : List (String × Value) := [("password", .str password)]
  let extra := mapSet extra "tls" (.obj (hysteria2TLS h params))
  let extra :=
    if params.Get "obfs-password" ≠ "" then
      mapSet extra "obfs"
        (.obj [("type", .str (h.getParamString params "obfs" "salamander")),
               ("password", .str (params.Get "obfs-password"))])
    else extra
  let extra :=
    if params.Get "upmbps" ≠ "" then
      mapSet extra "up_mbps" (.int (h.getParamInt params "upmbps" 0))
    else if params.Get "up" ≠ "" then mapSet extra "up" (.str (params.Get "up"))
    else extra
  let extra :=
    if params.Get "downmbps" ≠ "" then
      mapSet extra "down_mbps" (.int (h.getParamInt params "downmbps" 0))
    else if params.Get "down" ≠ "" then mapSet extra "down" (.str (params.Get "down"))
    else extra
  let extra :=
    if params.Get "mport" ≠ "" then mapSet extra "ports" (.str (params.Get "mport"))
    else extra
  if params.Get "hop-interval" ≠ "" then
    mapSet extra "hop_interval" (.str (params.Get "hop-interval"))
  else extra

/-- The two forms of `Hysteria2Parser.Parse`: the password before an `@`, or in the `auth`
parameter. Where `strings.Contains` has found an `@`, the index returned by
`strings.Index` is never -1. The result is password, server and port. -/
def hysteria2Credentials (h : Helpers) (addressPart : String) (params : Values) :
    Except String (String × String × Int) :=
  if Contains addressPart "@" then
    let atIdx := (Index addressPart "@").getD 0
    let password := queryUnescaped (sliceTo addressPart atIdx)
    let serverPart := sliceFrom addressPart (atIdx + 1)
    match h.parseServerInfo serverPart with
    | .error e => .error ("解析服务器地址失败: " ++ e)
    | .ok (server, port) => .ok (password, server, port)
  else
    match h.parseServerInfo addressPart with
    | .error e => .error ("解析服务器地址失败: " ++ e)
    | .ok (server, port) => .ok (params.Get "auth", server, port)

/-- Method `Hysteria2Parser.Parse`. -/
def Hysteria2Parser.Parse (h : Helpers) (rawURL : String) : Except String Node :=
  match h.parseURLParams rawURL with
  | .error e => .error e
  | .ok (addressPart, params, name) =>
      match hysteria2Credentials h addressPart params with
      | .error e => .error e
      | .ok (password, server, port) =>
          if password = "" then .error "缺少认证密码"
          else
            let name := if name = "" then server ++ ":" ++ formatInt port else name
            .ok { Tag := name, NodeType := "hysteria2", Server := server, ServerPort := port,
                  Country := "", Extra := hysteria2Extra h params password }

/-! ## Sample inputs for the override, the rule types and the undeclared rule sets -/

/-- Sample settings with the Clash API switched off. -/
def settingsNoClash : Settings :=
  { ProxyDNS := "https://1.1.1.1/dns-query", DirectDNS := "223.5.5.5", MixedPort := 2080,
    TunEnabled := false, ClashAPIPort := 0, ClashUIPath := "ui", FinalOutbound := "Proxy",
    RuleSetBaseURL := "https://example.com/rule-set" }

/-- Sample node whose `Extra` repeats its own tag under the key `tag`. -/
def nodeSameTag : Node :=
  { Tag := "SG-01", NodeType := "trojan", Server := "sg1.example.com", ServerPort := 443,
    Country := "", Extra := [("tag", .str "SG-01")] }

/-- Sample custom rule of a type the `switch` does not list. -/
def ruleUnknown : Rule :=
  { Priority := 12, Enabled := true, RuleType := "process_name", Values := ["curl"],
    Outbound := "DIRECT" }

/-- Sample build input whose custom rules include one of unknown type. -/
def unknownRuleBuilder : ConfigBuilder :=
  { settings := sampleSettings, nodes := [nodeHK1], filters := [],
    rules := sampleRules ++ [ruleUnknown], ruleGroups := [groupStreaming] }

/-! ## Maps -/

theorem mapGet_mapSet {β : Type} (m : List (String × β)) (k k2 : String) (v : β) :
    mapGet (mapSet m k v) k2 = if k = k2 then some v else mapGet m k2 := by
  induction m with
  | nil => simp [mapSet, mapGet]
  | cons p rest ih =>
    obtain ⟨a, w⟩ := p
    by_cases h : a = k
    · subst h
      by_cases h2 : a = k2 <;> simp [mapSet, mapGet, h2]
    · by_cases h2 : a = k2
      · subst h2
        have : ¬ k = a := fun e => h e.symm
        simp [mapSet, mapGet, h, this]
      · simp [mapSet, mapGet, h, h2, ih]

theorem mem_mapKeys_mapSet {β : Type} (m : List (String × β)) (k k2 : String) (v : β) :
    k2 ∈ mapKeys (mapSet m k v) ↔ k2 = k ∨ k2 ∈ mapKeys m := by
  induction m with
  | nil => simp [mapSet, mapKeys]
  | cons p rest ih =>
    obtain ⟨a, w⟩ := p
    simp only [mapKeys] at ih
    by_cases h : a = k
    · subst h
      simp [mapSet, mapKeys]
    · simp only [mapSet, h, if_false, mapKeys, List.map_cons, List.mem_cons, ih]
      tauto

theorem nodup_mapKeys_mapSet {β : Type} (m : List (String × β)) (k : String) (v : β)
    (h : (mapKeys m).Nodup) : (mapKeys (mapSet m k v)).Nodup := by
  induction m with
  | nil => simp [mapSet, mapKeys]
  | cons p rest ih =>
    obtain ⟨a, w⟩ := p
    by_cases hk : a = k
    · subst hk
      simpa [mapSet, mapKeys] using h
    · have h2 : a ∉ mapKeys rest ∧ (mapKeys rest).Nodup := by simpa [mapKeys] using h
      have ih2 := ih h2.2
      have hm := mem_mapKeys_mapSet rest k a v
      simp only [mapSet, hk, if_false, mapKeys, List.map_cons, List.nodup_cons]
      refine ⟨?_, ih2⟩
      intro hmem
      rcases hm.1 hmem with e | e
      · exact hk e
      · exact h2.1 e

theorem mapGet_eq_none_iff {β : Type} (m : List (String × β)) (k : String) :
    mapGet m k = none ↔ k ∉ mapKeys m := by
  induction m with
  | nil => simp [mapGet, mapKeys]
  | cons p rest ih =>
    obtain ⟨a, w⟩ := p
    simp only [mapKeys] at ih
    by_cases h : a = k
    · subst h; simp [mapGet, mapKeys]
    · have : ¬ k = a := fun e => h e.symm
      simp [mapGet, mapKeys, h, this, ih]

/-! ## First occurrences -/

theorem firstSeen_fold (l acc : List String) :
    l.foldl (fun a t => if t ∈ a then a else a ++ [t]) acc
      = acc ++ (firstSeen l).filter (fun u => u ∉ acc) := by
  induction l generalizing acc with
  | nil => simp [firstSeen]
  | cons t ts ih =>
    simp only [List.foldl_cons, firstSeen]
    rw [ih]
    by_cases h : t ∈ acc
    · simp only [h, if_true, List.filter_cons, not_true_eq_false, decide_False, List.filter_filter]
      congr 1
      apply List.filter_congr
      intro u _
      by_cases hu : u ∈ acc
      · simp [hu]
      · have : u ≠ t := fun e => hu (e ▸ h)
        simp [hu, this]
    · simp only [h, if_false, List.filter_cons, not_false_eq_true, decide_True, if_true,
        List.filter_filter, List.append_assoc, List.singleton_append]
      congr 2
      apply List.filter_congr
      intro u _
      by_cases hu : u ∈ acc <;> by_cases hut : u = t <;> simp [hu, hut]

theorem mem_firstSeen (l : List String) (t : String) : t ∈ firstSeen l ↔ t ∈ l := by
  induction l with
  | nil => simp [firstSeen]
  | cons a as ih =>
    simp only [firstSeen, List.mem_cons, List.mem_filter, ih]
    by_cases h : t = a <;> simp [h]

theorem nodup_firstSeen (l : List String) : (firstSeen l).Nodup := by
  induction l with
  | nil => simp [firstSeen]
  | cons a as ih =>
    simp only [firstSeen, List.nodup_cons, List.mem_filter]
    refine ⟨by simp, ih.filter _⟩

/-! ## The loop over the nodes -/

theorem nodeLoop_outbounds (nodes : List Node) (s : NodeAcc) :
    (nodes.foldl nodeStep s).outbounds = s.outbounds ++ nodes.map nodeToOutbound := by
  induction nodes generalizing s with
  | nil => simp
  | cons n ns ih => rw [List.foldl_cons, ih]; simp [nodeStep]

theorem nodeStep_allNodeTags (s : NodeAcc) (n : Node) (h : TagSetOk s) :
    (nodeStep s n).allNodeTags
      = (if n.Tag ∈ s.allNodeTags then s.allNodeTags else s.allNodeTags ++ [n.Tag]) ∧
    TagSetOk (nodeStep s n) := by
  by_cases hm : n.Tag ∈ s.allNodeTags
  · have hs : (mapGet s.nodeTagSet n.Tag).getD false = true := (h n.Tag).2 hm
    refine ⟨by simp [nodeStep, hs, hm], ?_⟩
    intro t
    simpa [nodeStep, hs] using h t
  · have hs : (mapGet s.nodeTagSet n.Tag).getD false = false := by
      have := (h n.Tag).not.2 hm
      simpa using this
    refine ⟨by simp [nodeStep, hs, hm], ?_⟩
    intro t
    simp only [nodeStep, hs, Bool.not_false, if_true, mapGet_mapSet, List.mem_append,
      List.mem_singleton]
    by_cases e : n.Tag = t
    · subst e; simp
    · have e2 : ¬ t = n.Tag := fun q => e q.symm
      simpa [e, e2] using h t

theorem nodeLoop_allNodeTags (nodes : List Node) (s : NodeAcc) (h : TagSetOk s) :
    (nodes.foldl nodeStep s).allNodeTags
      = (nodes.map Node.Tag).foldl (fun a t => if t ∈ a then a else a ++ [t]) s.allNodeTags := by
  induction nodes generalizing s with
  | nil => simp
  | cons n ns ih =>
    have hstep := nodeStep_allNodeTags s n h
    rw [List.foldl_cons, ih _ hstep.2, hstep.1]
    simp

theorem nodeLoop_countryNodes_eq (nodes : List Node) (s : NodeAcc) :
    (nodes.foldl nodeStep s).countryNodes
      = nodes.foldl (fun cn n =>
          if n.Country ≠ "" then mapSet cn n.Country ((mapGet cn n.Country).getD [] ++ [n.Tag])
          else cn) s.countryNodes := by
  induction nodes generalizing s with
  | nil => simp
  | cons n ns ih => rw [List.foldl_cons, ih]; simp [nodeStep]

theorem countryFold_keys (nodes : List Node) (cn : List (String × List String))
    (hnd : (mapKeys cn).Nodup) :
    let r := nodes.foldl (fun cn n =>
          if n.Country ≠ "" then mapSet cn n.Country ((mapGet cn n.Country).getD [] ++ [n.Tag])
          else cn) cn
    (mapKeys r).Nodup ∧
    ∀ c, c ∈ mapKeys r ↔ c ∈ mapKeys cn ∨ (c ≠ "" ∧ ∃ n ∈ nodes, n.Country = c) := by
  induction nodes generalizing cn with
  | nil => simp [hnd]
  | cons n ns ih =>
    simp only [List.foldl_cons]
    by_cases hc : n.Country = ""
    · have := ih cn hnd
      simp only [hc, ne_eq, not_true_eq_false, if_false] at this ⊢
      refine ⟨this.1, fun c => ?_⟩
      rw [this.2 c]
      constructor
      · rintro (h | ⟨h1, m, hm, h2⟩)
        · exact Or.inl h
        · exact Or.inr ⟨h1, by simp only [List.mem_cons]; exact ⟨m, Or.inr hm, h2⟩⟩
      · rintro (h | ⟨h1, m, hm, h2⟩)
        · exact Or.inl h
        · rcases List.mem_cons.1 hm with e | e
          · subst e; exact absurd (hc ▸ h2.symm) h1
          · exact Or.inr ⟨h1, m, e, h2⟩
    · have := ih _ (nodup_mapKeys_mapSet cn n.Country
        ((mapGet cn n.Country).getD [] ++ [n.Tag]) hnd)
      simp only [hc, ne_eq, not_false_eq_true, if_true] at this ⊢
      refine ⟨this.1, fun c => ?_⟩
      rw [this.2 c, mem_mapKeys_mapSet]
      constructor
      · rintro ((h | h) | ⟨h1, m, hm, h2⟩)
        · subst h; exact Or.inr ⟨hc, n, by simp, rfl⟩
        · exact Or.inl h
        · exact Or.inr ⟨h1, m, List.mem_cons_of_mem _ hm, h2⟩
      · rintro (h | ⟨h1, m, hm, h2⟩)
        · exact Or.inl (Or.inr h)
        · rcases List.mem_cons.1 hm with e | e
          · subst e; exact Or.inl (Or.inl h2.symm)
          · exact Or.inr ⟨h1, m, e, h2⟩

theorem countryFold_values (nodes : List Node) (cn : List (String × List String))
    (c : String) (hc : c ≠ "") :
    (mapGet (nodes.foldl (fun cn n =>
          if n.Country ≠ "" then mapSet cn n.Country ((mapGet cn n.Country).getD [] ++ [n.Tag])
          else cn) cn) c).getD []
      = (mapGet cn c).getD [] ++ countryMembers nodes c := by
  induction nodes generalizing cn with
  | nil => simp [countryMembers]
  | cons n ns ih =>
    simp only [List.foldl_cons]
    rw [ih]
    by_cases hn : n.Country = ""
    · have h2 : ¬ n.Country = c := fun e => hc (e ▸ hn)
      simp [hn, countryMembers, List.filter_cons, h2, if_neg (hn ▸ h2)]
    · by_cases e : n.Country = c
      · subst e
        simp [hn, mapGet_mapSet, countryMembers, List.filter_cons]
      · simp [hn, mapGet_mapSet, countryMembers, List.filter_cons, e]

/-! ## The loops over filters, country codes and rule groups -/

theorem filteredTags_eq (x : Externals) (nodes : List Node) (f : Filter) :
    filteredTags x nodes f = matchingTags x nodes f := by
  have key : ∀ (l : List Node) (init : List String),
      l.foldl (fun acc node => if matchFilter x node f then acc ++ [node.Tag] else acc) init
        = init ++ (l.filter (fun n => matchFilter x n f)).map Node.Tag := by
    intro l
    induction l with
    | nil => simp
    | cons n ns ih =>
      intro init
      rw [List.foldl_cons, ih]
      by_cases h : matchFilter x n f = true <;> simp [h, List.filter_cons]
  simpa [filteredTags, matchingTags] using key nodes []

theorem matchingTags_length_eq_zero (x : Externals) (nodes : List Node) (f : Filter) :
    (matchingTags x nodes f).length = 0 ↔ nodes.any (fun n => matchFilter x n f) = false := by
  simp [matchingTags, List.filter_eq_nil_iff]

theorem filterLoop (x : Externals) (nodes : List Node) (filters : List Filter) (s : FilterAcc) :
    (filters.foldl (filterStep x nodes) s).outbounds
      = s.outbounds ++
        (filters.filter (fun f => f.Enabled && nodes.any (fun n => matchFilter x n f))).map
          (fun f => filterGroup f (matchingTags x nodes f)) ∧
    (filters.foldl (filterStep x nodes) s).filterGroupTags
      = s.filterGroupTags ++
        (filters.filter (fun f => f.Enabled && nodes.any (fun n => matchFilter x n f))).map
          Filter.Name := by
  induction filters generalizing s with
  | nil => simp
  | cons f fs ih =>
    rw [List.foldl_cons]
    have h1 := (ih (filterStep x nodes s f)).1
    have h2 := (ih (filterStep x nodes s f)).2
    rw [h1, h2]
    by_cases he : f.Enabled = true
    · by_cases hm : (matchingTags x nodes f).length = 0
      · have ha := (matchingTags_length_eq_zero x nodes f).1 hm
        simp [filterStep, he, filteredTags_eq, hm, ha, List.filter_cons]
      · have ha : nodes.any (fun n => matchFilter x n f) = true := by
          cases hq : nodes.any (fun n => matchFilter x n f)
          · exact absurd ((matchingTags_length_eq_zero x nodes f).2 hq) hm
          · rfl
        simp [filterStep, he, filteredTags_eq, hm, ha, List.filter_cons]
    · simp [filterStep, he, List.filter_cons]

theorem countryLoop (x : Externals) (cn : List (String × List String)) (codes : List String)
    (s : CountryAcc) (h : ∀ c ∈ codes, (mapGet cn c).getD [] ≠ []) :
    (codes.foldl (countryStep x cn) s).outbounds
      = s.outbounds ++
        codes.map (fun c => urltestGroup (countryGroupTag x c) ((mapGet cn c).getD [])) ∧
    (codes.foldl (countryStep x cn) s).countryGroupTags
      = s.countryGroupTags ++ codes.map (countryGroupTag x) := by
  induction codes generalizing s with
  | nil => simp
  | cons c cs ih =>
    rw [List.foldl_cons]
    have hc : ¬ ((mapGet cn c).getD []).length = 0 := by
      intro e
      exact h c (by simp) (List.length_eq_zero.1 e)
    have ih2 := ih (countryStep x cn s c) (fun d hd => h d (List.mem_cons_of_mem _ hd))
    rw [ih2.1, ih2.2]
    simp [countryStep, hc, urltestGroup]

theorem ruleGroupLoop (cgt fgt ant : List String) (rgs : List RuleGroup)
    (outbounds : List Outbound) :
    rgs.foldl (ruleGroupStep cgt fgt ant) outbounds
      = outbounds ++
        (rgs.filter (fun rg => rg.Enabled)).map (fun rg =>
          selectorGroup rg.Name (["Proxy", "Auto", "DIRECT", "REJECT"] ++ cgt ++ fgt ++ ant)
            rg.Outbound) := by
  induction rgs generalizing outbounds with
  | nil => simp
  | cons rg rest ih =>
    rw [List.foldl_cons, ih]
    by_cases he : rg.Enabled = true <;> simp [ruleGroupStep, he, selectorGroup, List.filter_cons]

/-! ## Country codes -/

theorem sortStrings_sorted (l : List String) : (sortStrings l).Sorted (fun a b => a ≤ b) :=
  @List.sorted_insertionSort String (fun a b => a ≤ b) strDecLe _ _ l

theorem sortStrings_perm (l : List String) : (sortStrings l).Perm l :=
  @List.perm_insertionSort String (fun a b => a ≤ b) strDecLe l

/-- Go ranges over the keys of a map in an unspecified order: whatever the order, sorting
yields the same slice. -/
theorem sortStrings_of_perm (l1 l2 : List String) (hp : l1.Perm l2) :
    sortStrings l1 = sortStrings l2 :=
  List.eq_of_perm_of_sorted
    (((sortStrings_perm l1).trans hp).trans (sortStrings_perm l2).symm)
    (sortStrings_sorted l1) (sortStrings_sorted l2)

theorem sortStrings_eq_of_same_members (l1 l2 : List String) (h1 : l1.Nodup) (h2 : l2.Nodup)
    (h : ∀ c, c ∈ l1 ↔ c ∈ l2) : sortStrings l1 = sortStrings l2 :=
  sortStrings_of_perm l1 l2 ((List.perm_ext_iff_of_nodup h1 h2).2 h)

theorem mem_countryCodes (nodes : List Node) (c : String) :
    c ∈ countryCodes nodes ↔ c ≠ "" ∧ ∃ n ∈ nodes, n.Country = c := by
  rw [countryCodes, (sortStrings_perm _).mem_iff]
  simp only [List.mem_dedup, List.mem_filter, List.mem_map, decide_eq_true_eq]
  tauto

theorem countryCodes_sorted (nodes : List Node) :
    (countryCodes nodes).Sorted (fun a b => a < b) := by
  have hs := sortStrings_sorted ((nodes.map Node.Country).filter (fun c => c ≠ "")).dedup
  have hn : (countryCodes nodes).Nodup :=
    (sortStrings_perm _).nodup_iff.2 (List.nodup_dedup _)
  exact (hs.imp₂ (fun a b hab hne => lt_of_le_of_ne hab hne) hn : _)

theorem countryMembers_ne_nil (nodes : List Node) (c : String)
    (h : ∃ n ∈ nodes, n.Country = c) : countryMembers nodes c ≠ [] := by
  obtain ⟨n, hn, e⟩ := h
  intro hnil
  have : n ∈ nodes.filter (fun n => n.Country = c) := by simp [List.mem_filter, hn, e]
  simp [countryMembers, List.filter_eq_nil_iff] at hnil
  exact hnil n hn e

/-! ## Shape of the outbound list -/

theorem nodeLoop_tags (nodes : List Node) (obs : List Outbound) :
    (nodes.foldl nodeStep
        { outbounds := obs, allNodeTags := [], nodeTagSet := [], countryNodes := [] }).allNodeTags
      = firstSeen (nodes.map Node.Tag) := by
  have h0 : TagSetOk
      { outbounds := obs, allNodeTags := [], nodeTagSet := [], countryNodes := [] } := by
    intro t; simp [mapGet]
  rw [nodeLoop_allNodeTags nodes _ h0, firstSeen_fold]
  simp

theorem nodeLoop_codes (nodes : List Node) (obs : List Outbound) :
    sortStrings (mapKeys (nodes.foldl nodeStep
        { outbounds := obs, allNodeTags := [], nodeTagSet := [], countryNodes := [] }).countryNodes)
      = countryCodes nodes := by
  rw [nodeLoop_countryNodes_eq]
  have hk := countryFold_keys nodes [] (by simp [mapKeys])
  refine sortStrings_eq_of_same_members _ _ hk.1 (List.nodup_dedup _) (fun c => ?_)
  rw [hk.2 c]
  simp only [mapKeys, List.map_nil, List.not_mem_nil, false_or, List.mem_dedup, List.mem_filter,
    List.mem_map, decide_eq_true_eq]
  tauto

theorem nodeLoop_members (nodes : List Node) (obs : List Outbound) (c : String)
    (hc : c ∈ countryCodes nodes) :
    (mapGet (nodes.foldl nodeStep
        { outbounds := obs, allNodeTags := [], nodeTagSet := [], countryNodes := [] }).countryNodes
        c).getD [] = countryMembers nodes c := by
  rw [nodeLoop_countryNodes_eq, countryFold_values nodes _ c ((mem_countryCodes nodes c).1 hc).1]
  simp [mapGet]

theorem firstSeen_eq_nil (l : List String) : firstSeen l = [] ↔ l = [] := by
  cases l <;> simp [firstSeen]

theorem buildOutbounds_eq (x : Externals) (b : ConfigBuilder) :
    buildOutbounds x b =
      fixedOutbounds ++ b.nodes.map nodeToOutbound
        ++ (emittedFilters x b).map (fun f => filterGroup f (matchingTags x b.nodes f))
        ++ (countryCodes b.nodes).map
            (fun c => urltestGroup (countryGroupTag x c) (countryMembers b.nodes c))
        ++ (if b.nodes = [] then [] else [urltestGroup "Auto" (nodeTags b)])
        ++ [selectorGroup "Proxy"
              (["Auto"] ++ countryTags x b.nodes ++ filterNames x b ++ nodeTags b) "Auto"]
        ++ (enabledRuleGroups b).map (fun rg =>
              selectorGroup rg.Name
                (["Proxy", "Auto", "DIRECT", "REJECT"] ++ countryTags x b.nodes
                  ++ filterNames x b ++ nodeTags b) rg.Outbound)
        ++ [selectorGroup "Final"
              (["Proxy", "DIRECT"] ++ countryTags x b.nodes ++ filterNames x b)
              b.settings.FinalOutbound] := by
  have hlen : (firstSeen (b.nodes.map Node.Tag)).length > 0 ↔ ¬ b.nodes = [] := by
    rw [gt_iff_lt, List.length_pos, ne_eq, firstSeen_eq_nil, List.map_eq_nil_iff]
  unfold buildOutbounds
  simp only []
  rw [nodeLoop_codes, ruleGroupLoop]
  have hmem : ∀ c ∈ countryCodes b.nodes,
      (mapGet (b.nodes.foldl nodeStep
        { outbounds := fixedOutbounds, allNodeTags := [], nodeTagSet := [],
          countryNodes := [] }).countryNodes c).getD [] ≠ [] := by
    intro c hc
    rw [nodeLoop_members b.nodes _ c hc]
    exact countryMembers_ne_nil b.nodes c ((mem_countryCodes b.nodes c).1 hc).2
  have hmap : (countryCodes b.nodes).map (fun c => urltestGroup (countryGroupTag x c)
        ((mapGet (b.nodes.foldl nodeStep
          { outbounds := fixedOutbounds, allNodeTags := [], nodeTagSet := [],
            countryNodes := [] }).countryNodes c).getD []))
      = (countryCodes b.nodes).map
          (fun c => urltestGroup (countryGroupTag x c) (countryMembers b.nodes c)) := by
    apply List.map_congr_left
    intro c hc
    rw [nodeLoop_members b.nodes _ c hc]
  have hc1 := fun s => (countryLoop x _ (countryCodes b.nodes) s hmem).1
  have hc2 := fun s => (countryLoop x _ (countryCodes b.nodes) s hmem).2
  rw [hmap] at hc1
  simp only [fixedOutbounds] at hc1 hc2
  rw [hc1, hc2]
  rw [(filterLoop x b.nodes b.filters _).1, (filterLoop x b.nodes b.filters _).2]
  rw [nodeLoop_outbounds, nodeLoop_tags]
  by_cases hn : b.nodes = []
  · simp [hn, emittedFilters, countryTags, filterNames, nodeTags, enabledRuleGroups,
      selectorGroup, urltestGroup, firstSeen, fixedOutbounds]
  · have hl := hlen.2 hn
    simp [hn, hl, emittedFilters, countryTags, filterNames, nodeTags,
      enabledRuleGroups, selectorGroup, urltestGroup, fixedOutbounds]

/-! ## Lookups in the emitted objects -/

theorem extraFold_get (extra : List (String × Value)) (init : Outbound) (k : String)
    (h : k ∉ mapKeys extra) :
    mapGet (extra.foldl (fun outbound kv => mapSet outbound kv.1 kv.2) init) k = mapGet init k := by
  induction extra generalizing init with
  | nil => simp
  | cons p rest ih =>
    have h2 : ¬ k = p.1 ∧ k ∉ mapKeys rest := by simpa [mapKeys] using h
    have h3 : ¬ p.1 = k := fun e => h2.1 e.symm
    rw [List.foldl_cons, ih _ h2.2, mapGet_mapSet, if_neg h3]

theorem nodeToOutbound_tag (n : Node) (h : "tag" ∉ mapKeys n.Extra) :
    mapGet (nodeToOutbound n) "tag" = some (.str n.Tag) := by
  rw [nodeToOutbound, extraFold_get _ _ _ h]
  simp [mapGet]

theorem filterGroup_fields (f : Filter) (tags : List String) :
    mapGet (filterGroup f tags) "tag" = some (.str f.Name) ∧
    mapGet (filterGroup f tags) "type" = some (.str f.Mode) ∧
    mapGet (filterGroup f tags) "outbounds" = some (.strs tags) := by
  unfold filterGroup
  by_cases hm : f.Mode = "urltest"
  · cases hc : f.URLTestConfig <;> simp [hm, mapGet, mapSet]
  · simp [hm, mapGet]

theorem buildOutbounds_sections (x : Externals) (b : ConfigBuilder) :
    buildOutbounds x b =
      fixedOutbounds ++ nodeSection b ++ filterSection x b ++ countrySection x b
        ++ autoSection b ++ [proxySelector x b] ++ ruleGroupSection x b
        ++ [finalSelector x b] :=
  buildOutbounds_eq x b

/-! ## Properties of the outbound list -/

/-- C1: with at least one node and no node whose `Extra` has the key `tag`, the tags of
the outbounds are: DIRECT, REJECT, dns-out; the node tags in input order; the names of the
enabled filters matching a node, in filter order; the country-group tags in ascending
country-code order; Auto; Proxy; the names of the enabled rule groups in input order;
Final. -/
theorem outbound_tag_sequence (x : Externals) (b : ConfigBuilder) (hne : b.nodes ≠ [])
    (hextra : ∀ n ∈ b.nodes, "tag" ∉ mapKeys n.Extra) :
    (buildOutbounds x b).map (fun o => mapGet o "tag") =
      (["DIRECT", "REJECT", "dns-out"] ++ b.nodes.map Node.Tag
        ++ (emittedFilters x b).map Filter.Name
        ++ (countryCodes b.nodes).map (countryGroupTag x)
        ++ ["Auto", "Proxy"]
        ++ (b.ruleGroups.filter (fun rg => rg.Enabled)).map RuleGroup.Name
        ++ ["Final"]).map (fun t => some (Value.str t)) := by
  have hnodes : (b.nodes.map nodeToOutbound).map (fun o => mapGet o "tag")
      = (b.nodes.map Node.Tag).map (fun t => some (Value.str t)) := by
    rw [List.map_map, List.map_map]
    apply List.map_congr_left
    intro n hn
    exact nodeToOutbound_tag n (hextra n hn)
  rw [buildOutbounds_sections]
  simp only [List.map_append, hnodes, nodeSection]
  simp [fixedOutbounds, filterSection, countrySection, autoSection, proxySelector,
    ruleGroupSection, finalSelector, hne, mapGet, urltestGroup, selectorGroup,
    enabledRuleGroups, (filterGroup_fields _ _).1, Function.comp_def]

/-- Witness for C1 on the sample input. -/
theorem outbound_tag_sequence_witness :
    sampleBuilder.nodes ≠ [] ∧ (∀ n ∈ sampleBuilder.nodes, "tag" ∉ mapKeys n.Extra) ∧
    (buildOutbounds sampleExternals sampleBuilder).map (fun o => mapGet o "tag") =
      [some (.str "DIRECT"), some (.str "REJECT"), some (.str "dns-out"),
       some (.str "US-01"), some (.str "HK-01"), some (.str "plain"), some (.str "HK-01"),
       some (.str "HK"), some (.str "NoUS"),
       some (.str "🇭🇰 香港"), some (.str "🌐 US"),
       some (.str "Auto"), some (.str "Proxy"), some (.str "Streaming"),
       some (.str "Final")] :=
  ⟨by decide, by decide,
    (outbound_tag_sequence sampleExternals sampleBuilder (by decide) (by decide)).trans
      (by decide)⟩

/-- C3: the output contains the selector tagged Proxy whose options are Auto, then the
country-group tags in ascending country-code order, then the names of the emitted filter
groups in filter order, then the distinct node tags in first-seen order, and whose
default is Auto. -/
theorem proxy_selector (x : Externals) (b : ConfigBuilder) :
    [("tag", Value.str "Proxy"), ("type", Value.str "selector"),
     ("outbounds", Value.strs (["Auto"] ++ (countryCodes b.nodes).map (countryGroupTag x)
        ++ (emittedFilters x b).map Filter.Name ++ firstSeen (b.nodes.map Node.Tag))),
     ("default", Value.str "Auto")] ∈ buildOutbounds x b := by
  rw [buildOutbounds_sections]
  simp [proxySelector, selectorGroup, countryTags, filterNames, nodeTags]

/-- C4: the rule-group selectors stand between the Proxy selector and the Final selector,
one per enabled rule group in input order and none for a disabled one; each has the
group's name as tag, the options Proxy, Auto, DIRECT, REJECT followed by the country-group
tags, the filter-group names and the distinct node tags, and the group's outbound as
default. -/
theorem rule_group_selectors (x : Externals) (b : ConfigBuilder) :
    buildOutbounds x b =
      (fixedOutbounds ++ nodeSection b ++ filterSection x b ++ countrySection x b
        ++ autoSection b ++ [proxySelector x b])
      ++ (b.ruleGroups.filter (fun rg => rg.Enabled)).map (fun rg =>
          [("tag", Value.str rg.Name), ("type", Value.str "selector"),
           ("outbounds", Value.strs (["Proxy", "Auto", "DIRECT", "REJECT"]
              ++ (countryCodes b.nodes).map (countryGroupTag x)
              ++ (emittedFilters x b).map Filter.Name ++ firstSeen (b.nodes.map Node.Tag))),
           ("default", Value.str rg.Outbound)])
      ++ [finalSelector x b] := by
  rw [buildOutbounds_sections]
  rfl

/-- C5: `Build` succeeds; its last outbound is the selector tagged Final with options
Proxy, DIRECT, then the country-group tags, then the filter-group names (no node tags) and
default `Settings.FinalOutbound`; and the route's final outbound is Final. -/
theorem final_selector (x : Externals) (b : ConfigBuilder) :
    ∃ config, Build x b = .ok config ∧
      config.Outbounds.getLast? =
        some [("tag", Value.str "Final"), ("type", Value.str "selector"),
          ("outbounds", Value.strs (["Proxy", "DIRECT"]
            ++ (countryCodes b.nodes).map (countryGroupTag x)
            ++ (emittedFilters x b).map Filter.Name)),
          ("default", Value.str b.settings.FinalOutbound)] ∧
      config.Route.map RouteConfig.Final = some "Final" := by
  have hlast : (buildOutbounds x b).getLast? = some (finalSelector x b) := by
    rw [buildOutbounds_sections, List.getLast?_append]
    simp
  have hfin : finalSelector x b =
      [("tag", Value.str "Final"), ("type", Value.str "selector"),
        ("outbounds", Value.strs (["Proxy", "DIRECT"]
          ++ (countryCodes b.nodes).map (countryGroupTag x)
          ++ (emittedFilters x b).map Filter.Name)),
        ("default", Value.str b.settings.FinalOutbound)] := rfl
  rw [← hfin]
  unfold Build
  by_cases hp : b.settings.ClashAPIPort > 0
  · simp only [hp, if_true]
    exact ⟨_, rfl, hlast, rfl⟩
  · simp only [hp, if_false]
    exact ⟨_, rfl, hlast, rfl⟩

theorem mem_emittedFilters (x : Externals) (b : ConfigBuilder) (f : Filter) :
    f ∈ emittedFilters x b ↔
      f ∈ b.filters ∧ f.Enabled = true ∧ ∃ n ∈ b.nodes, matchFilter x n f = true := by
  simp [emittedFilters, List.mem_filter]

/-- C6: the filter groups follow the node outbounds, one per enabled filter that matches
at least one node, in filter order, each with the filter's name as tag, its mode as type
and the tags of the matching nodes in node order as members; a disabled filter or one
matching no node yields no group, and the option lists of the Proxy, rule-group and Final
selectors carry the names of exactly the filters that produced a group. -/
theorem filter_groups (x : Externals) (b : ConfigBuilder) :
    buildOutbounds x b =
      (fixedOutbounds ++ nodeSection b)
      ++ (b.filters.filter
            (fun f => f.Enabled && b.nodes.any (fun n => matchFilter x n f))).map
          (fun f => filterGroup f ((b.nodes.filter (fun n => matchFilter x n f)).map Node.Tag))
      ++ (countrySection x b ++ autoSection b
          ++ [selectorGroup "Proxy"
                (["Auto"] ++ countryTags x b.nodes ++ (emittedFilters x b).map Filter.Name
                  ++ nodeTags b) "Auto"]
          ++ (enabledRuleGroups b).map (fun rg =>
                selectorGroup rg.Name
                  (["Proxy", "Auto", "DIRECT", "REJECT"] ++ countryTags x b.nodes
                    ++ (emittedFilters x b).map Filter.Name ++ nodeTags b) rg.Outbound)
          ++ [selectorGroup "Final"
                (["Proxy", "DIRECT"] ++ countryTags x b.nodes
                  ++ (emittedFilters x b).map Filter.Name) b.settings.FinalOutbound]) ∧
    (∀ f tags, mapGet (filterGroup f tags) "tag" = some (.str f.Name) ∧
      mapGet (filterGroup f tags) "type" = some (.str f.Mode) ∧
      mapGet (filterGroup f tags) "outbounds" = some (.strs tags)) ∧
    (∀ f, f ∈ emittedFilters x b ↔
      f ∈ b.filters ∧ f.Enabled = true ∧ ∃ n ∈ b.nodes, matchFilter x n f = true) ∧
    (∀ name, name ∈ (emittedFilters x b).map Filter.Name ↔
      ∃ f ∈ b.filters, f.Enabled = true ∧ (∃ n ∈ b.nodes, matchFilter x n f = true) ∧
        f.Name = name) := by
  refine ⟨?_, filterGroup_fields, mem_emittedFilters x b, fun name => ?_⟩
  · rw [buildOutbounds_sections]
    simp [filterSection, proxySelector, ruleGroupSection, finalSelector, emittedFilters,
      matchingTags, filterNames]
  · simp only [List.mem_map, mem_emittedFilters]
    constructor
    · rintro ⟨f, ⟨h1, h2, h3⟩, h4⟩; exact ⟨f, h1, h2, h3, h4⟩
    · rintro ⟨f, h1, h2, h3, h4⟩; exact ⟨f, ⟨h1, h2, h3⟩, h4⟩

/-- C7: the group emitted for a filter carries, when the mode is `urltest`, the URL,
interval and tolerance of the filter's `URLTestConfig`, or the defaults
`https://www.gstatic.com/generate_204`, `5m` and 50 when the filter has none; for any
other mode its keys are exactly tag, type and outbounds. -/
theorem filter_group_probe_settings (x : Externals) (b : ConfigBuilder) (f : Filter)
    (hf : f ∈ b.filters) (hen : f.Enabled = true)
    (hmatch : ∃ n ∈ b.nodes, matchFilter x n f = true) :
    filterGroup f (matchingTags x b.nodes f) ∈ buildOutbounds x b ∧
    (f.Mode = "urltest" → ∀ c, f.URLTestConfig = some c →
      mapGet (filterGroup f (matchingTags x b.nodes f)) "url" = some (.str c.URL) ∧
      mapGet (filterGroup f (matchingTags x b.nodes f)) "interval" = some (.str c.Interval) ∧
      mapGet (filterGroup f (matchingTags x b.nodes f)) "tolerance"
        = some (.int c.Tolerance)) ∧
    (f.Mode = "urltest" → f.URLTestConfig = none →
      mapGet (filterGroup f (matchingTags x b.nodes f)) "url"
        = some (.str "https://www.gstatic.com/generate_204") ∧
      mapGet (filterGroup f (matchingTags x b.nodes f)) "interval" = some (.str "5m") ∧
      mapGet (filterGroup f (matchingTags x b.nodes f)) "tolerance" = some (.int 50)) ∧
    (f.Mode ≠ "urltest" →
      mapKeys (filterGroup f (matchingTags x b.nodes f)) = ["tag", "type", "outbounds"]) := by
  refine ⟨?_, ?_, ?_, ?_⟩
  · rw [buildOutbounds_sections]
    have : filterGroup f (matchingTags x b.nodes f) ∈ filterSection x b :=
      List.mem_map.2 ⟨f, (mem_emittedFilters x b f).2 ⟨hf, hen, hmatch⟩, rfl⟩
    simp [this]
  · intro hm c hc
    simp [filterGroup, hm, hc, mapGet, mapSet]
  · intro hm hc
    simp [filterGroup, hm, hc, mapGet, mapSet]
  · intro hm
    simp [filterGroup, hm, mapKeys]

/-- Witness for C7: the sample filter `HK` (mode `urltest`, no probe settings of its own). -/
theorem filter_group_probe_settings_witness :
    filterHK ∈ sampleBuilder.filters ∧ filterHK.Enabled = true ∧
    (∃ n ∈ sampleBuilder.nodes, matchFilter sampleExternals n filterHK = true) ∧
    [("tag", Value.str "HK"), ("type", Value.str "urltest"),
      ("outbounds", Value.strs ["HK-01", "HK-01"]),
      ("url", Value.str "https://www.gstatic.com/generate_204"),
      ("interval", Value.str "5m"), ("tolerance", Value.int 50)]
      ∈ buildOutbounds sampleExternals sampleBuilder :=
  ⟨by decide, by decide, by decide,
    (filter_group_probe_settings sampleExternals sampleBuilder filterHK
      (by decide) (by decide) (by decide)).1⟩

/-- C8: the country groups follow the filter groups, one `urltest` group per distinct
non-empty country of the nodes, in strictly ascending order of country code, each over the
tags of the nodes of that country in node order; the empty country has no group. -/
theorem country_groups (x : Externals) (b : ConfigBuilder) :
    buildOutbounds x b =
      (fixedOutbounds ++ nodeSection b ++ filterSection x b)
      ++ (countryCodes b.nodes).map (fun c =>
          [("tag", Value.str (x.GetCountryEmoji c ++ " " ++ x.GetCountryName c)),
           ("type", Value.str "urltest"),
           ("outbounds", Value.strs ((b.nodes.filter (fun n => n.Country = c)).map Node.Tag)),
           ("url", Value.str "https://www.gstatic.com/generate_204"),
           ("interval", Value.str "5m"), ("tolerance", Value.int 50)])
      ++ (autoSection b ++ [proxySelector x b] ++ ruleGroupSection x b
          ++ [finalSelector x b]) ∧
    (countryCodes b.nodes).Sorted (fun c d => c < d) ∧
    (∀ c, c ∈ countryCodes b.nodes ↔ c ≠ "" ∧ ∃ n ∈ b.nodes, n.Country = c) := by
  refine ⟨?_, countryCodes_sorted b.nodes, mem_countryCodes b.nodes⟩
  rw [buildOutbounds_sections]
  simp [countrySection, urltestGroup, countryGroupTag, countryMembers]

/-- C9: with at least one node, the output contains the `urltest` group tagged Auto whose
members are the node tags, each exactly once, in order of first occurrence. -/
theorem auto_group (x : Externals) (b : ConfigBuilder) (hne : b.nodes ≠ []) :
    [("tag", Value.str "Auto"), ("type", Value.str "urltest"),
     ("outbounds", Value.strs (firstSeen (b.nodes.map Node.Tag))),
     ("url", Value.str "https://www.gstatic.com/generate_204"),
     ("interval", Value.str "5m"), ("tolerance", Value.int 50)] ∈ buildOutbounds x b ∧
    (firstSeen (b.nodes.map Node.Tag)).Nodup ∧
    (∀ t, t ∈ firstSeen (b.nodes.map Node.Tag) ↔ ∃ n ∈ b.nodes, n.Tag = t) ∧
    (firstSeen (b.nodes.map Node.Tag)).Sublist (b.nodes.map Node.Tag) := by
  refine ⟨?_, nodup_firstSeen _, fun t => ?_, ?_⟩
  · rw [buildOutbounds_sections]
    simp [autoSection, hne, urltestGroup, nodeTags]
  · simp [mem_firstSeen]
  · generalize b.nodes.map Node.Tag = l
    induction l with
    | nil => simp [firstSeen]
    | cons a as ih =>
      simp only [firstSeen]
      exact List.Sublist.cons₂ a ((List.filter_sublist _).trans ih)

/-- Witness for C9 on the sample input, where the tag `HK-01` is carried by two nodes. -/
theorem auto_group_witness :
    sampleBuilder.nodes ≠ [] ∧
    [("tag", Value.str "Auto"), ("type", Value.str "urltest"),
     ("outbounds", Value.strs ["US-01", "HK-01", "plain"]),
     ("url", Value.str "https://www.gstatic.com/generate_204"),
     ("interval", Value.str "5m"), ("tolerance", Value.int 50)]
      ∈ buildOutbounds sampleExternals sampleBuilder :=
  ⟨by decide, (auto_group sampleExternals sampleBuilder (by decide)).1⟩

/-! ## The filter matcher -/

theorem map_eq_self_of_block_map (f : Char → Char) (hf : ∀ c, f (f c) = f c)
    (k l : List Char) (h : k <:+: l.map f) : k.map f = k := by
  have hmem : ∀ c ∈ k, f c = c := by
    intro c hc
    obtain ⟨d, _, rfl⟩ := List.mem_map.1 (h.subset hc)
    exact hf d
  calc k.map f = k.map id := List.map_congr_left hmem
    _ = k := List.map_id k

theorem toLower_keyword_of_contains (x : Externals)
    (hlower : ∀ c, x.ToLowerRune (x.ToLowerRune c) = x.ToLowerRune c)
    (tag keyword : String) (h : Contains (ToLower x tag) keyword = true) :
    ToLower x keyword = keyword := by
  have hin : keyword.data <:+: tag.data.map x.ToLowerRune := by
    simpa [Contains, ToLower] using h
  have := map_eq_self_of_block_map x.ToLowerRune hlower keyword.data tag.data hin
  simp [ToLower, this]

theorem asciiLower_idem (c : Char) : asciiLower (asciiLower c) = asciiLower c := by
  have hval : ∀ p ∈ asciiLowerTable, asciiLowerTable.lookup p.2 = none := by decide
  have hfind : ∀ (l : List (Char × Char)) (d : Char), l.lookup c = some d → (c, d) ∈ l := by
    intro l
    induction l with
    | nil => intro d h; simp at h
    | cons p rest ih =>
      intro d h
      obtain ⟨a, w⟩ := p
      by_cases e : c = a
      · subst e
        simp [List.lookup] at h
        simp [h]
      · have e2 : (c == a) = false := by simpa using e
        simp only [List.lookup, e2] at h
        exact List.mem_cons_of_mem _ (ih d h)
  unfold asciiLower
  cases h : asciiLowerTable.lookup c with
  | none => simp [h]
  | some d =>
    have := hval (c, d) (hfind _ d h)
    simp only [Option.getD_some]
    simp only at this
    simp [this]

/-- C10: exclude conditions take precedence in `matchFilter`. Whenever the node's country
case-insensitively equals an `ExcludeCountries` entry, or the lowercased tag contains an
`Exclude` keyword, the result is false, whatever the include lists are. The rune mapping
behind `strings.ToLower` is taken to leave lower-case runes unchanged. -/
theorem exclude_precedence (x : Externals)
    (hlower : ∀ c, x.ToLowerRune (x.ToLowerRune c) = x.ToLowerRune c)
    (node : Node) (filter : Filter)
    (h : (∃ country ∈ filter.ExcludeCountries, x.EqualFold node.Country country = true) ∨
      (∃ keyword ∈ filter.Exclude, Contains (ToLower x node.Tag) keyword = true)) :
    matchFilter x node filter = false := by
  unfold matchFilter
  simp only []
  split_ifs with h1 h2 h3 h4
  · rfl
  · rfl
  · rfl
  · rfl
  · exfalso
    rcases h with ⟨country, hc, he⟩ | ⟨keyword, hk, hcont⟩
    · exact h2 (List.any_eq_true.2 ⟨country, hc, he⟩)
    · refine h4 (List.any_eq_true.2 ⟨keyword, hk, ?_⟩)
      rw [toLower_keyword_of_contains x hlower node.Tag keyword hcont]
      exact hcont

/-- Witness for C10: the sample node `US-01` passes the include keyword `0` of the sample
filter `NoUS` and is rejected by its exclude keyword `us`. -/
theorem exclude_precedence_witness :
    (∀ c, sampleExternals.ToLowerRune (sampleExternals.ToLowerRune c)
      = sampleExternals.ToLowerRune c) ∧
    (∃ keyword ∈ filterNoUS.Include,
      Contains (ToLower sampleExternals nodeUS1.Tag) (ToLower sampleExternals keyword) = true) ∧
    (∃ keyword ∈ filterNoUS.Exclude,
      Contains (ToLower sampleExternals nodeUS1.Tag) keyword = true) ∧
    matchFilter sampleExternals nodeUS1 filterNoUS = false :=
  ⟨asciiLower_idem, by decide, by decide,
    exclude_precedence sampleExternals asciiLower_idem nodeUS1 filterNoUS
      (Or.inr (by decide))⟩

/-! ## Referential consistency -/

theorem hasTag_append (l1 l2 : List Outbound) (t : String) :
    HasTag (l1 ++ l2) t ↔ HasTag l1 t ∨ HasTag l2 t := by
  simp only [HasTag, List.mem_append]
  constructor
  · rintro ⟨o, h | h, e⟩
    · exact Or.inl ⟨o, h, e⟩
    · exact Or.inr ⟨o, h, e⟩
  · rintro (⟨o, h, e⟩ | ⟨o, h, e⟩)
    · exact ⟨o, Or.inl h, e⟩
    · exact ⟨o, Or.inr h, e⟩

theorem refsResolved_mono (exempt : String → Prop) (e1 e2 : List Outbound) (g : Outbound)
    (h : RefsResolved exempt e1 g) : RefsResolved exempt (e1 ++ e2) g :=
  fun t ht => (h t ht).imp id (fun r => (hasTag_append e1 e2 t).2 (Or.inl r))

theorem groupsResolved_flat (exempt : String → Prop) (seen groups : List Outbound)
    (h : ∀ g ∈ groups, RefsResolved exempt seen g) : GroupsResolved exempt seen groups := by
  intro pre g post e
  exact refsResolved_mono exempt seen pre g (h g (by rw [e]; simp))

theorem groupsResolved_append (exempt : String → Prop) (seen g1 g2 : List Outbound)
    (h1 : GroupsResolved exempt seen g1) (h2 : GroupsResolved exempt (seen ++ g1) g2) :
    GroupsResolved exempt seen (g1 ++ g2) := by
  intro pre g post e
  rcases List.append_eq_append_iff.1 e with ⟨a, ha, hb⟩ | ⟨c, hc, hd⟩
  · have := h2 a g post hb
    rw [ha, ← List.append_assoc]
    exact this
  · cases c with
    | nil =>
      simp only [List.append_nil, List.nil_append] at hc hd
      have := h2 [] g post hd.symm
      rw [List.append_nil] at this
      rw [← hc]
      exact this
    | cons c0 cs =>
      have hd2 : g = c0 ∧ post = cs ++ g2 := by simpa using hd
      obtain ⟨rfl, _⟩ := hd2
      exact h1 pre g cs hc

theorem memberTags_filterGroup (f : Filter) (tags : List String) :
    memberTags (filterGroup f tags) = tags := by
  simp [memberTags, (filterGroup_fields f tags).2.2]

theorem memberTags_urltestGroup (tag : String) (members : List String) :
    memberTags (urltestGroup tag members) = members := by
  simp [memberTags, urltestGroup, mapGet]

theorem memberTags_selectorGroup (tag : String) (options : List String) (dflt : String) :
    memberTags (selectorGroup tag options dflt) = options := by
  simp [memberTags, selectorGroup, mapGet]

theorem hasTag_node (b : ConfigBuilder)
    (htag : ∀ n ∈ b.nodes, mapGet (nodeToOutbound n) "tag" = some (.str n.Tag))
    (t : String) (ht : t ∈ b.nodes.map Node.Tag) : HasTag (nodeSection b) t := by
  obtain ⟨n, hn, rfl⟩ := List.mem_map.1 ht
  exact ⟨nodeToOutbound n, List.mem_map.2 ⟨n, hn, rfl⟩, htag n hn⟩

theorem hasTag_filterName (x : Externals) (b : ConfigBuilder) (t : String)
    (ht : t ∈ filterNames x b) : HasTag (filterSection x b) t := by
  obtain ⟨f, hf, rfl⟩ := List.mem_map.1 ht
  exact ⟨_, List.mem_map.2 ⟨f, hf, rfl⟩, (filterGroup_fields f _).1⟩

theorem hasTag_countryTag (x : Externals) (b : ConfigBuilder) (t : String)
    (ht : t ∈ countryTags x b.nodes) : HasTag (countrySection x b) t := by
  obtain ⟨c, hc, rfl⟩ := List.mem_map.1 ht
  exact ⟨_, List.mem_map.2 ⟨c, hc, rfl⟩, by simp [urltestGroup, mapGet]⟩

theorem matchingTags_subset (x : Externals) (nodes : List Node) (f : Filter) (t : String)
    (ht : t ∈ matchingTags x nodes f) : t ∈ nodes.map Node.Tag := by
  obtain ⟨n, hn, rfl⟩ := List.mem_map.1 ht
  exact List.mem_map.2 ⟨n, (List.mem_filter.1 hn).1, rfl⟩

theorem countryMembers_subset (nodes : List Node) (c t : String)
    (ht : t ∈ countryMembers nodes c) : t ∈ nodes.map Node.Tag := by
  obtain ⟨n, hn, rfl⟩ := List.mem_map.1 ht
  exact List.mem_map.2 ⟨n, (List.mem_filter.1 hn).1, rfl⟩

theorem groups_resolved (x : Externals) (b : ConfigBuilder)
    (htag : ∀ n ∈ b.nodes, mapGet (nodeToOutbound n) "tag" = some (.str n.Tag)) :
    GroupsResolved (fun t => b.nodes = [] ∧ t = "Auto") (fixedOutbounds ++ nodeSection b)
      (filterSection x b ++ (countrySection x b ++ (autoSection b ++ ([proxySelector x b]
        ++ (ruleGroupSection x b ++ [finalSelector x b]))))) := by
  have hN : ∀ t, t ∈ b.nodes.map Node.Tag → HasTag (nodeSection b) t :=
    fun t ht => hasTag_node b htag t ht
  have hNT : ∀ t, t ∈ nodeTags b → HasTag (nodeSection b) t :=
    fun t ht => hN t ((mem_firstSeen _ _).1 ht)
  have hF := hasTag_filterName x b
  have hC := hasTag_countryTag x b
  have hD : HasTag fixedOutbounds "DIRECT" := by decide
  have hR : HasTag fixedOutbounds "REJECT" := by decide
  have hAuto : (b.nodes = [] ∧ "Auto" = "Auto") ∨ HasTag (autoSection b) "Auto" := by
    by_cases hne : b.nodes = []
    · exact Or.inl ⟨hne, rfl⟩
    · exact Or.inr ⟨urltestGroup "Auto" (nodeTags b), by simp [autoSection, hne],
        by simp [urltestGroup, mapGet]⟩
  have hProxy : HasTag [proxySelector x b] "Proxy" :=
    ⟨proxySelector x b, by simp, by simp [proxySelector, selectorGroup, mapGet]⟩
  apply groupsResolved_append
  · apply groupsResolved_flat
    intro g hg
    obtain ⟨f, _, rfl⟩ := List.mem_map.1 hg
    intro t ht
    rw [memberTags_filterGroup] at ht
    have h := hN t (matchingTags_subset x b.nodes f t ht)
    simp only [hasTag_append]
    tauto
  apply groupsResolved_append
  · apply groupsResolved_flat
    intro g hg
    obtain ⟨c, _, rfl⟩ := List.mem_map.1 hg
    intro t ht
    rw [memberTags_urltestGroup] at ht
    have h := hN t (countryMembers_subset b.nodes c t ht)
    simp only [hasTag_append]
    tauto
  apply groupsResolved_append
  · apply groupsResolved_flat
    intro g hg
    have hne : ¬ b.nodes = [] := by
      intro e
      simp [autoSection, e] at hg
    simp only [autoSection, hne, if_false, List.mem_singleton] at hg
    subst hg
    intro t ht
    rw [memberTags_urltestGroup] at ht
    have h := hNT t ht
    simp only [hasTag_append]
    tauto
  apply groupsResolved_append
  · apply groupsResolved_flat
    intro g hg
    simp only [List.mem_singleton] at hg
    subst hg
    intro t ht
    rw [proxySelector, memberTags_selectorGroup] at ht
    simp only [List.mem_append, List.mem_singleton] at ht
    simp only [hasTag_append]
    rcases ht with ((rfl | h) | h) | h
    · tauto
    · have := hC t h; tauto
    · have := hF t h; tauto
    · have := hNT t h; tauto
  apply groupsResolved_append
  · apply groupsResolved_flat
    intro g hg
    obtain ⟨rg, _, rfl⟩ := List.mem_map.1 hg
    intro t ht
    rw [memberTags_selectorGroup] at ht
    simp only [List.mem_append, List.mem_cons, List.mem_singleton, List.not_mem_nil,
      or_false] at ht
    simp only [hasTag_append]
    rcases ht with (((rfl | rfl | rfl | rfl) | h) | h) | h
    · tauto
    · tauto
    · tauto
    · tauto
    · have := hC t h; tauto
    · have := hF t h; tauto
    · have := hNT t h; tauto
  · apply groupsResolved_flat
    intro g hg
    simp only [List.mem_singleton] at hg
    subst hg
    intro t ht
    rw [finalSelector, memberTags_selectorGroup] at ht
    simp only [List.mem_append, List.mem_cons, List.mem_singleton, List.not_mem_nil,
      or_false] at ht
    simp only [hasTag_append]
    rcases ht with ((rfl | rfl) | h) | h
    · tauto
    · tauto
    · have := hC t h; tauto
    · have := hF t h; tauto

/-- C2, amended: when every node is emitted under its own tag, every tag listed in the
`outbounds` field of a group outbound (any outbound standing after the three fixed
primitives and the node outbounds) is the tag of an outbound that stands earlier in the
list, the tag Auto excepted when the node list is empty. -/
theorem group_members_resolved (x : Externals) (b : ConfigBuilder)
    (htag : ∀ n ∈ b.nodes, mapGet (nodeToOutbound n) "tag" = some (.str n.Tag)) :
    ∀ pre g post, buildOutbounds x b = pre ++ g :: post → 3 + b.nodes.length ≤ pre.length →
      ∀ t ∈ memberTags g,
        (b.nodes = [] ∧ t = "Auto") ∨ ∃ o ∈ pre, mapGet o "tag" = some (.str t) := by
  intro pre g post e hlen
  have hres := groups_resolved x b htag
  rw [buildOutbounds_sections] at e
  simp only [List.append_assoc] at e
  rw [← List.append_assoc] at e
  have hbase : (fixedOutbounds ++ nodeSection b).length = 3 + b.nodes.length := by
    simp [fixedOutbounds, nodeSection]
    omega
  rcases List.append_eq_append_iff.1 e with ⟨a, ha, hb⟩ | ⟨c, hc, hd⟩
  · rw [ha]
    exact hres a g post hb
  · have hc0 : c = [] := by
      have := congrArg List.length hc
      rw [hbase, List.length_append] at this
      exact List.length_eq_zero.1 (by omega)
    subst hc0
    simp only [List.append_nil, List.nil_append] at hc hd
    have := hres [] g post hd.symm
    rw [List.append_nil, hc] at this
    exact this

/-- Witness for C2, amended, on the sample input: the members of the Proxy selector, the
thirteenth outbound, are all tags of the twelve outbounds before it. -/
theorem group_members_resolved_witness :
    (∀ n ∈ sampleBuilder.nodes, mapGet (nodeToOutbound n) "tag" = some (.str n.Tag)) ∧
    ∀ t ∈ ["Auto", "🇭🇰 香港", "🌐 US", "HK", "NoUS", "US-01", "HK-01", "plain"],
      (sampleBuilder.nodes = [] ∧ t = "Auto") ∨
      ∃ o ∈ (buildOutbounds sampleExternals sampleBuilder).take 12,
        mapGet o "tag" = some (.str t) :=
  ⟨by decide,
    group_members_resolved sampleExternals sampleBuilder (by decide)
      ((buildOutbounds sampleExternals sampleBuilder).take 12)
      (proxySelector sampleExternals sampleBuilder)
      ((buildOutbounds sampleExternals sampleBuilder).drop 13) (by decide) (by decide)⟩

/-- C2 as stated fails on two inputs. With no node the Auto group is not emitted, yet the
Proxy selector, which follows the three fixed primitives, lists Auto. With a single node
whose `Extra` carries its own `tag`, the Auto group lists the node under `Node.Tag`, a tag
that no outbound has. -/
theorem group_members_resolved_counterexample :
    (¬ ∀ pre g post, buildOutbounds sampleExternals emptyBuilder = pre ++ g :: post →
        3 + emptyBuilder.nodes.length ≤ pre.length →
        ∀ t ∈ memberTags g, ∃ o ∈ pre, mapGet o "tag" = some (.str t)) ∧
    (¬ ∀ pre g post, buildOutbounds sampleExternals retaggedBuilder = pre ++ g :: post →
        3 + retaggedBuilder.nodes.length ≤ pre.length →
        ∀ t ∈ memberTags g, ∃ o ∈ pre, mapGet o "tag" = some (.str t)) := by
  constructor
  · intro h
    have h2 := h fixedOutbounds (proxySelector sampleExternals emptyBuilder)
      [finalSelector sampleExternals emptyBuilder] (by decide) (by decide) "Auto" (by decide)
    revert h2
    decide
  · intro h
    have h2 := h (fixedOutbounds ++ [nodeToOutbound nodeRetagged])
      (urltestGroup "Auto" ["JP-01"])
      [proxySelector sampleExternals retaggedBuilder,
       finalSelector sampleExternals retaggedBuilder]
      (by decide) (by decide) "JP-01" (by decide)
    revert h2
    decide

/-! ## Include conditions and the match-all default -/

/-- C11, amended: match-all default. For a filter whose `Include` and `IncludeCountries`
are both empty, `matchFilter` is true for every node that passes the exclude conditions,
and for no other node: the country folds equal to no `ExcludeCountries` entry, and the
lowercased tag contains the lowercased form of no `Exclude` keyword; with all four lists
empty it is true for every node. -/
theorem match_all_default (x : Externals) (node : Node) (filter : Filter)
    (hinc : filter.Include = []) (hcountries : filter.IncludeCountries = []) :
    (matchFilter x node filter = true ↔
      (∀ country ∈ filter.ExcludeCountries, x.EqualFold node.Country country = false) ∧
      (∀ keyword ∈ filter.Exclude,
        Contains (ToLower x node.Tag) (ToLower x keyword) = false)) ∧
    (filter.ExcludeCountries = [] → filter.Exclude = [] →
      matchFilter x node filter = true) := by
  have key : matchFilter x node filter = true ↔
      (∀ country ∈ filter.ExcludeCountries, x.EqualFold node.Country country = false) ∧
      (∀ keyword ∈ filter.Exclude,
        Contains (ToLower x node.Tag) (ToLower x keyword) = false) := by
    unfold matchFilter
    simp only [hinc, hcountries, List.length_nil, gt_iff_lt, lt_self_iff_false, false_and,
      if_false]
    split_ifs with h2 h4
    · simp only [Bool.false_eq_true, false_iff, not_and]
      intro hc
      obtain ⟨c, hmem, he⟩ := List.any_eq_true.1 h2
      rw [hc c hmem] at he
      exact absurd he (by simp)
    · simp only [Bool.false_eq_true, false_iff, not_and]
      intro _ hk
      obtain ⟨k, hmem, he⟩ := List.any_eq_true.1 h4
      rw [hk k hmem] at he
      exact absurd he (by simp)
    · simp only [true_iff]
      constructor
      · intro c hc
        cases he : x.EqualFold node.Country c
        · rfl
        · exact absurd (List.any_eq_true.2 ⟨c, hc, he⟩) h2
      · intro k hk
        cases he : Contains (ToLower x node.Tag) (ToLower x k)
        · rfl
        · exact absurd (List.any_eq_true.2 ⟨k, hk, he⟩) h4
  refine ⟨key, fun h1 h2 => key.2 ⟨?_, ?_⟩⟩
  · intro c hc; rw [h1] at hc; simp at hc
  · intro k hk; rw [h2] at hk; simp at hk

/-- Witness for C11, amended: the sample filter without any condition matches the sample
node, and the filter excluding `HK` matches the node `US-01`, whose lowercased tag does not
contain `hk`. -/
theorem match_all_default_witness :
    filterAll.Include = [] ∧ filterAll.IncludeCountries = [] ∧
    matchFilter sampleExternals nodePlain filterAll = true ∧
    filterExcludeUpperHK.Include = [] ∧ filterExcludeUpperHK.IncludeCountries = [] ∧
    (∀ keyword ∈ filterExcludeUpperHK.Exclude,
      Contains (ToLower sampleExternals nodeUS1.Tag) (ToLower sampleExternals keyword)
        = false) ∧
    matchFilter sampleExternals nodeUS1 filterExcludeUpperHK = true :=
  ⟨rfl, rfl, (match_all_default sampleExternals nodePlain filterAll rfl rfl).2 rfl rfl,
    rfl, rfl, by decide,
    (match_all_default sampleExternals nodeUS1 filterExcludeUpperHK rfl rfl).1.2
      ⟨by decide, by decide⟩⟩

/-- C11 as stated fails: the filter has empty `Include` and `IncludeCountries`, the node
`hk-01` has a country equal to no `ExcludeCountries` entry and its tag, lowercased or not,
does not contain the exclude keyword `HK`, yet `matchFilter` is false, because the keyword
is lowercased before the test. -/
theorem match_all_default_counterexample :
    filterExcludeUpperHK.Include = [] ∧ filterExcludeUpperHK.IncludeCountries = [] ∧
    (∀ country ∈ filterExcludeUpperHK.ExcludeCountries,
      sampleExternals.EqualFold nodeLowerHK.Country country = false) ∧
    (∀ keyword ∈ filterExcludeUpperHK.Exclude, Contains nodeLowerHK.Tag keyword = false) ∧
    (∀ keyword ∈ filterExcludeUpperHK.Exclude,
      Contains (ToLower sampleExternals nodeLowerHK.Tag) keyword = false) ∧
    matchFilter sampleExternals nodeLowerHK filterExcludeUpperHK = false := by
  decide

/-- C12, amended: when `IncludeCountries` is non-empty and the node's country folds equal
to none of its entries, `matchFilter` is false; and when `Include` is non-empty,
`matchFilter` is true only if the lowercased tag contains the lowercased form of one of the
`Include` keywords. -/
theorem include_conditions (x : Externals) (node : Node) (filter : Filter) :
    (filter.IncludeCountries ≠ [] →
      (∀ country ∈ filter.IncludeCountries, x.EqualFold node.Country country = false) →
      matchFilter x node filter = false) ∧
    (filter.Include ≠ [] → matchFilter x node filter = true →
      ∃ keyword ∈ filter.Include,
        Contains (ToLower x node.Tag) (ToLower x keyword) = true) := by
  constructor
  · intro hne hnone
    have hlen : filter.IncludeCountries.length > 0 := List.length_pos.2 hne
    have hany : ¬ filter.IncludeCountries.any
        (fun country => x.EqualFold node.Country country) = true := by
      intro h
      obtain ⟨c, hc, he⟩ := List.any_eq_true.1 h
      rw [hnone c hc] at he
      exact absurd he (by simp)
    unfold matchFilter
    simp only []
    rw [if_pos ⟨hlen, hany⟩]
  · intro hne hm
    have hlen : filter.Include.length > 0 := List.length_pos.2 hne
    unfold matchFilter at hm
    simp only [] at hm
    split_ifs at hm with h1 h2 h3 h4
    have hany : filter.Include.any
        (fun keyword => Contains (ToLower x node.Tag) (ToLower x keyword)) = true := by
      by_contra hcon
      exact h3 ⟨hlen, hcon⟩
    exact List.any_eq_true.1 hany

/-- Witness for C12, amended: the sample node `HK-01` matches the include keyword `HK`
through its lowercased form `hk`. -/
theorem include_conditions_witness :
    filterUpperHK.Include ≠ [] ∧ matchFilter sampleExternals nodeHK1 filterUpperHK = true ∧
    ∃ keyword ∈ filterUpperHK.Include,
      Contains (ToLower sampleExternals nodeHK1.Tag) (ToLower sampleExternals keyword) = true :=
  ⟨by decide, by decide,
    (include_conditions sampleExternals nodeHK1 filterUpperHK).2 (by decide) (by decide)⟩

/-- C12 as stated fails: the sample node `HK-01` matches the filter whose only include
keyword is `HK`, although its lowercased tag `hk-01` does not contain `HK`. -/
theorem include_conditions_counterexample :
    filterUpperHK.Include ≠ [] ∧ matchFilter sampleExternals nodeHK1 filterUpperHK = true ∧
    ¬ ∃ keyword ∈ filterUpperHK.Include,
      Contains (ToLower sampleExternals nodeHK1.Tag) keyword = true := by
  decide

/-! ## Route rules -/

theorem prefixFold_eq (p : String) (l : List String) (init : List String) :
    l.foldl (fun tags v => tags ++ [p ++ v]) init = init ++ l.map (fun v => p ++ v) := by
  induction l generalizing init with
  | nil => simp
  | cons a as ih => rw [List.foldl_cons, ih]; simp

theorem customRuleLoop (sorted : List Rule) (init : List RouteRule) :
    sorted.foldl customRuleStep init
      = init ++ (sorted.filter (fun r => r.Enabled)).map customRouteRule := by
  induction sorted generalizing init with
  | nil => simp
  | cons r rs ih =>
    rw [List.foldl_cons, ih]
    by_cases he : r.Enabled = true <;> simp [customRuleStep, he, List.filter_cons]

theorem ruleGroupRuleStep_eq (rules : List RouteRule) (rg : RuleGroup) :
    ruleGroupRuleStep rules rg
      = rules ++ (if rg.Enabled then groupRouteRules rg else []) := by
  unfold ruleGroupRuleStep groupRouteRules
  by_cases he : rg.Enabled = true
  · by_cases h1 : rg.SiteRules = [] <;> by_cases h2 : rg.IPRules = [] <;>
      simp [he, h1, h2, prefixFold_eq, List.length_pos]
  · simp [he]

theorem ruleGroupRuleLoop (rgs : List RuleGroup) (init : List RouteRule) :
    rgs.foldl ruleGroupRuleStep init
      = init ++ (rgs.filter (fun rg => rg.Enabled)).flatMap groupRouteRules := by
  induction rgs generalizing init with
  | nil => simp
  | cons rg rest ih =>
    rw [List.foldl_cons, ih, ruleGroupRuleStep_eq]
    by_cases he : rg.Enabled = true <;> simp [he, List.filter_cons]

theorem sortRules_perm (rules : List Rule) : (sortRules rules).Perm rules :=
  List.perm_insertionSort _ rules

theorem sortRules_sorted (rules : List Rule) :
    (sortRules rules).Sorted (fun r s => r.Priority ≤ s.Priority) := by
  haveI : IsTotal Rule (fun r s => r.Priority ≤ s.Priority) :=
    ⟨fun r s => le_total r.Priority s.Priority⟩
  haveI : IsTrans Rule (fun r s => r.Priority ≤ s.Priority) :=
    ⟨fun _ _ _ h1 h2 => le_trans h1 h2⟩
  exact List.sorted_insertionSort _ rules

/-- C13: the route rules are the DNS-hijack rule, then one rule per enabled custom rule
(none for a disabled one) taken in an order of non-decreasing priority, each carrying the
rule's outbound and the match field its type selects, then for every enabled rule group in
input order a rule over its geosite tags (when it has site rules) followed by a rule over
its geoip tags (when it has IP rules), both routed to the group's name. -/
theorem route_rules (b : ConfigBuilder) :
    (∃ sorted : List Rule, sorted.Perm b.rules ∧
      sorted.Sorted (fun r s => r.Priority ≤ s.Priority) ∧
      (buildRoute b).Rules =
        [[("protocol", Value.str "dns"), ("outbound", Value.str "dns-out")]]
        ++ (sorted.filter (fun r => r.Enabled)).map customRouteRule
        ++ (b.ruleGroups.filter (fun rg => rg.Enabled)).flatMap (fun rg =>
            (if rg.SiteRules = [] then []
              else [[("rule_set", Value.strs (rg.SiteRules.map (fun s => "geosite-" ++ s))),
                     ("outbound", Value.str rg.Name)]]) ++
            (if rg.IPRules = [] then []
              else [[("rule_set", Value.strs (rg.IPRules.map (fun i => "geoip-" ++ i))),
                     ("outbound", Value.str rg.Name)]]))) ∧
    (∀ rule : Rule,
      mapGet (customRouteRule rule) "outbound" = some (Value.str rule.Outbound) ∧
      (∀ field ∈ ["domain_suffix", "domain_keyword", "domain", "ip_cidr", "port"],
        rule.RuleType = field →
        customRouteRule rule
          = [("outbound", Value.str rule.Outbound), (field, Value.strs rule.Values)]) ∧
      (rule.RuleType = "geosite" →
        customRouteRule rule = [("outbound", Value.str rule.Outbound),
          ("rule_set", Value.strs (rule.Values.map (fun v => "geosite-" ++ v)))]) ∧
      (rule.RuleType = "geoip" →
        customRouteRule rule = [("outbound", Value.str rule.Outbound),
          ("rule_set", Value.strs (rule.Values.map (fun v => "geoip-" ++ v)))])) := by
  constructor
  · refine ⟨sortRules b.rules, sortRules_perm b.rules, sortRules_sorted b.rules, ?_⟩
    unfold buildRoute
    simp only []
    rw [ruleGroupRuleLoop, customRuleLoop]
    rfl
  · intro rule
    refine ⟨?_, ?_, ?_, ?_⟩
    · unfold customRouteRule
      simp only []
      split_ifs <;> simp [mapGet, mapSet]
    · intro field hf ht
      simp only [List.mem_cons, List.mem_singleton, List.not_mem_nil, or_false] at hf
      rcases hf with rfl | rfl | rfl | rfl | rfl <;>
        simp [customRouteRule, ht, mapSet]
    · intro ht
      simp [customRouteRule, ht, mapSet, prefixFold_eq]
    · intro ht
      simp [customRouteRule, ht, mapSet, prefixFold_eq]

/-! ## Rule sets -/

theorem ruleSetStep_eq (settings : Settings) (s : RuleSetAcc) (rg : RuleGroup) :
    ruleSetStep settings s rg
      = (if rg.Enabled then
          rg.SiteRules.map (siteRuleSet settings) ++ rg.IPRules.map (ipRuleSet settings)
        else []).foldl addRuleSet s := by
  have hsite : ∀ (l : List String) (s : RuleSetAcc),
      l.foldl (siteRuleStep settings) s = (l.map (siteRuleSet settings)).foldl addRuleSet s := by
    intro l
    induction l with
    | nil => intro s; rfl
    | cons a as ih => intro s; rw [List.map_cons, List.foldl_cons, List.foldl_cons, ih]; rfl
  have hip : ∀ (l : List String) (s : RuleSetAcc),
      l.foldl (ipRuleStep settings) s = (l.map (ipRuleSet settings)).foldl addRuleSet s := by
    intro l
    induction l with
    | nil => intro s; rfl
    | cons a as ih => intro s; rw [List.map_cons, List.foldl_cons, List.foldl_cons, ih]; rfl
  unfold ruleSetStep
  by_cases he : rg.Enabled = true
  · simp [he, hsite, hip, List.foldl_append]
  · simp [he]

theorem ruleSetLoop_eq (settings : Settings) (rgs : List RuleGroup) (s : RuleSetAcc) :
    rgs.foldl (ruleSetStep settings) s
      = ((rgs.filter (fun rg => rg.Enabled)).flatMap (fun rg =>
          rg.SiteRules.map (siteRuleSet settings) ++ rg.IPRules.map (ipRuleSet settings))).foldl
          addRuleSet s := by
  induction rgs generalizing s with
  | nil => rfl
  | cons rg rest ih =>
    rw [List.foldl_cons, ih, ruleSetStep_eq]
    by_cases he : rg.Enabled = true <;> simp [he, List.filter_cons, List.foldl_append]

theorem addRuleSet_tags (s : RuleSetAcc) (e : RuleSet) (h : RuleSetOk s) :
    (addRuleSet s e).ruleSets.map RuleSet.Tag
      = (if e.Tag ∈ s.ruleSets.map RuleSet.Tag then s.ruleSets.map RuleSet.Tag
          else s.ruleSets.map RuleSet.Tag ++ [e.Tag]) ∧
    RuleSetOk (addRuleSet s e) := by
  by_cases hm : e.Tag ∈ s.ruleSets.map RuleSet.Tag
  · have hs : (mapGet s.ruleSetMap e.Tag).getD false = true := (h e.Tag).2 hm
    have hstep : addRuleSet s e = s := by simp [addRuleSet, hs]
    rw [hstep]
    exact ⟨by rw [if_pos hm], h⟩
  · have hs : (mapGet s.ruleSetMap e.Tag).getD false = false := by
      have := (h e.Tag).not.2 hm
      simpa using this
    refine ⟨by simp [addRuleSet, hs, hm], ?_⟩
    intro t
    simp only [addRuleSet, hs, Bool.not_false, if_true, mapGet_mapSet, List.map_append,
      List.map_cons, List.map_nil, List.mem_append, List.mem_singleton]
    by_cases e1 : e.Tag = t
    · subst e1; simp
    · have e2 : ¬ t = e.Tag := fun q => e1 q.symm
      simpa [e1, e2] using h t

theorem addRuleSetLoop_tags (items : List RuleSet) (s : RuleSetAcc) (h : RuleSetOk s) :
    (items.foldl addRuleSet s).ruleSets.map RuleSet.Tag
      = (items.map RuleSet.Tag).foldl (fun a t => if t ∈ a then a else a ++ [t])
          (s.ruleSets.map RuleSet.Tag) := by
  induction items generalizing s with
  | nil => simp
  | cons e es ih =>
    have hstep := addRuleSet_tags s e h
    rw [List.foldl_cons, ih _ hstep.2, hstep.1]
    simp

theorem addRuleSetLoop_mem (items : List RuleSet) (s : RuleSetAcc) (e : RuleSet)
    (he : e ∈ (items.foldl addRuleSet s).ruleSets) : e ∈ s.ruleSets ∨ e ∈ items := by
  induction items generalizing s with
  | nil => exact Or.inl he
  | cons a as ih =>
    rw [List.foldl_cons] at he
    rcases ih _ he with h | h
    · unfold addRuleSet at h
      split_ifs at h
      · rcases List.mem_append.1 h with h2 | h2
        · exact Or.inl h2
        · exact Or.inr (by simp at h2; simp [h2])
      · exact Or.inl h
    · exact Or.inr (List.mem_cons_of_mem _ h)

theorem buildRoute_ruleSet (b : ConfigBuilder) :
    (buildRoute b).RuleSet
      = ((referencedRuleSets b).foldl addRuleSet { ruleSetMap := [], ruleSets := [] }).ruleSets := by
  unfold buildRoute
  simp only []
  rw [ruleSetLoop_eq]
  rfl

/-- C14: the tags of the rule-set entries are pairwise distinct and are the tags
`geosite-<s>` and `geoip-<i>` of the site and IP rules of the enabled rule groups, each
once, in order of first occurrence; every entry is remote, binary, downloaded through
DIRECT, and carries the URL built from `RuleSetBaseURL` for its own category. -/
theorem route_rule_sets (b : ConfigBuilder) :
    (buildRoute b).RuleSet.map RuleSet.Tag
      = firstSeen ((b.ruleGroups.filter (fun rg => rg.Enabled)).flatMap (fun rg =>
          rg.SiteRules.map (fun s => "geosite-" ++ s)
            ++ rg.IPRules.map (fun i => "geoip-" ++ i))) ∧
    ((buildRoute b).RuleSet.map RuleSet.Tag).Nodup ∧
    (∀ e ∈ (buildRoute b).RuleSet,
      e.Type_ = "remote" ∧ e.Format = "binary" ∧ e.DownloadDetour = "DIRECT" ∧
      ((∃ rg ∈ b.ruleGroups, rg.Enabled = true ∧ ∃ s ∈ rg.SiteRules,
          e.Tag = "geosite-" ++ s ∧
          e.URL = b.settings.RuleSetBaseURL ++ "/geosite-" ++ s ++ ".srs") ∨
       (∃ rg ∈ b.ruleGroups, rg.Enabled = true ∧ ∃ i ∈ rg.IPRules,
          e.Tag = "geoip-" ++ i ∧
          e.URL = b.settings.RuleSetBaseURL ++ "/../rule-set-geoip/geoip-" ++ i ++ ".srs"))) := by
  have h0 : RuleSetOk { ruleSetMap := [], ruleSets := [] } := by
    intro t; simp [mapGet]
  have htags : (buildRoute b).RuleSet.map RuleSet.Tag
      = firstSeen ((b.ruleGroups.filter (fun rg => rg.Enabled)).flatMap (fun rg =>
          rg.SiteRules.map (fun s => "geosite-" ++ s)
            ++ rg.IPRules.map (fun i => "geoip-" ++ i))) := by
    rw [buildRoute_ruleSet, addRuleSetLoop_tags _ _ h0, firstSeen_fold]
    simp only [List.map_nil, List.not_mem_nil, not_false_eq_true, decide_True,
      List.filter_true, List.nil_append]
    congr 1
    simp [referencedRuleSets, List.map_flatMap, siteRuleSet, ipRuleSet, Function.comp_def]
  refine ⟨htags, ?_, ?_⟩
  · rw [htags]; exact nodup_firstSeen _
  · intro e he
    rw [buildRoute_ruleSet] at he
    rcases addRuleSetLoop_mem _ _ e he with h | h
    · simp at h
    · simp only [referencedRuleSets, List.mem_flatMap, List.mem_filter, List.mem_append,
        List.mem_map] at h
      obtain ⟨rg, ⟨hrg, hen⟩, hmem⟩ := h
      rcases hmem with ⟨s, hs, rfl⟩ | ⟨i, hi, rfl⟩
      · exact ⟨rfl, rfl, rfl, Or.inl ⟨rg, hrg, hen, s, hs, rfl, rfl⟩⟩
      · exact ⟨rfl, rfl, rfl, Or.inr ⟨rg, hrg, hen, i, hi, rfl, rfl⟩⟩

/-! ## Strings as bytes -/

theorem decodeRune_width_pos (p0 : Nat) (rest : List Nat) :
    1 ≤ (DecodeRune (p0 :: rest)).2 := by
  simp only [DecodeRune]
  repeat' split
  all_goals simp

theorem bytesRunes_cons (fuel p0 : Nat) (rest : List Nat) :
    bytesRunes (fuel + 1) (p0 :: rest)
      = (DecodeRune (p0 :: rest)).1
          :: bytesRunes fuel ((p0 :: rest).drop (DecodeRune (p0 :: rest)).2) := rfl

theorem bytesRunes_fuel (f1 f2 : Nat) (b : List Nat) (h1 : b.length ≤ f1)
    (h2 : b.length ≤ f2) : bytesRunes f1 b = bytesRunes f2 b := by
  induction f1 generalizing f2 b with
  | zero =>
    have : b = [] := List.length_eq_zero.1 (by omega)
    subst this
    cases f2 <;> rfl
  | succ n ih =>
    cases b with
    | nil => cases f2 <;> rfl
    | cons p0 rest =>
      cases f2 with
      | zero => simp at h2
      | succ m =>
        have hw := decodeRune_width_pos p0 rest
        simp only [bytesRunes]
        congr 1
        apply ih
        · simp only [List.length_drop, List.length_cons] at *; omega
        · simp only [List.length_drop, List.length_cons] at *; omega

theorem leadInfo_two (p0 : Nat) (h : 0xC2 ≤ p0 ∧ p0 ≤ 0xDF) :
    leadInfo p0 = some (2, 0x80, 0xBF) := by
  simp [leadInfo, h]

theorem leadInfo_three (p0 : Nat) (h : 0xE0 ≤ p0 ∧ p0 ≤ 0xEF) :
    leadInfo p0 = some (3, if p0 = 0xE0 then 0xA0 else 0x80, if p0 = 0xED then 0x9F else 0xBF) := by
  obtain ⟨h1, h2⟩ := h
  interval_cases p0 <;> rfl

theorem leadInfo_four (p0 : Nat) (h : 0xF0 ≤ p0 ∧ p0 ≤ 0xF4) :
    leadInfo p0 = some (4, if p0 = 0xF0 then 0x90 else 0x80, if p0 = 0xF4 then 0x8F else 0xBF) := by
  obtain ⟨h1, h2⟩ := h
  interval_cases p0 <;> rfl

theorem decodeRune_runeBytes (c : Char) (rest : List Nat) :
    DecodeRune (runeBytes c ++ rest) = (c, (runeBytes c).length) := by
  have hc : Char.ofNat c.toNat = c := Char.ofNat_toNat c
  have hv : c.toNat < 55296 ∨ (57343 < c.toNat ∧ c.toNat < 1114112) := c.valid
  unfold runeBytes
  simp only []
  by_cases h1 : c.toNat < 128
  · simp [h1, DecodeRune, hc]
  · by_cases h2 : c.toNat < 2048
    · have hl := leadInfo_two (192 + c.toNat / 64) (by omega)
      have e : (192 + c.toNat / 64 - 192) * 64 + (128 + c.toNat % 64 - 128) = c.toNat := by
        omega
      have a1 : ¬ 192 + c.toNat / 64 < 128 := by omega
      have a2 : ¬ (128 + c.toNat % 64 < 128 ∨ 191 < 128 + c.toNat % 64) := by omega
      simp only [h1, h2, if_false, if_true, List.cons_append, List.nil_append, DecodeRune, hl,
        a1, a2, e, hc, List.length_cons, List.length_nil]
    · by_cases h3 : c.toNat < 65536
      · have hl := leadInfo_three (224 + c.toNat / 4096) (by omega)
        have e : ((224 + c.toNat / 4096 - 224) * 64 + (128 + c.toNat / 64 % 64 - 128)) * 64
            + (128 + c.toNat % 64 - 128) = c.toNat := by omega
        have a1 : ¬ 224 + c.toNat / 4096 < 128 := by omega
        have a2 : ¬ (128 + c.toNat / 64 % 64 < (if 224 + c.toNat / 4096 = 224 then 160 else 128)
            ∨ (if 224 + c.toNat / 4096 = 237 then 159 else 191) < 128 + c.toNat / 64 % 64) := by
          split_ifs <;> omega
        have a3 : ¬ (128 + c.toNat % 64 < 128 ∨ 191 < 128 + c.toNat % 64) := by omega
        simp only [h1, h2, h3, if_false, if_true, List.cons_append, List.nil_append, DecodeRune,
          hl, a1, a2, a3, e, hc, List.length_cons, List.length_nil]
        rfl
      · have hl := leadInfo_four (240 + c.toNat / 262144) (by omega)
        have e : (((240 + c.toNat / 262144 - 240) * 64 + (128 + c.toNat / 4096 % 64 - 128)) * 64
            + (128 + c.toNat / 64 % 64 - 128)) * 64 + (128 + c.toNat % 64 - 128)
              = c.toNat := by omega
        have a1 : ¬ 240 + c.toNat / 262144 < 128 := by omega
        have a2 : ¬ (128 + c.toNat / 4096 % 64
              < (if 240 + c.toNat / 262144 = 240 then 144 else 128)
            ∨ (if 240 + c.toNat / 262144 = 244 then 143 else 191)
              < 128 + c.toNat / 4096 % 64) := by
          split_ifs <;> omega
        have a3 : ¬ (128 + c.toNat / 64 % 64 < 128 ∨ 191 < 128 + c.toNat / 64 % 64) := by
          omega
        have a4 : ¬ (128 + c.toNat % 64 < 128 ∨ 191 < 128 + c.toNat % 64) := by omega
        simp only [h1, h2, h3, if_false, if_true, List.cons_append, List.nil_append, DecodeRune,
          hl, a1, a2, a3, a4, e, hc, List.length_cons, List.length_nil]
        rfl

theorem runeBytes_length_pos (c : Char) : 1 ≤ (runeBytes c).length := by
  unfold runeBytes
  simp only []
  split_ifs <;> simp

theorem bytesRunes_runeBytes (c : Char) (rest : List Nat) :
    bytesRunes (runeBytes c ++ rest).length (runeBytes c ++ rest)
      = c :: bytesRunes rest.length rest := by
  have hpos := runeBytes_length_pos c
  have hd := decodeRune_runeBytes c rest
  cases hb : runeBytes c ++ rest with
  | nil =>
    have := congrArg List.length hb
    simp only [List.length_append, List.length_nil] at this
    omega
  | cons p0 tail =>
    rw [hb] at hd
    simp only [List.length_cons, bytesRunes, hd]
    rw [← hb, List.drop_left]
    congr 1
    apply bytesRunes_fuel
    · have := congrArg List.length hb
      simp only [List.length_append, List.length_cons] at this
      omega
    · exact le_refl _

theorem bytesString_stringBytes (s : String) : bytesString (stringBytes s) = s := by
  have key : ∀ l : List Char,
      bytesRunes (l.flatMap runeBytes).length (l.flatMap runeBytes) = l := by
    intro l
    induction l with
    | nil => rfl
    | cons c cs ih => rw [List.flatMap_cons, bytesRunes_runeBytes, ih]
  rw [bytesString, stringBytes, key]

theorem toNat_ofNat_valid (n : Nat) (h : n < 55296 ∨ (57343 < n ∧ n < 1114112)) :
    (Char.ofNat n).toNat = n := by
  have hv : n.isValidChar := h
  unfold Char.ofNat
  rw [dif_pos hv]
  rfl

theorem leadInfo_bounds (p0 sz lo hi : Nat) (h : leadInfo p0 = some (sz, lo, hi)) :
    0xC2 ≤ p0 ∧ p0 ≤ 0xF4 ∧ 0x80 ≤ lo ∧ hi ≤ 0xBF ∧
    (sz = 2 ∧ p0 ≤ 0xDF ∨
     sz = 3 ∧ 0xE0 ≤ p0 ∧ p0 ≤ 0xEF ∧ (p0 = 0xE0 → 0xA0 ≤ lo) ∧ (p0 = 0xED → hi ≤ 0x9F) ∨
     sz = 4 ∧ 0xF0 ≤ p0 ∧ (p0 = 0xF0 → 0x90 ≤ lo) ∧ (p0 = 0xF4 → hi ≤ 0x8F)) := by
  unfold leadInfo at h
  split_ifs at h <;> simp only [Option.some.injEq, Prod.mk.injEq] at h <;>
    obtain ⟨rfl, rfl, rfl⟩ := h <;> omega

/-- An ASCII byte is read as itself, with width 1. -/
theorem decodeRune_ascii (c : Nat) (rest : List Nat) (hc : c < 128) :
    DecodeRune (c :: rest) = (Char.ofNat c, 1) := by
  simp [DecodeRune, hc]

/-- A byte that is not ASCII never yields an ASCII rune. -/
theorem decodeRune_nonascii (p0 : Nat) (rest : List Nat) (hp : 128 ≤ p0) :
    128 ≤ (DecodeRune (p0 :: rest)).1.toNat := by
  have herr : 128 ≤ RuneError.toNat := by decide
  have hp0 : ¬ p0 < 128 := by omega
  simp only [DecodeRune, hp0, if_false]
  cases hl : leadInfo p0 with
  | none => exact herr
  | some r =>
    obtain ⟨sz, lo, hi⟩ := r
    obtain ⟨h1, h2, h3, h4, h5⟩ := leadInfo_bounds p0 sz lo hi hl
    simp only []
    rcases rest with _ | ⟨b1, rest1⟩
    · exact herr
    · simp only []
      by_cases hb1 : b1 < lo ∨ hi < b1
      · rw [if_pos hb1]; exact herr
      · rw [if_neg hb1]
        by_cases hs2 : sz = 2
        · rw [if_pos hs2]
          rw [toNat_ofNat_valid _ (by omega)]
          omega
        · rw [if_neg hs2]
          rcases rest1 with _ | ⟨b2, rest2⟩
          · exact herr
          · simp only []
            by_cases hb2 : b2 < 128 ∨ 191 < b2
            · rw [if_pos hb2]; exact herr
            · rw [if_neg hb2]
              by_cases hs3 : sz = 3
              · rw [if_pos hs3]
                rw [toNat_ofNat_valid _ (by omega)]
                omega
              · rw [if_neg hs3]
                rcases rest2 with _ | ⟨b3, rest3⟩
                · exact herr
                · simp only []
                  by_cases hb3 : b3 < 128 ∨ 191 < b3
                  · rw [if_pos hb3]; exact herr
                  · rw [if_neg hb3]
                    rw [toNat_ofNat_valid _ (by omega)]
                    omega

/-- The rune read before an ASCII byte does not depend on what follows that byte, and its
width does not reach the byte. -/
theorem decodeRune_before_ascii (p0 : Nat) (a b : List Nat) (c : Nat) (hc : c < 128) :
    DecodeRune (p0 :: a ++ c :: b) = DecodeRune (p0 :: a) ∧
    (DecodeRune (p0 :: a)).2 ≤ (p0 :: a).length := by
  by_cases hp0 : p0 < 128
  · simp [DecodeRune, hp0]
  · simp only [DecodeRune, hp0, if_false, List.cons_append]
    cases hl : leadInfo p0 with
    | none => simp
    | some r =>
      obtain ⟨sz, lo, hi⟩ := r
      obtain ⟨h1, h2, h3, h4, h5⟩ := leadInfo_bounds p0 sz lo hi hl
      have hc1 : c < lo ∨ hi < c := Or.inl (by omega)
      have hc2 : c < 128 ∨ 191 < c := Or.inl hc
      simp only []
      rcases a with _ | ⟨b1, a1⟩
      · simp [hc1]
      · simp only [List.cons_append]
        by_cases hb1 : b1 < lo ∨ hi < b1
        · simp [hb1]
        · simp only [hb1, if_false]
          by_cases hs2 : sz = 2
          · simp [hs2]
          · simp only [hs2, if_false]
            rcases a1 with _ | ⟨b2, a2⟩
            · simp [hc2]
            · simp only [List.cons_append]
              by_cases hb2 : b2 < 128 ∨ 191 < b2
              · simp [hb2]
              · simp only [hb2, if_false]
                by_cases hs3 : sz = 3
                · simp [hs3]
                · simp only [hs3, if_false]
                  rcases a2 with _ | ⟨b3, a3⟩
                  · simp [hc2]
                  · simp only [List.cons_append]
                    by_cases hb3 : b3 < 128 ∨ 191 < b3
                    · simp [hb3]
                    · simp [hb3]

/-- An ASCII byte separates the runes: those of the bytes before it, the byte itself, those
of the bytes after it. -/
theorem bytesRunes_ascii (a b : List Nat) (c : Nat) (hc : c < 128) :
    bytesRunes (a ++ c :: b).length (a ++ c :: b)
      = bytesRunes a.length a ++ Char.ofNat c :: bytesRunes b.length b := by
  generalize hn : a.length = n
  induction n using Nat.strong_induction_on generalizing a with
  | _ n ih =>
    cases a with
    | nil =>
      simp only [List.nil_append, List.length_cons, bytesRunes, decodeRune_ascii c b hc,
        List.drop_succ_cons, List.drop_zero]
      cases n <;> simp at hn
      rfl
    | cons p0 a1 =>
      obtain ⟨hd, hw⟩ := decodeRune_before_ascii p0 a1 b c hc
      have hpos := decodeRune_width_pos p0 a1
      subst hn
      have hdrop : (p0 :: a1 ++ c :: b).drop (DecodeRune (p0 :: a1)).2
          = (p0 :: a1).drop (DecodeRune (p0 :: a1)).2 ++ c :: b :=
        List.drop_append_of_le_length hw
      have hlen : ((p0 :: a1).drop (DecodeRune (p0 :: a1)).2).length < (p0 :: a1).length := by
        rw [List.length_drop]
        simp only [List.length_cons] at hw ⊢
        omega
      have hih := ih _ hlen _ rfl
      have e1 : p0 :: a1 ++ c :: b = p0 :: (a1 ++ c :: b) := rfl
      rw [e1] at hd hdrop ⊢
      rw [List.length_cons, bytesRunes_cons, List.length_cons, bytesRunes_cons, hd, hdrop,
        List.cons_append]
      congr 1
      rw [bytesRunes_fuel _ ((p0 :: a1).drop (DecodeRune (p0 :: a1)).2 ++ c :: b).length _ ?_
        (le_refl _), hih]
      · congr 1
        apply bytesRunes_fuel
        · exact le_refl _
        · simp only [List.length_cons] at hlen; omega
      · simp only [List.length_append, List.length_drop, List.length_cons] at hw ⊢
        omega

theorem mem_of_mem_bytesRunes (c : Nat) (hc : c < 128) (fuel : Nat) (b : List Nat)
    (h : Char.ofNat c ∈ bytesRunes fuel b) : c ∈ b := by
  induction fuel generalizing b with
  | zero => simp [bytesRunes] at h
  | succ n ih =>
    cases b with
    | nil => simp [bytesRunes] at h
    | cons p0 rest =>
      rw [bytesRunes_cons, List.mem_cons] at h
      rcases h with h | h
      · have ht := congrArg Char.toNat h
        rw [toNat_ofNat_valid c (by omega)] at ht
        by_cases hp : p0 < 128
        · rw [decodeRune_ascii p0 rest hp, toNat_ofNat_valid p0 (by omega)] at ht
          rw [ht]
          exact List.mem_cons_self _ _
        · have := decodeRune_nonascii p0 rest (by omega)
          omega
      · exact List.mem_of_mem_drop (ih _ h)

/-- No ASCII character is lost or invented: an ASCII character is among the runes of a
byte sequence exactly when its byte is among the bytes. -/
theorem mem_bytesString_ascii (b : List Nat) (c : Nat) (hc : c < 128) :
    Char.ofNat c ∈ (bytesString b).data ↔ c ∈ b := by
  constructor
  · exact mem_of_mem_bytesRunes c hc _ b
  · intro h
    obtain ⟨a, b2, rfl⟩ := List.append_of_mem h
    show Char.ofNat c ∈ bytesRunes _ _
    rw [bytesRunes_ascii a b2 c hc]
    simp

/-- The string of a byte sequence is split by an ASCII byte as the bytes are. -/
theorem bytesString_ascii (a b : List Nat) (c : Nat) (hc : c < 128) :
    bytesString (a ++ c :: b) = bytesString a ++ ⟨[Char.ofNat c]⟩ ++ bytesString b := by
  apply String.ext
  simp only [bytesString, String.data_append]
  rw [bytesRunes_ascii a b c hc]
  simp

/-- Only the empty byte sequence gives the empty string. -/
theorem bytesString_eq_empty (b : List Nat) : bytesString b = "" ↔ b = [] := by
  constructor
  · intro h
    cases b with
    | nil => rfl
    | cons p0 rest =>
      have := congrArg String.data h
      simp [bytesString, bytesRunes_cons] at this
  · rintro rfl
    rfl

/-- Bytes that are no UTF-8 text: each byte outside a valid encoding is shown as U+FFFD and
the other bytes are read as they stand, also after a leading byte without its continuation
and for the overlong form `C0 BA` of a colon. -/
theorem bytesString_nontext :
    (bytesString [0xFF]).data = [RuneError] ∧
    (bytesString [0xC3, 0x3A, 0x70, 0x77]).data = [RuneError, ':', 'p', 'w'] ∧
    (bytesString [0xC0, 0xBA]).data = [RuneError, RuneError] ∧
    (bytesString [0xE4, 0xB8, 0x41]).data = [RuneError, RuneError, 'A'] ∧
    bytesString [0xE9, 0xA6, 0x99, 0xE6, 0xB8, 0xAF] = "香港" ∧
    DecodeBase64 "/w==" = .ok (bytesString [0xFF]) ∧
    QueryUnescape "%C3:pw" = .ok (bytesString [0xC3, 0x3A, 0x70, 0x77]) := by
  decide

/-- The unescaped string is the string of the unescaped bytes. -/
theorem queryUnescaped_bytes (s : String) (b : List Nat)
    (h : unescapeBytes s.data = some b) :
    QueryUnescape s = .ok (bytesString b) ∧ queryUnescaped s = bytesString b := by
  simp [QueryUnescape, queryUnescaped, h]

/-- Where the unescaped bytes have their first colon after the bytes `a`, the unescaped
string has its first colon after the string of `a`, and the string of the bytes `b` behind
it. -/
theorem queryUnescaped_colon (s : String) (a b : List Nat)
    (h : unescapeBytes s.data = some (a ++ 0x3A :: b)) (ha : 0x3A ∉ a) :
    queryUnescaped s = bytesString a ++ ":" ++ bytesString b ∧
    ':' ∉ (bytesString a).data := by
  have e : Char.ofNat 0x3A = ':' := rfl
  refine ⟨?_, ?_⟩
  · rw [(queryUnescaped_bytes s _ h).2, bytesString_ascii a b 0x3A (by decide), e]
  · rw [← e, mem_bytesString_ascii a 0x3A (by decide)]
    exact ha

/-- Where the unescaped bytes have no colon, the unescaped string has none. -/
theorem queryUnescaped_no_colon (s : String) (b : List Nat)
    (h : unescapeBytes s.data = some b) (hb : 0x3A ∉ b) :
    ':' ∉ (queryUnescaped s).data := by
  have e : Char.ofNat 0x3A = ':' := rfl
  rw [(queryUnescaped_bytes s _ h).2, ← e, mem_bytesString_ascii b 0x3A (by decide)]
  exact hb

/-- The unescaped string is empty exactly when unescaping fails or yields no byte. -/
theorem queryUnescaped_eq_empty (s : String) :
    queryUnescaped s = "" ↔ unescapeBytes s.data = none ∨ unescapeBytes s.data = some [] := by
  cases h : unescapeBytes s.data with
  | none => simp [queryUnescaped, QueryUnescape, h]
  | some b =>
    rw [(queryUnescaped_bytes s b h).2, bytesString_eq_empty]
    simp

/-! ## Base64 -/

theorem stdAlphabet_wellFormed : StdEncoding.WellFormed := by
  unfold Encoding.WellFormed
  exact ⟨by decide, by decide⟩

theorem urlAlphabet_wellFormed : URLEncoding.WellFormed := by
  unfold Encoding.WellFormed
  exact ⟨by decide, by decide⟩

theorem wellFormed_of_alphabet (e1 e2 : Encoding) (h : e1.alphabet = e2.alphabet)
    (hw : e1.WellFormed) : e2.WellFormed := by
  refine ⟨by simpa [charSextet, h] using hw.1, fun v hv => ?_⟩
  have := hw.2 v hv
  simpa [sextetChar, charSextet, h] using this

theorem quantumBytes_four (a b c : Nat) (ha : a < 256) (hb : b < 256) (hc : c < 256) :
    quantumBytes [a / 4, a % 4 * 16 + b / 16, b % 16 * 4 + c / 64, c % 64] = [a, b, c] := by
  simp only [quantumBytes, List.getD_cons_zero, List.getD_cons_succ, List.length_cons,
    List.length_nil]
  have e : a / 4 * 262144 + (a % 4 * 16 + b / 16) * 4096 + (b % 16 * 4 + c / 64) * 64 + c % 64
      = a * 65536 + b * 256 + c := by omega
  rw [e]
  have e1 : (a * 65536 + b * 256 + c) / 65536 % 256 = a := by omega
  have e2 : (a * 65536 + b * 256 + c) / 256 % 256 = b := by omega
  have e3 : (a * 65536 + b * 256 + c) % 256 = c := by omega
  simp [e1, e2, e3]

theorem quantumBytes_three (a b : Nat) (ha : a < 256) (hb : b < 256) :
    quantumBytes [a / 4, a % 4 * 16 + b / 16, b % 16 * 4] = [a, b] := by
  simp only [quantumBytes, List.getD_cons_zero, List.getD_cons_succ, List.length_cons,
    List.length_nil, List.getD_nil]
  simp
  constructor <;> omega

theorem quantumBytes_two (a : Nat) (ha : a < 256) :
    quantumBytes [a / 4, a % 4 * 16] = [a] := by
  simp only [quantumBytes, List.getD_cons_zero, List.getD_cons_succ, List.length_cons,
    List.length_nil, List.getD_nil]
  simp
  omega

theorem decodeLoop_sextet (enc : Encoding) (hw : enc.WellFormed) (v : Nat) (hv : v < 64)
    (buf out : List Nat) (rest : List Char) :
    decodeLoop enc (.quantum buf) out (sextetChar enc v :: rest)
      = if buf.length = 3 then
          decodeLoop enc (.quantum []) (out ++ quantumBytes (buf ++ [v])) rest
        else decodeLoop enc (.quantum (buf ++ [v])) out rest := by
  rw [decodeLoop, (hw.2 v hv).1]

theorem decodeLoop_encodeBytes (enc : Encoding) (hw : enc.WellFormed) :
    ∀ (bytes out : List Nat), (∀ b ∈ bytes, b < 256) →
      decodeLoop enc (.quantum []) out (encodeBytes enc bytes) = some (out ++ bytes)
  | [], out, _ => by simp [encodeBytes, decodeLoop]
  | [a], out, h => by
      have ha : a < 256 := h a (by simp)
      have h0 : a / 4 < 64 := by omega
      have h1 : a % 4 * 16 < 64 := by omega
      rw [encodeBytes, decodeLoop_sextet enc hw _ h0, if_neg (by simp),
        decodeLoop_sextet enc hw _ h1, if_neg (by simp)]
      cases hp : enc.padded
      · simp [decodeLoop, hp, quantumBytes_two a ha]
      · simp [decodeLoop, hp, hw.1, quantumBytes_two a ha]
  | [a, b], out, h => by
      have ha : a < 256 := h a (by simp)
      have hb : b < 256 := h b (by simp)
      have h0 : a / 4 < 64 := by omega
      have h1 : a % 4 * 16 + b / 16 < 64 := by omega
      have h2 : b % 16 * 4 < 64 := by omega
      rw [encodeBytes, decodeLoop_sextet enc hw _ h0, if_neg (by simp),
        decodeLoop_sextet enc hw _ h1, if_neg (by simp),
        decodeLoop_sextet enc hw _ h2, if_neg (by simp)]
      cases hp : enc.padded
      · simp [decodeLoop, hp, quantumBytes_three a b ha hb]
      · simp [decodeLoop, hp, hw.1, quantumBytes_three a b ha hb]
  | a :: b :: c :: rest, out, h => by
      have ha : a < 256 := h a (by simp)
      have hb : b < 256 := h b (by simp)
      have hc : c < 256 := h c (by simp)
      have h0 : a / 4 < 64 := by omega
      have h1 : a % 4 * 16 + b / 16 < 64 := by omega
      have h2 : b % 16 * 4 + c / 64 < 64 := by omega
      have h3 : c % 64 < 64 := by omega
      have ih := decodeLoop_encodeBytes enc hw rest (out ++ [a, b, c])
        (fun x hx => h x (by simp [hx]))
      rw [encodeBytes, decodeLoop_sextet enc hw _ h0, if_neg (by simp),
        decodeLoop_sextet enc hw _ h1, if_neg (by simp),
        decodeLoop_sextet enc hw _ h2, if_neg (by simp),
        decodeLoop_sextet enc hw _ h3, if_pos (by simp)]
      simp only [List.nil_append, List.cons_append, quantumBytes_four a b c ha hb hc]
      rw [ih]
      simp

theorem stringBytes_lt (s : String) : ∀ b ∈ stringBytes s, b < 256 := by
  intro b hb
  simp only [stringBytes, List.mem_flatMap] at hb
  obtain ⟨c, _, hc⟩ := hb
  have hv : c.toNat < 1114112 := by
    rcases c.valid with h | h
    · have : c.toNat < 55296 := h
      omega
    · have : c.toNat < 1114112 := h.2
      omega
  unfold runeBytes at hc
  simp only [] at hc
  split_ifs at hc <;> simp at hc <;> omega

/-- Decoding inverts encoding, for each of the four encodings. -/
theorem decodeString_encodeToString (enc : Encoding) (hw : enc.WellFormed) (s : String) :
    DecodeString enc (EncodeToString enc (stringBytes s)) = some (stringBytes s) := by
  simp [DecodeString, EncodeToString, decodeLoop_encodeBytes enc hw _ [] (stringBytes_lt s)]

/-! ## Trimming and padding -/

theorem dropWhile_all (p : Char → Bool) (l r : List Char) (h : ∀ c ∈ l, p c = true) :
    (l ++ r).dropWhile p = r.dropWhile p := by
  induction l with
  | nil => rfl
  | cons a as ih =>
    have ha : p a = true := h a (by simp)
    simp only [List.cons_append, List.dropWhile_cons, ha, if_true]
    exact ih (fun c hc => h c (List.mem_cons_of_mem _ hc))

theorem dropWhile_none (p : Char → Bool) (l : List Char) (h : ∀ c ∈ l, p c = false) :
    l.dropWhile p = l := by
  cases l with
  | nil => rfl
  | cons a as =>
    have ha : p a = false := h a (by simp)
    simp [List.dropWhile_cons, ha]

theorem dropWhile_core (p : Char → Bool) (e r : List Char) (he : ∀ c ∈ e, p c = false)
    (hr : ∀ c ∈ r, p c = true) : (e ++ r).dropWhile p = if e = [] then [] else e ++ r := by
  cases e with
  | nil =>
    have := dropWhile_all p r [] hr
    simpa using this
  | cons a as =>
    have ha : p a = false := he a (by simp)
    simp [List.dropWhile_cons, ha]

theorem trimSpace_surrounded (ws1 e ws2 : List Char) (h1 : ∀ c ∈ ws1, isSpace c = true)
    (h2 : ∀ c ∈ ws2, isSpace c = true) (he : ∀ c ∈ e, isSpace c = false) :
    TrimSpace ⟨ws1 ++ e ++ ws2⟩ = ⟨e⟩ := by
  unfold TrimSpace dropTrailing
  simp only [List.append_assoc]
  rw [dropWhile_all isSpace ws1 _ h1, dropWhile_core isSpace e ws2 he h2]
  by_cases hnil : e = []
  · simp [hnil]
  · simp only [hnil, if_false, List.reverse_append]
    rw [dropWhile_all isSpace ws2.reverse _ (fun c hc => h2 c (List.mem_reverse.1 hc)),
      dropWhile_none isSpace e.reverse (fun c hc => he c (List.mem_reverse.1 hc))]
    simp

theorem byteLen_ascii (l : List Char) (h : ∀ c ∈ l, c.toNat < 128) :
    byteLen ⟨l⟩ = l.length := by
  unfold byteLen stringBytes
  simp only []
  induction l with
  | nil => rfl
  | cons a as ih =>
    have ha : a.toNat < 128 := h a (by simp)
    rw [List.flatMap_cons, List.length_append, ih (fun c hc => h c (List.mem_cons_of_mem _ hc))]
    simp [runeBytes, ha]
    omega

/-- Characters of base64 text: sextet characters and `=`. -/
theorem mem_encodeBytes (enc : Encoding) :
    ∀ (bytes : List Nat), (∀ b ∈ bytes, b < 256) →
      ∀ ch ∈ encodeBytes enc bytes, ch = '=' ∨ ∃ v, v < 64 ∧ ch = sextetChar enc v
  | [], _, ch, hch => by simp [encodeBytes] at hch
  | [a], h, ch, hch => by
      have ha : a < 256 := h a (by simp)
      simp only [encodeBytes, List.mem_cons] at hch
      rcases hch with rfl | rfl | hch
      · exact Or.inr ⟨_, by omega, rfl⟩
      · exact Or.inr ⟨_, by omega, rfl⟩
      · left
        split_ifs at hch <;> simp at hch
        exact hch
  | [a, b], h, ch, hch => by
      have ha : a < 256 := h a (by simp)
      have hb : b < 256 := h b (by simp)
      simp only [encodeBytes, List.mem_cons] at hch
      rcases hch with rfl | rfl | rfl | hch
      · exact Or.inr ⟨_, by omega, rfl⟩
      · exact Or.inr ⟨_, by omega, rfl⟩
      · exact Or.inr ⟨_, by omega, rfl⟩
      · left
        split_ifs at hch <;> simp at hch
        exact hch
  | a :: b :: c :: rest, h, ch, hch => by
      have ha : a < 256 := h a (by simp)
      have hb : b < 256 := h b (by simp)
      have hc : c < 256 := h c (by simp)
      simp only [encodeBytes, List.mem_cons] at hch
      rcases hch with rfl | rfl | rfl | rfl | hch
      · exact Or.inr ⟨_, by omega, rfl⟩
      · exact Or.inr ⟨_, by omega, rfl⟩
      · exact Or.inr ⟨_, by omega, rfl⟩
      · exact Or.inr ⟨_, by omega, rfl⟩
      · exact mem_encodeBytes enc rest (fun x hx => h x (by simp [hx])) ch hch

theorem encodeBytes_plain (enc : Encoding) (hw : enc.WellFormed) (bytes : List Nat)
    (h : ∀ b ∈ bytes, b < 256) :
    ∀ ch ∈ encodeBytes enc bytes, isSpace ch = false ∧ ch.toNat < 128 := by
  intro ch hch
  rcases mem_encodeBytes enc bytes h ch hch with rfl | ⟨v, hv, rfl⟩
  · exact ⟨by decide, by decide⟩
  · exact ⟨(hw.2 v hv).2.2.2.2.1, (hw.2 v hv).2.2.2.2.2⟩

/-- The padded encoding is the unpadded one followed by `=` up to a multiple of four. -/
theorem encodeBytes_padded (al : List Char) :
    ∀ (bytes : List Nat), ∃ p, p ≤ 2 ∧
      encodeBytes { alphabet := al, padded := true } bytes
        = encodeBytes { alphabet := al, padded := false } bytes ++ List.replicate p '=' ∧
      ((encodeBytes { alphabet := al, padded := false } bytes).length + p) % 4 = 0
  | [] => ⟨0, by simp [encodeBytes]⟩
  | [a] => ⟨2, by simp [encodeBytes, sextetChar]⟩
  | [a, b] => ⟨1, by simp [encodeBytes, sextetChar]⟩
  | a :: b :: c :: rest => by
      obtain ⟨p, hp, he, hl⟩ := encodeBytes_padded al rest
      refine ⟨p, hp, ?_, ?_⟩
      · simp only [encodeBytes, he, sextetChar, List.cons_append]
      · simp only [encodeBytes, List.length_cons]
        omega

theorem padQuantum_restore (t : List Char) (k : Nat) (hk : k ≤ 2)
    (hascii : ∀ c ∈ t, c.toNat < 128) (hlen : (t.length + k) % 4 = 0) :
    padQuantum ⟨t⟩ = ⟨t ++ List.replicate k '='⟩ := by
  unfold padQuantum
  simp only [byteLen_ascii t hascii, RepeatEq]
  have hcases : k = 0 ∨ k = 1 ∨ k = 2 := by omega
  rcases hcases with rfl | rfl | rfl
  · have : t.length % 4 = 0 := by omega
    simp [this]
  · have : t.length % 4 = 3 := by omega
    simp [this, String.ext_iff]
  · have : t.length % 4 = 2 := by omega
    simp [this, String.ext_iff]

/-! ## `DecodeBase64` -/

theorem urlChar_under_std (c : Char)
    (h : c = '=' ∨ ∃ v, v < 64 ∧ c = sextetChar URLEncoding v) :
    charSextet StdEncoding c = charSextet URLEncoding c ∨
    (charSextet StdEncoding c = none ∧ c ≠ '\n' ∧ c ≠ '\r' ∧ c ≠ '=') := by
  have hall : ∀ v, v < 64 →
      (charSextet StdEncoding (sextetChar URLEncoding v)
          = charSextet URLEncoding (sextetChar URLEncoding v) ∨
        (charSextet StdEncoding (sextetChar URLEncoding v) = none ∧
          sextetChar URLEncoding v ≠ '\n' ∧ sextetChar URLEncoding v ≠ '\r' ∧
          sextetChar URLEncoding v ≠ '=')) := by decide
  rcases h with rfl | ⟨v, hv, rfl⟩
  · left; decide
  · exact hall v hv

theorem decodeLoop_std_of_url (text : List Char) :
    ∀ (st : DecodeState) (out : List Nat),
      (∀ c ∈ text, c = '=' ∨ ∃ v, v < 64 ∧ c = sextetChar URLEncoding v) →
      decodeLoop StdEncoding st out text = none ∨
      decodeLoop StdEncoding st out text = decodeLoop URLEncoding st out text := by
  induction text with
  | nil =>
    intro st out _
    right
    cases st <;> simp [decodeLoop, StdEncoding, URLEncoding]
  | cons c rest ih =>
    intro st out h
    have hrest : ∀ d ∈ rest, d = '=' ∨ ∃ v, v < 64 ∧ d = sextetChar URLEncoding v :=
      fun d hd => h d (List.mem_cons_of_mem _ hd)
    cases st with
    | quantum buf =>
      rcases urlChar_under_std c (h c (by simp)) with hsame | ⟨hnone, h1, h2, h3⟩
      · rw [decodeLoop, decodeLoop, hsame]
        cases hs : charSextet URLEncoding c with
        | some v =>
          simp only []
          split_ifs
          · exact ih _ _ hrest
          · exact ih _ _ hrest
        | none =>
          simp only []
          have hp : StdEncoding.padded = URLEncoding.padded := rfl
          rw [hp]
          split_ifs
          · exact ih _ _ hrest
          · exact ih _ _ hrest
          · exact ih _ _ hrest
          · exact Or.inr rfl
          · exact Or.inr rfl
      · left
        rw [decodeLoop, hnone]
        simp [h1, h2, h3]
    | padding =>
      rw [decodeLoop, decodeLoop]
      split_ifs
      · exact ih _ _ hrest
      · exact ih _ _ hrest
      · exact Or.inr rfl
    | done =>
      rw [decodeLoop, decodeLoop]
      split_ifs
      · exact ih _ _ hrest
      · exact Or.inr rfl

theorem decodeBase64_of_text (t : String) (x : String)
    (htrim : TrimSpace t = t)
    (hdec : DecodeString StdEncoding (padQuantum t) = some (stringBytes x) ∨
      (DecodeString StdEncoding (padQuantum t) = none ∧
        DecodeString URLEncoding (padQuantum t) = some (stringBytes x))) :
    DecodeBase64 t = .ok x := by
  unfold DecodeBase64
  simp only [htrim]
  rcases hdec with h | ⟨h1, h2⟩
  · rw [h]; simp [bytesString_stringBytes]
  · rw [h1, h2]; simp [bytesString_stringBytes]

theorem decodeBase64_unpadded (x : String) (t : List Char) (k : Nat) (hk : k ≤ 2)
    (ht : (EncodeBase64 x).data = t ++ List.replicate k '=') : DecodeBase64 ⟨t⟩ = .ok x := by
  have hlt := stringBytes_lt x
  have hplain := encodeBytes_plain StdEncoding stdAlphabet_wellFormed (stringBytes x) hlt
  have hlen : (encodeBytes StdEncoding (stringBytes x)).length % 4 = 0 := by
    obtain ⟨p, _, he, hl⟩ := encodeBytes_padded stdAlphabet (stringBytes x)
    have he2 : encodeBytes StdEncoding (stringBytes x)
        = encodeBytes { alphabet := stdAlphabet, padded := false } (stringBytes x)
          ++ List.replicate p '=' := he
    rw [he2, List.length_append, List.length_replicate]
    exact hl
  have ht2 : encodeBytes StdEncoding (stringBytes x) = t ++ List.replicate k '=' := ht
  have hsub : ∀ c ∈ t, isSpace c = false ∧ c.toNat < 128 :=
    fun c hc => hplain c (by rw [ht2]; exact List.mem_append_left _ hc)
  have htrim : TrimSpace ⟨t⟩ = ⟨t⟩ := by
    have := trimSpace_surrounded [] t [] (by simp) (by simp) (fun c hc => (hsub c hc).1)
    simpa using this
  have hpad : padQuantum ⟨t⟩ = EncodeToString StdEncoding (stringBytes x) := by
    rw [padQuantum_restore t k hk (fun c hc => (hsub c hc).2)
      (by rw [← List.length_replicate k '=', ← List.length_append, ← ht2]; exact hlen)]
    simp [EncodeToString, ht2]
  apply decodeBase64_of_text ⟨t⟩ x htrim
  left
  rw [hpad]
  exact decodeString_encodeToString StdEncoding stdAlphabet_wellFormed x

theorem decodeBase64_encodeBase64 (x : String) : DecodeBase64 (EncodeBase64 x) = .ok x :=
  decodeBase64_unpadded x _ 0 (by omega) (by simp [EncodeBase64, EncodeToString])

/-- C15: `DecodeBase64` inverts `EncodeBase64`: decoding the encoding of any string `x`
succeeds with `x`, and so does decoding the encoding with its last `k` padding characters
`=` removed, for `k` up to 2. -/
theorem base64_round_trip (x : String) :
    DecodeBase64 (EncodeBase64 x) = .ok x ∧
    ∀ (t : List Char) (k : Nat), k ≤ 2 →
      (EncodeBase64 x).data = t ++ List.replicate k '=' → DecodeBase64 ⟨t⟩ = .ok x :=
  ⟨decodeBase64_encodeBase64 x, decodeBase64_unpadded x⟩

/-- Witness for C15: the encoding `YQ==` of `a` with both padding characters removed. -/
theorem base64_round_trip_witness :
    (EncodeBase64 "a").data = "YQ".data ++ List.replicate 2 '=' ∧ DecodeBase64 "YQ" = .ok "a" :=
  ⟨by decide, (base64_round_trip "a").2 "YQ".data 2 (by decide) (by decide)⟩

/-- C16: `DecodeBase64` accepts the URL-safe encoding of any string `x`, padded or not,
between any leading and trailing white space, and returns `x`; and it returns an error only
when the standard and the URL-safe decoding of the trimmed, padded input and the unpadded
standard and URL-safe decoding of that input without its trailing `=` all fail. -/
theorem base64_tolerant :
    (∀ (x : String) (ws1 ws2 : List Char),
      (∀ c ∈ ws1, isSpace c = true) → (∀ c ∈ ws2, isSpace c = true) →
      DecodeBase64 ⟨ws1 ++ (EncodeToString URLEncoding (stringBytes x)).data ++ ws2⟩ = .ok x ∧
      DecodeBase64 ⟨ws1 ++ (EncodeToString RawURLEncoding (stringBytes x)).data ++ ws2⟩
        = .ok x) ∧
    (∀ (s err : String), DecodeBase64 s = .error err →
      DecodeString StdEncoding (padQuantum (TrimSpace s)) = none ∧
      DecodeString URLEncoding (padQuantum (TrimSpace s)) = none ∧
      DecodeString RawStdEncoding (TrimRightEq (padQuantum (TrimSpace s))) = none ∧
      DecodeString RawURLEncoding (TrimRightEq (padQuantum (TrimSpace s))) = none) := by
  constructor
  · intro x ws1 ws2 h1 h2
    have hlt := stringBytes_lt x
    have hraw : RawURLEncoding.WellFormed :=
      wellFormed_of_alphabet URLEncoding RawURLEncoding rfl urlAlphabet_wellFormed
    obtain ⟨p, hp, he, hl⟩ := encodeBytes_padded urlAlphabet (stringBytes x)
    have he2 : encodeBytes URLEncoding (stringBytes x)
        = encodeBytes RawURLEncoding (stringBytes x) ++ List.replicate p '=' := he
    have hl2 : ((encodeBytes RawURLEncoding (stringBytes x)).length + p) % 4 = 0 := hl
    have hdec : DecodeString StdEncoding (EncodeToString URLEncoding (stringBytes x))
          = some (stringBytes x) ∨
        (DecodeString StdEncoding (EncodeToString URLEncoding (stringBytes x)) = none ∧
          DecodeString URLEncoding (EncodeToString URLEncoding (stringBytes x))
            = some (stringBytes x)) := by
      have hurl := decodeString_encodeToString URLEncoding urlAlphabet_wellFormed x
      rcases decodeLoop_std_of_url (encodeBytes URLEncoding (stringBytes x)) (.quantum []) []
        (mem_encodeBytes URLEncoding (stringBytes x) hlt) with h | h
      · exact Or.inr ⟨h, hurl⟩
      · left
        have : DecodeString StdEncoding (EncodeToString URLEncoding (stringBytes x))
            = DecodeString URLEncoding (EncodeToString URLEncoding (stringBytes x)) := h
        rw [this, hurl]
    have full : ∀ (e : List Char) (k : Nat), k ≤ 2 →
        (∀ c ∈ e, isSpace c = false ∧ c.toNat < 128) →
        encodeBytes URLEncoding (stringBytes x) = e ++ List.replicate k '=' →
        DecodeBase64 ⟨ws1 ++ e ++ ws2⟩ = .ok x := by
      intro e k hk hplain hek
      have htrim : TrimSpace ⟨ws1 ++ e ++ ws2⟩ = ⟨e⟩ :=
        trimSpace_surrounded ws1 e ws2 h1 h2 (fun c hc => (hplain c hc).1)
      have htrim2 : TrimSpace ⟨e⟩ = ⟨e⟩ := by
        have := trimSpace_surrounded [] e [] (by simp) (by simp) (fun c hc => (hplain c hc).1)
        simpa using this
      have hlen : (e.length + k) % 4 = 0 := by
        have := congrArg List.length hek
        rw [he2, List.length_append, List.length_append, List.length_replicate,
          List.length_replicate] at this
        omega
      have hpad : padQuantum ⟨e⟩ = EncodeToString URLEncoding (stringBytes x) := by
        rw [padQuantum_restore e k hk (fun c hc => (hplain c hc).2) hlen]
        simp [EncodeToString, hek]
      have key : DecodeBase64 ⟨e⟩ = .ok x :=
        decodeBase64_of_text ⟨e⟩ x htrim2 (by rw [hpad]; exact hdec)
      unfold DecodeBase64 at key ⊢
      simp only [htrim, htrim2] at key ⊢
      exact key
    constructor
    · exact full _ 0 (by omega)
        (encodeBytes_plain URLEncoding urlAlphabet_wellFormed (stringBytes x) hlt)
        (by simp [EncodeToString])
    · exact full _ p hp (encodeBytes_plain RawURLEncoding hraw (stringBytes x) hlt) he2
  · intro s err h
    unfold DecodeBase64 at h
    simp only [] at h
    cases h1 : DecodeString StdEncoding (padQuantum (TrimSpace s)) with
    | some d => rw [h1] at h; simp at h
    | none =>
      rw [h1] at h
      cases h2 : DecodeString URLEncoding (padQuantum (TrimSpace s)) with
      | some d => rw [h2] at h; simp at h
      | none =>
        rw [h2] at h
        cases h3 : DecodeString RawStdEncoding (TrimRightEq (padQuantum (TrimSpace s))) with
        | some d => rw [h3] at h; simp at h
        | none =>
          rw [h3] at h
          cases h4 : DecodeString RawURLEncoding (TrimRightEq (padQuantum (TrimSpace s))) with
          | some d => rw [h4] at h; simp at h
          | none => exact ⟨rfl, rfl, rfl, rfl⟩

/-- Witness for C16: the unpadded URL-safe encoding of a string whose standard encoding
differs from it, between a space and a line break. -/
theorem base64_tolerant_witness :
    (∀ c ∈ [' '], isSpace c = true) ∧ (∀ c ∈ ['\n'], isSpace c = true) ∧
    EncodeToString RawURLEncoding (stringBytes "香港ÿ>>??") = "6aaZ5rivw78-Pj8_" ∧
    EncodeBase64 "香港ÿ>>??" = "6aaZ5rivw78+Pj8/" ∧
    DecodeBase64 " 6aaZ5rivw78-Pj8_\n" = .ok "香港ÿ>>??" :=
  ⟨by decide, by decide, by decide, by decide,
    (base64_tolerant.1 "香港ÿ>>??" [' '] ['\n'] (by decide) (by decide)).2⟩

/-! ## Reading the result of a parser -/

theorem trojan_inv (h : Helpers) (uri : String) (node : Node)
    (hp : TrojanParser.Parse h uri = .ok node) :
    ∃ addressPart params name,
      h.parseURLParams uri = .ok (addressPart, params, name) ∧
      node.Tag = (if name = "" then node.Server ++ ":" ++ formatInt node.ServerPort else name) ∧
      node.NodeType = "trojan" ∧
      mapGet node.Extra "tls"
        = (if h.getParamString params "security" "tls" ≠ "none" then
            some (Value.obj (realityTLS h params (h.getParamString params "security" "tls")))
          else none) := by
  cases hparse : h.parseURLParams uri with
  | error e => simp [TrojanParser.Parse, hparse] at hp
  | ok r =>
    obtain ⟨addressPart, params, name⟩ := r
    cases hidx : Index addressPart "@" with
    | none => simp [TrojanParser.Parse, hparse, hidx] at hp
    | some atIdx =>
      cases hsrv : h.parseServerInfo (sliceFrom addressPart (atIdx + 1)) with
      | error e => simp [TrojanParser.Parse, hparse, hidx, hsrv] at hp
      | ok sp =>
        obtain ⟨server, port⟩ := sp
        simp only [TrojanParser.Parse, hparse, hidx, hsrv, Except.ok.injEq] at hp
        subst hp
        refine ⟨addressPart, params, name, rfl, rfl, rfl, ?_⟩
        simp only []
        by_cases hs : h.getParamString params "security" "tls" = "none"
        · simp only [hs, ne_eq, not_true_eq_false, if_false]
          split_ifs <;> simp [mapGet, mapSet]
        · simp only [hs, ne_eq, not_false_eq_true, if_true]
          split_ifs <;> simp [mapGet, mapSet]

theorem vless_inv (h : Helpers) (uri : String) (node : Node)
    (hp : VlessParser.Parse h uri = .ok node) :
    ∃ addressPart params name,
      h.parseURLParams uri = .ok (addressPart, params, name) ∧
      node.Tag = (if name = "" then node.Server ++ ":" ++ formatInt node.ServerPort else name) ∧
      node.NodeType = "vless" ∧
      mapGet node.Extra "tls"
        = (if h.getParamString params "security" "none" ≠ "none" then
            some (Value.obj (realityTLS h params (h.getParamString params "security" "none")))
          else none) := by
  cases hparse : h.parseURLParams uri with
  | error e => simp [VlessParser.Parse, hparse] at hp
  | ok r =>
    obtain ⟨addressPart, params, name⟩ := r
    cases hidx : Index addressPart "@" with
    | none => simp [VlessParser.Parse, hparse, hidx] at hp
    | some atIdx =>
      cases hsrv : h.parseServerInfo (sliceFrom addressPart (atIdx + 1)) with
      | error e => simp [VlessParser.Parse, hparse, hidx, hsrv] at hp
      | ok sp =>
        obtain ⟨server, port⟩ := sp
        simp only [VlessParser.Parse, hparse, hidx, hsrv, Except.ok.injEq] at hp
        subst hp
        refine ⟨addressPart, params, name, rfl, rfl, rfl, ?_⟩
        simp only []
        by_cases hs : h.getParamString params "security" "none" = "none"
        · simp only [hs, ne_eq, not_true_eq_false, if_false]
          split_ifs <;> simp [mapGet, mapSet]
        · simp only [hs, ne_eq, not_false_eq_true, if_true]
          split_ifs <;> simp [mapGet, mapSet]

theorem indexOfChars_none (c : Char) (l : List Char) (h : c ∉ l) :
    indexOfChars [c] l = none := by
  induction l with
  | nil => simp [indexOfChars]
  | cons a as ih =>
    have h2 : ¬ c = a ∧ c ∉ as := by simpa using h
    simp [indexOfChars, List.isPrefixOf, h2.1, ih h2.2]

theorem indexOfChars_first (c : Char) (l1 l2 : List Char) (h : c ∉ l1) :
    indexOfChars [c] (l1 ++ c :: l2) = some l1.length := by
  induction l1 with
  | nil => simp [indexOfChars, List.isPrefixOf]
  | cons a as ih =>
    have h2 : ¬ c = a ∧ c ∉ as := by simpa using h
    simp [indexOfChars, List.isPrefixOf, h2.1, ih h2.2]

theorem index_none (s : String) (c : Char) (h : c ∉ s.data) : Index s ⟨[c]⟩ = none := by
  simp [Index, indexOfChars_none c s.data h]

theorem index_first (a b : String) (c : Char) (h : c ∉ a.data) :
    Index (a ++ ⟨[c]⟩ ++ b) ⟨[c]⟩ = some a.data.length := by
  simp [Index, String.data_append, indexOfChars_first c a.data b.data h]

theorem lastIndex_none (s : String) (c : Char) (h : c ∉ s.data) :
    LastIndex s ⟨[c]⟩ = none := by
  simp [LastIndex, indexOfChars_none c s.data.reverse (by simpa using h)]

theorem lastIndex_last (a b : String) (c : Char) (h : c ∉ b.data) :
    LastIndex (a ++ ⟨[c]⟩ ++ b) ⟨[c]⟩ = some a.data.length := by
  have hrev : (a ++ ⟨[c]⟩ ++ b).data.reverse = b.data.reverse ++ c :: a.data.reverse := by
    simp [String.data_append]
  have hidx := indexOfChars_first c b.data.reverse a.data.reverse (by simpa using h)
  simp only [LastIndex, List.reverse_cons, List.reverse_nil, List.nil_append, hrev, hidx,
    Option.map_some']
  simp [String.data_append]
  omega

theorem sliceTo_append (a b : String) : sliceTo (a ++ b) a.data.length = a := by
  simp [sliceTo, String.data_append, String.ext_iff]

theorem sliceFrom_append (a b : String) (c : Char) :
    sliceFrom (a ++ ⟨[c]⟩ ++ b) (a.data.length + 1) = b := by
  have h : (a.data ++ c :: b.data).drop (a.data.length + 1) = b.data := by
    rw [List.drop_append_eq_append_drop]
    simp
  simp only [sliceFrom, String.data_append, String.ext_iff, List.append_assoc,
    List.singleton_append]
  exact h

theorem trimPrefix_append (pre r : String) : TrimPrefix (pre ++ r) pre = r := by
  have hp : pre.data.isPrefixOf (pre ++ r).data = true := by
    rw [String.data_append, List.isPrefixOf_iff_prefix]
    exact List.prefix_append _ _
  simp [TrimPrefix, hp, String.data_append, String.ext_iff]

/-- Standard base64 text contains neither `@` nor `#`. -/
theorem encodeBase64_plain (x : String) :
    '@' ∉ (EncodeBase64 x).data ∧ '#' ∉ (EncodeBase64 x).data := by
  have hall : ∀ v, v < 64 →
      sextetChar StdEncoding v ≠ '@' ∧ sextetChar StdEncoding v ≠ '#' := by decide
  have key : ∀ ch ∈ (EncodeBase64 x).data, ch ≠ '@' ∧ ch ≠ '#' := by
    intro ch hch
    rcases mem_encodeBytes StdEncoding (stringBytes x) (stringBytes_lt x) ch hch with
      rfl | ⟨v, hv, rfl⟩
    · exact ⟨by decide, by decide⟩
    · exact hall v hv
  exact ⟨fun hm => (key _ hm).1 rfl, fun hm => (key _ hm).2 rfl⟩

theorem realityTLS_enabled (h : Helpers) (params : Values) (security : String) :
    mapGet (realityTLS h params security) "enabled" = some (Value.bool true) := by
  unfold realityTLS
  simp only []
  split_ifs <;> simp [mapGet_mapSet, mapGet]

/-- C18: the trojan example URI parses to the node of the design (tag `MyNode`, type
`trojan`, server `example.com`, port 443, `Extra` holding exactly the password and the
`tls` object with `enabled` and `server_name`); and every trojan URI whose only parameters
are `sni` and `security=tls` yields an `Extra` with exactly the keys `password` and `tls`. -/
theorem trojan_example :
    TrojanParser.Parse specHelpers
        "trojan://secret@example.com:443?sni=cdn.example.com&security=tls#MyNode"
      = .ok { Tag := "MyNode", NodeType := "trojan", Server := "example.com",
              ServerPort := 443, Country := "",
              Extra := [("password", Value.str "secret"),
                ("tls", Value.obj [("enabled", Value.bool true),
                  ("server_name", Value.str "cdn.example.com")])] } ∧
    ∀ (uri addressPart name : String) (params : Values) (node : Node),
      specParseURLParams uri = .ok (addressPart, params, name) →
      (∀ key, key ≠ "sni" → key ≠ "security" → params.Get key = "") →
      params.Get "security" = "tls" →
      TrojanParser.Parse specHelpers uri = .ok node →
      mapKeys node.Extra = ["password", "tls"] ∧
      mapGet node.Extra "tls" = some (Value.obj
        (if params.Get "sni" ≠ "" then
          [("enabled", Value.bool true), ("server_name", Value.str (params.Get "sni"))]
        else [("enabled", Value.bool true)])) := by
  refine ⟨by decide, ?_⟩
  intro uri addressPart name params node hparse honly hsec hp
  have hparse2 : specHelpers.parseURLParams uri = .ok (addressPart, params, name) := hparse
  have hflow : params.Get "flow" = "" := honly "flow" (by decide) (by decide)
  have htype : params.Get "type" = "" := honly "type" (by decide) (by decide)
  have hhost : params.Get "host" = "" := honly "host" (by decide) (by decide)
  have hai : params.Get "allowInsecure" = "" := honly "allowInsecure" (by decide) (by decide)
  have hins : params.Get "insecure" = "" := honly "insecure" (by decide) (by decide)
  have halpn : params.Get "alpn" = "" := honly "alpn" (by decide) (by decide)
  have hfp : params.Get "fp" = "" := honly "fp" (by decide) (by decide)
  have hgt : specHelpers.getParamString params "type" "tcp" = "tcp" := by
    simp [specHelpers, specGetParamString, htype]
  have hgs : specHelpers.getParamString params "security" "tls" = "tls" := by
    simp [specHelpers, specGetParamString, hsec]
  have hb1 : specHelpers.getParamBool params "allowInsecure" = false := by
    simp only [specHelpers, specGetParamBool, hai]; decide
  have hb2 : specHelpers.getParamBool params "insecure" = false := by
    simp only [specHelpers, specGetParamBool, hins]; decide
  cases hidx : Index addressPart "@" with
  | none => simp [TrojanParser.Parse, hparse2, hidx] at hp
  | some atIdx =>
    cases hsrv : specHelpers.parseServerInfo (sliceFrom addressPart (atIdx + 1)) with
    | error e => simp [TrojanParser.Parse, hparse2, hidx, hsrv] at hp
    | ok sp =>
      obtain ⟨server, port⟩ := sp
      simp only [TrojanParser.Parse, hparse2, hidx, hsrv, Except.ok.injEq] at hp
      subst hp
      simp only [hflow, hgt, hgs, realityTLS, hhost, hb1, hb2, halpn, hfp]
      by_cases hsni : params.Get "sni" = "" <;> simp [hsni, mapSet, mapKeys, mapGet]

/-- C20, amended: for the trojan and vless parsers a successful parse yields `Extra["tls"]`
with `enabled` true when the security value is not `none`, and no `tls` key when it is
`none`; the security value is the `security` parameter read with the parser's default,
which is `tls` for trojan and `none` for vless. -/
theorem tls_by_security (h : Helpers) (uri : String) (node : Node) :
    (TrojanParser.Parse h uri = .ok node →
      ∀ addressPart params name, h.parseURLParams uri = .ok (addressPart, params, name) →
        (h.getParamString params "security" "tls" ≠ "none" →
          ∃ tls, mapGet node.Extra "tls" = some (Value.obj tls) ∧
            mapGet tls "enabled" = some (Value.bool true)) ∧
        (h.getParamString params "security" "tls" = "none" →
          mapGet node.Extra "tls" = none)) ∧
    (VlessParser.Parse h uri = .ok node →
      ∀ addressPart params name, h.parseURLParams uri = .ok (addressPart, params, name) →
        (h.getParamString params "security" "none" ≠ "none" →
          ∃ tls, mapGet node.Extra "tls" = some (Value.obj tls) ∧
            mapGet tls "enabled" = some (Value.bool true)) ∧
        (h.getParamString params "security" "none" = "none" →
          mapGet node.Extra "tls" = none)) := by
  constructor
  · intro hp addressPart params name hparse
    obtain ⟨a, p, n, hparse2, _, _, htls⟩ := trojan_inv h uri node hp
    rw [hparse] at hparse2
    simp only [Except.ok.injEq, Prod.mk.injEq] at hparse2
    obtain ⟨_, rfl, _⟩ := hparse2
    constructor
    · intro hs
      rw [if_pos hs] at htls
      exact ⟨_, htls, realityTLS_enabled h params _⟩
    · intro hs
      rw [if_neg (by simp [hs])] at htls
      exact htls
  · intro hp addressPart params name hparse
    obtain ⟨a, p, n, hparse2, _, _, htls⟩ := vless_inv h uri node hp
    rw [hparse] at hparse2
    simp only [Except.ok.injEq, Prod.mk.injEq] at hparse2
    obtain ⟨_, rfl, _⟩ := hparse2
    constructor
    · intro hs
      rw [if_pos hs] at htls
      exact ⟨_, htls, realityTLS_enabled h params _⟩
    · intro hs
      rw [if_neg (by simp [hs])] at htls
      exact htls

/-- Witness for C20, amended: a trojan URI without a `security` parameter gets the `tls`
object with `enabled` true. -/
theorem tls_by_security_witness :
    specHelpers.parseURLParams "trojan://secret@example.com:443"
      = .ok ("secret@example.com:443", [], "") ∧
    specHelpers.getParamString [] "security" "tls" ≠ "none" ∧
    ∃ tls, mapGet [("password", Value.str "secret"),
        ("tls", Value.obj [("enabled", Value.bool true)])] "tls" = some (Value.obj tls) ∧
      mapGet tls "enabled" = some (Value.bool true) :=
  ⟨by decide, by decide,
    ((tls_by_security specHelpers "trojan://secret@example.com:443"
      { Tag := "example.com:443", NodeType := "trojan", Server := "example.com",
        ServerPort := 443, Country := "",
        Extra := [("password", Value.str "secret"),
          ("tls", Value.obj [("enabled", Value.bool true)])] }).1 (by decide)
      "secret@example.com:443" [] "" (by decide)).1 (by decide)⟩

/-- C20 as stated fails for vless: a URI without a `security` parameter parses
successfully and its `Extra` has no `tls` key. -/
theorem tls_by_security_counterexample :
    specParseURLParams "vless://uuid-1@example.com:443"
      = .ok ("uuid-1@example.com:443", [], "") ∧
    VlessParser.Parse specHelpers "vless://uuid-1@example.com:443"
      = .ok { Tag := "example.com:443", NodeType := "vless", Server := "example.com",
              ServerPort := 443, Country := "", Extra := [("uuid", Value.str "uuid-1")] } ∧
    mapGet [("uuid", Value.str "uuid-1")] "tls" = none := by
  decide

/-- Witness for C18: the general part at the example without its fragment. -/
theorem trojan_example_witness :
    specParseURLParams "trojan://secret@example.com:443?sni=cdn.example.com&security=tls"
      = .ok ("secret@example.com:443",
          [("sni", ["cdn.example.com"]), ("security", ["tls"])], "") ∧
    TrojanParser.Parse specHelpers
        "trojan://secret@example.com:443?sni=cdn.example.com&security=tls"
      = .ok { Tag := "example.com:443", NodeType := "trojan", Server := "example.com",
              ServerPort := 443, Country := "",
              Extra := [("password", Value.str "secret"),
                ("tls", Value.obj [("enabled", Value.bool true),
                  ("server_name", Value.str "cdn.example.com")])] } ∧
    mapKeys [("password", Value.str "secret"),
        ("tls", Value.obj [("enabled", Value.bool true),
          ("server_name", Value.str "cdn.example.com")])] = ["password", "tls"] :=
  ⟨by decide, by decide,
    (trojan_example.2 "trojan://secret@example.com:443?sni=cdn.example.com&security=tls"
      "secret@example.com:443" ""
      [("sni", ["cdn.example.com"]), ("security", ["tls"])]
      { Tag := "example.com:443", NodeType := "trojan", Server := "example.com",
        ServerPort := 443, Country := "",
        Extra := [("password", Value.str "secret"),
          ("tls", Value.obj [("enabled", Value.bool true),
            ("server_name", Value.str "cdn.example.com")])] }
      (by decide)
      (by
        intro key h1 h2
        simp [Values.Get, mapGet, Ne.symm h1, Ne.symm h2, h1, h2])
      (by decide) (by decide)).1⟩

theorem shadowsocks_userInfo (method password : String) (hmethod : ':' ∉ method.data) :
    Index (method ++ ":" ++ password) ":" = some method.data.length ∧
    sliceTo (method ++ ":" ++ password) method.data.length = method ∧
    sliceFrom (method ++ ":" ++ password) (method.data.length + 1) = password := by
  have e : (":" : String) = ⟨[':']⟩ := rfl
  rw [e]
  refine ⟨index_first method password ':' hmethod, ?_, sliceFrom_append method password ':'⟩
  rw [String.append_assoc]
  exact sliceTo_append method _

theorem shadowsocks_sip002 (h : Helpers) (method password address server : String)
    (port : Int) (hmethod : ':' ∉ method.data)
    (hvalid : h.parseServerInfo address = .ok (server, port))
    (hat : '@' ∉ address.data) (hfrag : '#' ∉ address.data) :
    ShadowsocksParser.Parse h
        ("ss://" ++ EncodeBase64 (method ++ ":" ++ password) ++ "@" ++ address)
      = .ok { Tag := server ++ ":" ++ formatInt port, NodeType := "shadowsocks",
              Server := server, ServerPort := port, Country := "",
              Extra := [("method", Value.str method), ("password", Value.str password)] } := by
  obtain ⟨hB1, hB2⟩ := encodeBase64_plain (method ++ ":" ++ password)
  have hdec := decodeBase64_encodeBase64 (method ++ ":" ++ password)
  generalize EncodeBase64 (method ++ ":" ++ password) = B at hB1 hB2 hdec
  have e : ("@" : String) = ⟨['@']⟩ := rfl
  have e2 : ("#" : String) = ⟨['#']⟩ := rfl
  have huri : "ss://" ++ B ++ "@" ++ address = "ss://" ++ (B ++ ⟨['@']⟩ ++ address) := by
    rw [e, String.append_assoc, String.append_assoc, String.append_assoc]
  have hnohash : '#' ∉ (B ++ ⟨['@']⟩ ++ address).data := by
    simp only [String.data_append, List.mem_append, List.mem_singleton, not_or]
    exact ⟨⟨hB2, by decide⟩, hfrag⟩
  have hidx : Index (B ++ ⟨['@']⟩ ++ address) "#" = none := by
    rw [e2]; exact index_none _ '#' hnohash
  have hlast : LastIndex (B ++ ⟨['@']⟩ ++ address) "@" = some B.data.length := by
    rw [e]; exact lastIndex_last B address '@' hat
  have hto : sliceTo (B ++ ⟨['@']⟩ ++ address) B.data.length = B := by
    rw [String.append_assoc]; exact sliceTo_append B _
  have hfrom : sliceFrom (B ++ ⟨['@']⟩ ++ address) (B.data.length + 1) = address :=
    sliceFrom_append B address '@'
  obtain ⟨hi, hm, hpw⟩ := shadowsocks_userInfo method password hmethod
  have hcred : shadowsocksCredentials h (B ++ ⟨['@']⟩ ++ address)
      = .ok (method, password, server, port) := by
    unfold shadowsocksCredentials
    simp only [hlast, hto, hfrom, hvalid, hdec, hi, hm, hpw]
  unfold ShadowsocksParser.Parse
  simp only [huri, trimPrefix_append, shadowsocksName, shadowsocksBody, hidx, hcred, if_true]

theorem shadowsocks_legacy (h : Helpers) (method password address server : String)
    (port : Int) (hmethod : ':' ∉ method.data)
    (hvalid : h.parseServerInfo address = .ok (server, port))
    (hat : '@' ∉ address.data) :
    ShadowsocksParser.Parse h
        ("ss://" ++ EncodeBase64 (method ++ ":" ++ password ++ "@" ++ address))
      = .ok { Tag := server ++ ":" ++ formatInt port, NodeType := "shadowsocks",
              Server := server, ServerPort := port, Country := "",
              Extra := [("method", Value.str method), ("password", Value.str password)] } := by
  obtain ⟨hB1, hB2⟩ := encodeBase64_plain (method ++ ":" ++ password ++ "@" ++ address)
  have hdec := decodeBase64_encodeBase64 (method ++ ":" ++ password ++ "@" ++ address)
  generalize EncodeBase64 (method ++ ":" ++ password ++ "@" ++ address) = B at hB1 hB2 hdec
  have e : ("@" : String) = ⟨['@']⟩ := rfl
  have e2 : ("#" : String) = ⟨['#']⟩ := rfl
  have hidx : Index B "#" = none := by rw [e2]; exact index_none _ '#' hB2
  have hlast : LastIndex B "@" = none := by rw [e]; exact lastIndex_none _ '@' hB1
  have hlast2 : LastIndex (method ++ ":" ++ password ++ "@" ++ address) "@"
      = some (method ++ ":" ++ password).data.length := by
    rw [e]; exact lastIndex_last (method ++ ":" ++ password) address '@' hat
  have hto : sliceTo (method ++ ":" ++ password ++ "@" ++ address)
      (method ++ ":" ++ password).data.length = method ++ ":" ++ password := by
    rw [String.append_assoc (method ++ ":" ++ password)]
    exact sliceTo_append _ _
  have hfrom : sliceFrom (method ++ ":" ++ password ++ "@" ++ address)
      ((method ++ ":" ++ password).data.length + 1) = address := by
    rw [e]; exact sliceFrom_append (method ++ ":" ++ password) address '@'
  obtain ⟨hi, hm, hpw⟩ := shadowsocks_userInfo method password hmethod
  have hcred : shadowsocksCredentials h B = .ok (method, password, server, port) := by
    unfold shadowsocksCredentials
    simp only [hlast, hdec, hlast2, hto, hfrom, hvalid, hi, hm, hpw]
  unfold ShadowsocksParser.Parse
  simp only [trimPrefix_append, shadowsocksName, shadowsocksBody, hidx, hcred, if_true]

/-- C17: for a method without a colon, any password, and an address text without `@` or
`#` that `parseServerInfo` accepts as server and port, the SIP002 URI
`ss://BASE64(method:password)@address` and the legacy URI
`ss://BASE64(method:password@address)` both parse successfully, to the same node: that
server and port, `Extra["method"]` the method and `Extra["password"]` the password. -/
theorem shadowsocks_forms_agree (h : Helpers) (method password address server : String)
    (port : Int) (hmethod : ':' ∉ method.data)
    (hvalid : h.parseServerInfo address = .ok (server, port))
    (hat : '@' ∉ address.data) (hfrag : '#' ∉ address.data) :
    ShadowsocksParser.Parse h
        ("ss://" ++ EncodeBase64 (method ++ ":" ++ password) ++ "@" ++ address)
      = .ok { Tag := server ++ ":" ++ formatInt port, NodeType := "shadowsocks",
              Server := server, ServerPort := port, Country := "",
              Extra := [("method", Value.str method), ("password", Value.str password)] } ∧
    ShadowsocksParser.Parse h
        ("ss://" ++ EncodeBase64 (method ++ ":" ++ password ++ "@" ++ address))
      = .ok { Tag := server ++ ":" ++ formatInt port, NodeType := "shadowsocks",
              Server := server, ServerPort := port, Country := "",
              Extra := [("method", Value.str method), ("password", Value.str password)] } :=
  ⟨shadowsocks_sip002 h method password address server port hmethod hvalid hat hfrag,
    shadowsocks_legacy h method password address server port hmethod hvalid hat⟩

/-- Witness for C17: method `aes-256-gcm`, a password with a colon and an `@`, address
`example.com:8388`. -/
theorem shadowsocks_forms_agree_witness :
    ':' ∉ "aes-256-gcm".data ∧
    specHelpers.parseServerInfo "example.com:8388" = .ok ("example.com", 8388) ∧
    '@' ∉ "example.com:8388".data ∧ '#' ∉ "example.com:8388".data ∧
    "ss://" ++ EncodeBase64 ("aes-256-gcm" ++ ":" ++ "pa:ss@w") ++ "@" ++ "example.com:8388"
      = "ss://YWVzLTI1Ni1nY206cGE6c3NAdw==@example.com:8388" ∧
    ShadowsocksParser.Parse specHelpers
        ("ss://" ++ EncodeBase64 ("aes-256-gcm" ++ ":" ++ "pa:ss@w") ++ "@" ++ "example.com:8388")
      = .ok { Tag := "example.com" ++ ":" ++ formatInt 8388, NodeType := "shadowsocks",
              Server := "example.com", ServerPort := 8388, Country := "",
              Extra := [("method", Value.str "aes-256-gcm"),
                ("password", Value.str "pa:ss@w")] } :=
  ⟨by decide, by decide, by decide, by decide, by decide,
    (shadowsocks_forms_agree specHelpers "aes-256-gcm" "pa:ss@w" "example.com:8388"
      "example.com" 8388 (by decide) (by decide) (by decide) (by decide)).1⟩

/-! ## The `tls` object of the parsers -/

theorem realityTLS_insecure (h : Helpers) (params : Values) (security : String) :
    mapGet (realityTLS h params security) "insecure"
      = (if (h.getParamBool params "allowInsecure" || h.getParamBool params "insecure") = true
          then some (Value.bool true) else none) := by
  unfold realityTLS
  split_ifs <;> simp_all [mapGet_mapSet, mapGet]

theorem tuicTLS_insecure (h : Helpers) (params : Values) :
    mapGet (tuicTLS h params) "insecure"
      = (if (h.getParamBool params "insecure" || h.getParamBool params "allowInsecure"
            || h.getParamBool params "skip-cert-verify") = true
          then some (Value.bool true) else none) := by
  unfold tuicTLS
  split_ifs <;> simp_all [mapGet_mapSet, mapGet]

theorem hysteria2TLS_insecure (h : Helpers) (params : Values) :
    mapGet (hysteria2TLS h params) "insecure"
      = (if (h.getParamBool params "insecure" || h.getParamBool params "allowInsecure") = true
          then some (Value.bool true) else none) := by
  unfold hysteria2TLS
  split_ifs <;> simp_all [mapGet_mapSet, mapGet]

theorem tuic_tls_inv (h : Helpers) (uri : String) (node : Node)
    (hp : TuicParser.Parse h uri = .ok node) :
    ∃ addressPart params name,
      h.parseURLParams uri = .ok (addressPart, params, name) ∧
      mapGet node.Extra "tls" = some (Value.obj (tuicTLS h params)) := by
  cases hparse : h.parseURLParams uri with
  | error e => simp [TuicParser.Parse, hparse] at hp
  | ok r =>
    obtain ⟨addressPart, params, name⟩ := r
    cases hidx : LastIndex addressPart "@" with
    | none => simp [TuicParser.Parse, hparse, hidx] at hp
    | some atIdx =>
      cases hsrv : h.parseServerInfo (sliceFrom addressPart (atIdx + 1)) with
      | error e => simp [TuicParser.Parse, hparse, hidx, hsrv] at hp
      | ok sp =>
        obtain ⟨server, port⟩ := sp
        simp only [TuicParser.Parse, hparse, hidx, hsrv, Except.ok.injEq] at hp
        subst hp
        refine ⟨addressPart, params, name, rfl, ?_⟩
        simp only []
        split_ifs <;> simp [mapGet_mapSet, mapGet, mapSet]

theorem hysteria2Extra_get (h : Helpers) (params : Values) (password : String) :
    mapGet (hysteria2Extra h params password) "password" = some (Value.str password) ∧
    mapGet (hysteria2Extra h params password) "tls"
      = some (Value.obj (hysteria2TLS h params)) := by
  unfold hysteria2Extra
  constructor
  · simp only [apply_ite (fun m : List (String × Value) => mapGet m "password"),
      mapGet_mapSet]
    simp [mapGet]
  · simp only [apply_ite (fun m : List (String × Value) => mapGet m "tls"), mapGet_mapSet]
    simp [mapGet]

theorem hysteria2_tls_inv (h : Helpers) (uri : String) (node : Node)
    (hp : Hysteria2Parser.Parse h uri = .ok node) :
    ∃ addressPart params name,
      h.parseURLParams uri = .ok (addressPart, params, name) ∧
      mapGet node.Extra "tls" = some (Value.obj (hysteria2TLS h params)) := by
  cases hparse : h.parseURLParams uri with
  | error e => simp [Hysteria2Parser.Parse, hparse] at hp
  | ok r =>
    obtain ⟨addressPart, params, name⟩ := r
    cases hcred : hysteria2Credentials h addressPart params with
    | error e => simp [Hysteria2Parser.Parse, hparse, hcred] at hp
    | ok c =>
      obtain ⟨password, server, port⟩ := c
      by_cases hpw : password = ""
      · simp [Hysteria2Parser.Parse, hparse, hcred, hpw] at hp
      · simp only [Hysteria2Parser.Parse, hparse, hcred, hpw, if_false, Except.ok.injEq] at hp
        subst hp
        exact ⟨addressPart, params, name, rfl, (hysteria2Extra_get h params password).2⟩

/-- C21, amended: in the `tls` object of a parsed node the key `insecure` holds `true`
when one of the parameters the parser reads is boolean-true and is absent otherwise; the
trojan, vless and hysteria2 parsers read `allowInsecure` and `insecure` only, the tuic
parser reads `insecure`, `allowInsecure` and `skip-cert-verify`. -/
theorem tls_insecure_flag (h : Helpers) (uri : String) (node : Node) :
    (TrojanParser.Parse h uri = .ok node →
      ∀ addressPart params name, h.parseURLParams uri = .ok (addressPart, params, name) →
        ∀ tls, mapGet node.Extra "tls" = some (Value.obj tls) →
          mapGet tls "insecure"
            = (if (h.getParamBool params "allowInsecure"
                  || h.getParamBool params "insecure") = true
                then some (Value.bool true) else none)) ∧
    (VlessParser.Parse h uri = .ok node →
      ∀ addressPart params name, h.parseURLParams uri = .ok (addressPart, params, name) →
        ∀ tls, mapGet node.Extra "tls" = some (Value.obj tls) →
          mapGet tls "insecure"
            = (if (h.getParamBool params "allowInsecure"
                  || h.getParamBool params "insecure") = true
                then some (Value.bool true) else none)) ∧
    (TuicParser.Parse h uri = .ok node →
      ∀ addressPart params name, h.parseURLParams uri = .ok (addressPart, params, name) →
        ∃ tls, mapGet node.Extra "tls" = some (Value.obj tls) ∧
          mapGet tls "insecure"
            = (if (h.getParamBool params "insecure" || h.getParamBool params "allowInsecure"
                  || h.getParamBool params "skip-cert-verify") = true
                then some (Value.bool true) else none)) ∧
    (Hysteria2Parser.Parse h uri = .ok node →
      ∀ addressPart params name, h.parseURLParams uri = .ok (addressPart, params, name) →
        ∃ tls, mapGet node.Extra "tls" = some (Value.obj tls) ∧
          mapGet tls "insecure"
            = (if (h.getParamBool params "insecure"
                  || h.getParamBool params "allowInsecure") = true
                then some (Value.bool true) else none)) := by
  refine ⟨?_, ?_, ?_, ?_⟩
  · intro hp addressPart params name hparse tls htls
    obtain ⟨a, p, n, hparse2, _, _, hget⟩ := trojan_inv h uri node hp
    rw [hparse] at hparse2
    simp only [Except.ok.injEq, Prod.mk.injEq] at hparse2
    obtain ⟨_, rfl, _⟩ := hparse2
    rw [htls] at hget
    split_ifs at hget
    · have e : tls = realityTLS h params (h.getParamString params "security" "tls") := by
        simpa using hget
      rw [e, realityTLS_insecure]
  · intro hp addressPart params name hparse tls htls
    obtain ⟨a, p, n, hparse2, _, _, hget⟩ := vless_inv h uri node hp
    rw [hparse] at hparse2
    simp only [Except.ok.injEq, Prod.mk.injEq] at hparse2
    obtain ⟨_, rfl, _⟩ := hparse2
    rw [htls] at hget
    split_ifs at hget
    · have e : tls = realityTLS h params (h.getParamString params "security" "none") := by
        simpa using hget
      rw [e, realityTLS_insecure]
  · intro hp addressPart params name hparse
    obtain ⟨a, p, n, hparse2, hget⟩ := tuic_tls_inv h uri node hp
    rw [hparse] at hparse2
    simp only [Except.ok.injEq, Prod.mk.injEq] at hparse2
    obtain ⟨_, rfl, _⟩ := hparse2
    exact ⟨_, hget, tuicTLS_insecure h params⟩
  · intro hp addressPart params name hparse
    obtain ⟨a, p, n, hparse2, hget⟩ := hysteria2_tls_inv h uri node hp
    rw [hparse] at hparse2
    simp only [Except.ok.injEq, Prod.mk.injEq] at hparse2
    obtain ⟨_, rfl, _⟩ := hparse2
    exact ⟨_, hget, hysteria2TLS_insecure h params⟩

/-- Witness for C21: a tuic URI with `skip-cert-verify=1` gets `insecure` in its `tls`
object. -/
theorem tls_insecure_flag_witness :
    specHelpers.parseURLParams "tuic://u-1:pw@example.com:443?skip-cert-verify=1"
      = .ok ("u-1:pw@example.com:443", [("skip-cert-verify", ["1"])], "") ∧
    TuicParser.Parse specHelpers "tuic://u-1:pw@example.com:443?skip-cert-verify=1"
      = .ok { Tag := "example.com:443", NodeType := "tuic", Server := "example.com",
              ServerPort := 443, Country := "",
              Extra := [("uuid", Value.str "u-1"), ("password", Value.str "pw"),
                ("tls", Value.obj [("enabled", Value.bool true),
                  ("insecure", Value.bool true)])] } ∧
    ∃ tls, mapGet [("uuid", Value.str "u-1"), ("password", Value.str "pw"),
        ("tls", Value.obj [("enabled", Value.bool true), ("insecure", Value.bool true)])] "tls"
          = some (Value.obj tls) ∧
      mapGet tls "insecure"
        = (if (specHelpers.getParamBool [("skip-cert-verify", ["1"])] "insecure"
              || specHelpers.getParamBool [("skip-cert-verify", ["1"])] "allowInsecure"
              || specHelpers.getParamBool [("skip-cert-verify", ["1"])] "skip-cert-verify")
              = true
            then some (Value.bool true) else none) :=
  ⟨by decide, by decide,
    (tls_insecure_flag specHelpers "tuic://u-1:pw@example.com:443?skip-cert-verify=1"
      { Tag := "example.com:443", NodeType := "tuic", Server := "example.com",
        ServerPort := 443, Country := "",
        Extra := [("uuid", Value.str "u-1"), ("password", Value.str "pw"),
          ("tls", Value.obj [("enabled", Value.bool true),
            ("insecure", Value.bool true)])] }).2.2.1 (by decide)
      "u-1:pw@example.com:443" [("skip-cert-verify", ["1"])] "" (by decide)⟩

/-- C21 as stated fails outside tuic: with `skip-cert-verify=true` as the only parameter,
which is boolean-true, the trojan and hysteria2 parsers return a `tls` object without the
key `insecure`. -/
theorem tls_insecure_flag_counterexample :
    specParseURLParams "trojan://secret@example.com:443?skip-cert-verify=true"
      = .ok ("secret@example.com:443", [("skip-cert-verify", ["true"])], "") ∧
    specGetParamBool [("skip-cert-verify", ["true"])] "skip-cert-verify" = true ∧
    TrojanParser.Parse specHelpers "trojan://secret@example.com:443?skip-cert-verify=true"
      = .ok { Tag := "example.com:443", NodeType := "trojan", Server := "example.com",
              ServerPort := 443, Country := "",
              Extra := [("password", Value.str "secret"),
                ("tls", Value.obj [("enabled", Value.bool true)])] } ∧
    Hysteria2Parser.Parse specHelpers
        "hysteria2://secret@example.com:443?skip-cert-verify=true"
      = .ok { Tag := "example.com:443", NodeType := "hysteria2", Server := "example.com",
              ServerPort := 443, Country := "",
              Extra := [("password", Value.str "secret"),
                ("tls", Value.obj [("enabled", Value.bool true)])] } ∧
    mapGet [("enabled", Value.bool true)] "insecure" = none := by
  decide

/-! ## Reality and uTLS -/

theorem realityTLS_reality (h : Helpers) (params : Values) :
    mapGet (realityTLS h params "reality") "reality"
      = some (Value.obj ([("enabled", Value.bool true)]
          ++ (if params.Get "pbk" ≠ "" then [("public_key", Value.str (params.Get "pbk"))]
              else [])
          ++ (if params.Get "sid" ≠ "" then [("short_id", Value.str (params.Get "sid"))]
              else []))) ∧
    mapGet (realityTLS h params "reality") "utls"
      = some (Value.obj [("enabled", Value.bool true),
          ("fingerprint", Value.str (h.getParamString params "fp" "chrome"))]) := by
  unfold realityTLS
  simp only [if_true, mapGet_mapSet]
  constructor
  · by_cases hpbk : params.Get "pbk" = "" <;> by_cases hsid : params.Get "sid" = "" <;>
      simp [hpbk, hsid, mapSet]
  · simp

theorem realityTLS_plain (h : Helpers) (params : Values) (security : String)
    (hs : security ≠ "reality") :
    mapGet (realityTLS h params security) "reality" = none ∧
    mapGet (realityTLS h params security) "utls"
      = (if params.Get "fp" ≠ "" then
          some (Value.obj [("enabled", Value.bool true),
            ("fingerprint", Value.str (params.Get "fp"))])
        else none) := by
  unfold realityTLS
  simp only [hs, if_false]
  constructor
  · simp only [apply_ite (fun m : List (String × Value) => mapGet m "reality"),
      mapGet_mapSet]
    simp [mapGet]
  · simp only [apply_ite (fun m : List (String × Value) => mapGet m "utls"), mapGet_mapSet]
    simp [mapGet]

/-- C22: for the trojan and vless parsers, with `getParamString` returning the value of
`fp` or, when `fp` is absent or empty, the default `chrome`: a successful parse with
security `reality` yields a `tls` object whose `reality` is `enabled: true` followed by
`public_key` (the value of `pbk`, when non-empty) and `short_id` (the value of `sid`, when
non-empty), and whose `utls` is `enabled: true` with the fingerprint `fp`, or `chrome`
when `fp` is absent or empty; with any other security value except `none` the `tls` object
has no `reality` key, and has `utls` (enabled, with the fingerprint `fp`) exactly when `fp`
is non-empty. The security value is read with the parser's default (`tls` for trojan,
`none` for vless). -/
theorem reality_and_utls (h : Helpers) (uri : String) (node : Node)
    (hfp : ∀ params : Values, h.getParamString params "fp" "chrome"
      = (if params.Get "fp" = "" then "chrome" else params.Get "fp")) :
    (TrojanParser.Parse h uri = .ok node →
      ∀ addressPart params name, h.parseURLParams uri = .ok (addressPart, params, name) →
        (h.getParamString params "security" "tls" = "reality" →
          ∃ tls, mapGet node.Extra "tls" = some (Value.obj tls) ∧
            mapGet tls "reality"
              = some (Value.obj ([("enabled", Value.bool true)]
                  ++ (if params.Get "pbk" ≠ "" then
                        [("public_key", Value.str (params.Get "pbk"))] else [])
                  ++ (if params.Get "sid" ≠ "" then
                        [("short_id", Value.str (params.Get "sid"))] else []))) ∧
            mapGet tls "utls"
              = some (Value.obj [("enabled", Value.bool true),
                  ("fingerprint", Value.str
                    (if params.Get "fp" = "" then "chrome" else params.Get "fp"))])) ∧
        (h.getParamString params "security" "tls" ≠ "reality" →
          h.getParamString params "security" "tls" ≠ "none" →
          ∃ tls, mapGet node.Extra "tls" = some (Value.obj tls) ∧
            mapGet tls "reality" = none ∧
            mapGet tls "utls"
              = (if params.Get "fp" ≠ "" then
                  some (Value.obj [("enabled", Value.bool true),
                    ("fingerprint", Value.str (params.Get "fp"))])
                else none))) ∧
    (VlessParser.Parse h uri = .ok node →
      ∀ addressPart params name, h.parseURLParams uri = .ok (addressPart, params, name) →
        (h.getParamString params "security" "none" = "reality" →
          ∃ tls, mapGet node.Extra "tls" = some (Value.obj tls) ∧
            mapGet tls "reality"
              = some (Value.obj ([("enabled", Value.bool true)]
                  ++ (if params.Get "pbk" ≠ "" then
                        [("public_key", Value.str (params.Get "pbk"))] else [])
                  ++ (if params.Get "sid" ≠ "" then
                        [("short_id", Value.str (params.Get "sid"))] else []))) ∧
            mapGet tls "utls"
              = some (Value.obj [("enabled", Value.bool true),
                  ("fingerprint", Value.str
                    (if params.Get "fp" = "" then "chrome" else params.Get "fp"))])) ∧
        (h.getParamString params "security" "none" ≠ "reality" →
          h.getParamString params "security" "none" ≠ "none" →
          ∃ tls, mapGet node.Extra "tls" = some (Value.obj tls) ∧
            mapGet tls "reality" = none ∧
            mapGet tls "utls"
              = (if params.Get "fp" ≠ "" then
                  some (Value.obj [("enabled", Value.bool true),
                    ("fingerprint", Value.str (params.Get "fp"))])
                else none))) := by
  constructor
  · intro hp addressPart params name hparse
    obtain ⟨a, p, n, hparse2, _, _, htls⟩ := trojan_inv h uri node hp
    rw [hparse] at hparse2
    simp only [Except.ok.injEq, Prod.mk.injEq] at hparse2
    obtain ⟨_, rfl, _⟩ := hparse2
    constructor
    · intro hs
      rw [hs, if_pos (by decide)] at htls
      have hr := realityTLS_reality h params
      rw [hfp params] at hr
      exact ⟨_, htls, hr.1, hr.2⟩
    · intro hs hn
      rw [if_pos hn] at htls
      have hr := realityTLS_plain h params _ hs
      exact ⟨_, htls, hr.1, hr.2⟩
  · intro hp addressPart params name hparse
    obtain ⟨a, p, n, hparse2, _, _, htls⟩ := vless_inv h uri node hp
    rw [hparse] at hparse2
    simp only [Except.ok.injEq, Prod.mk.injEq] at hparse2
    obtain ⟨_, rfl, _⟩ := hparse2
    constructor
    · intro hs
      rw [hs, if_pos (by decide)] at htls
      have hr := realityTLS_reality h params
      rw [hfp params] at hr
      exact ⟨_, htls, hr.1, hr.2⟩
    · intro hs hn
      rw [if_pos hn] at htls
      have hr := realityTLS_plain h params _ hs
      exact ⟨_, htls, hr.1, hr.2⟩

/-- Witness for C22: a vless URI with `security=reality`, a public key, no short id and no
fingerprint. -/
theorem reality_and_utls_witness :
    (∀ params : Values, specHelpers.getParamString params "fp" "chrome"
      = (if params.Get "fp" = "" then "chrome" else params.Get "fp")) ∧
    specHelpers.parseURLParams "vless://u-1@example.com:443?security=reality&pbk=KEY"
      = .ok ("u-1@example.com:443", [("security", ["reality"]), ("pbk", ["KEY"])], "") ∧
    VlessParser.Parse specHelpers "vless://u-1@example.com:443?security=reality&pbk=KEY"
      = .ok { Tag := "example.com:443", NodeType := "vless", Server := "example.com",
              ServerPort := 443, Country := "",
              Extra := [("uuid", Value.str "u-1"),
                ("tls", Value.obj [("enabled", Value.bool true),
                  ("reality", Value.obj [("enabled", Value.bool true),
                    ("public_key", Value.str "KEY")]),
                  ("utls", Value.obj [("enabled", Value.bool true),
                    ("fingerprint", Value.str "chrome")])])] } ∧
    ∃ tls, mapGet [("uuid", Value.str "u-1"),
        ("tls", Value.obj [("enabled", Value.bool true),
          ("reality", Value.obj [("enabled", Value.bool true),
            ("public_key", Value.str "KEY")]),
          ("utls", Value.obj [("enabled", Value.bool true),
            ("fingerprint", Value.str "chrome")])])] "tls" = some (Value.obj tls) ∧
      mapGet tls "reality"
        = some (Value.obj [("enabled", Value.bool true), ("public_key", Value.str "KEY")]) ∧
      mapGet tls "utls"
        = some (Value.obj [("enabled", Value.bool true),
            ("fingerprint", Value.str "chrome")]) :=
  ⟨fun _ => rfl, by decide, by decide,
    ((reality_and_utls specHelpers "vless://u-1@example.com:443?security=reality&pbk=KEY"
      { Tag := "example.com:443", NodeType := "vless", Server := "example.com",
        ServerPort := 443, Country := "",
        Extra := [("uuid", Value.str "u-1"),
          ("tls", Value.obj [("enabled", Value.bool true),
            ("reality", Value.obj [("enabled", Value.bool true),
              ("public_key", Value.str "KEY")]),
            ("utls", Value.obj [("enabled", Value.bool true),
              ("fingerprint", Value.str "chrome")])])] }
      (fun _ => rfl)).2 (by decide)
      "u-1@example.com:443" [("security", ["reality"]), ("pbk", ["KEY"])] ""
      (by decide)).1 (by decide)⟩

/-! ## User-info of the tuic parser -/

theorem decodeLoop_invalid (enc : Encoding) (c : Char) (hc : charSextet enc c = none)
    (hn : c ≠ '\n') (hr : c ≠ '\r') (he : c ≠ '=') (pre post : List Char)
    (st : DecodeState) (out : List Nat) :
    decodeLoop enc st out (pre ++ c :: post) = none := by
  induction pre generalizing st out with
  | nil =>
    cases st <;> simp [decodeLoop, hc, hn, hr, he]
  | cons a pre ih =>
    cases st with
    | quantum buf =>
      simp only [List.cons_append, decodeLoop]
      cases charSextet enc a with
      | some v =>
        simp only []
        split_ifs <;> exact ih _ _
      | none =>
        simp only []
        split_ifs <;> first | rfl | exact ih _ _
    | padding =>
      simp only [List.cons_append, decodeLoop]
      split_ifs <;> first | rfl | exact ih _ _
    | done =>
      simp only [List.cons_append, decodeLoop]
      split_ifs <;> first | rfl | exact ih _ _

theorem decodeString_invalid (enc : Encoding) (c : Char) (hc : charSextet enc c = none)
    (hn : c ≠ '\n') (hr : c ≠ '\r') (he : c ≠ '=') (s : String) (hmem : c ∈ s.data) :
    DecodeString enc s = none := by
  obtain ⟨pre, post, hs⟩ := List.append_of_mem hmem
  rw [DecodeString, hs]
  exact decodeLoop_invalid enc c hc hn hr he pre post _ _

theorem mem_dropWhile (p : Char → Bool) (c : Char) (hp : p c = false) (l : List Char)
    (hmem : c ∈ l) : c ∈ l.dropWhile p := by
  induction l with
  | nil => simp at hmem
  | cons a as ih =>
    rw [List.dropWhile_cons]
    by_cases ha : p a = true
    · rw [if_pos ha]
      rcases List.mem_cons.1 hmem with e | hin
      · rw [e, ha] at hp; simp at hp
      · exact ih hin
    · rw [if_neg ha]
      exact hmem

theorem mem_dropTrailing (p : Char → Bool) (c : Char) (hp : p c = false) (l : List Char)
    (hmem : c ∈ l) : c ∈ dropTrailing p l := by
  unfold dropTrailing
  exact List.mem_reverse.2 (mem_dropWhile p c hp _ (List.mem_reverse.2 hmem))

theorem decodeBase64_invalid (s : String) (c : Char) (hmem : c ∈ s.data)
    (hc : c = ':' ∨ c = '%') : DecodeBase64 s = .error "illegal base64 data" := by
  have hstd : charSextet StdEncoding c = none := by rcases hc with rfl | rfl <;> decide
  have hurl : charSextet URLEncoding c = none := by rcases hc with rfl | rfl <;> decide
  have hrstd : charSextet RawStdEncoding c = none := hstd
  have hrurl : charSextet RawURLEncoding c = none := hurl
  have hn : c ≠ '\n' := by rcases hc with rfl | rfl <;> decide
  have hr : c ≠ '\r' := by rcases hc with rfl | rfl <;> decide
  have he : c ≠ '=' := by rcases hc with rfl | rfl <;> decide
  have hsp : isSpace c = false := by rcases hc with rfl | rfl <;> decide
  have h1 : c ∈ (TrimSpace s).data :=
    mem_dropTrailing _ c hsp _ (mem_dropWhile _ c hsp _ hmem)
  have h2 : c ∈ (padQuantum (TrimSpace s)).data := by
    unfold padQuantum
    simp only []
    split_ifs
    · simp [h1]
    · exact h1
  have h3 : c ∈ (TrimRightEq (padQuantum (TrimSpace s))).data :=
    mem_dropTrailing _ c (by simp [he]) _ h2
  simp only [DecodeBase64, decodeString_invalid _ c hstd hn hr he _ h2,
    decodeString_invalid _ c hurl hn hr he _ h2,
    decodeString_invalid _ c hrstd hn hr he _ h3,
    decodeString_invalid _ c hrurl hn hr he _ h3]

theorem shadowsocksCredentials_fallback (h : Helpers) (body : String) (atIdx : Nat)
    (server : String) (port : Int) (decoded : String)
    (hlast : LastIndex body "@" = some atIdx)
    (hbase : DecodeBase64 (sliceTo body atIdx) = .error "illegal base64 data")
    (hsrv : h.parseServerInfo (sliceFrom body (atIdx + 1)) = .ok (server, port))
    (hdec : QueryUnescape (sliceTo body atIdx) = .ok decoded) :
    (∀ m p, decoded = m ++ ":" ++ p → ':' ∉ m.data →
      shadowsocksCredentials h body = .ok (m, p, server, port)) ∧
    (':' ∉ decoded.data → shadowsocksCredentials h body = .error "无效的用户信息格式") := by
  have ecolon : (":" : String) = ⟨[':']⟩ := rfl
  constructor
  · intro m p hsplit hm
    subst hsplit
    have hi : Index (m ++ ":" ++ p) ":" = some m.data.length := by
      rw [ecolon]; exact index_first m p ':' hm
    have h1 : sliceTo (m ++ ":" ++ p) m.data.length = m := by
      rw [String.append_assoc]; exact sliceTo_append m _
    have h2 : sliceFrom (m ++ ":" ++ p) (m.data.length + 1) = p := by
      rw [ecolon]; exact sliceFrom_append m p ':'
    simp only [shadowsocksCredentials, hlast, hsrv, hbase, hdec, hi, h1, h2]
  · intro hno
    have hi : Index decoded ":" = none := by
      rw [ecolon]; exact index_none _ ':' hno
    simp only [shadowsocksCredentials, hlast, hsrv, hbase, hdec, hi]

/-- C26: let the text of a shadowsocks URI before its fragment have its last `@` at
`atIdx`, and let the user-info before that `@` contain a `:` or a `%`. Then `DecodeBase64`
fails on the user-info. With a server part that `parseServerInfo` accepts: if the
URL-unescaped user-info is `m`, a colon and `p` with no colon in `m` (the split at the
first colon), the parse succeeds with `Extra["method"]` `m` and `Extra["password"]` `p`;
if the URL-unescaped user-info has no colon, the parse returns an error. -/
theorem shadowsocks_plain_user_info (h : Helpers) (uri : String) (atIdx : Nat)
    (hlast : LastIndex (shadowsocksBody (TrimPrefix uri "ss://")) "@" = some atIdx)
    (hplain : ':' ∈ (sliceTo (shadowsocksBody (TrimPrefix uri "ss://")) atIdx).data ∨
      '%' ∈ (sliceTo (shadowsocksBody (TrimPrefix uri "ss://")) atIdx).data) :
    (∃ e, DecodeBase64 (sliceTo (shadowsocksBody (TrimPrefix uri "ss://")) atIdx)
      = .error e) ∧
    (∀ server port,
      h.parseServerInfo (sliceFrom (shadowsocksBody (TrimPrefix uri "ss://")) (atIdx + 1))
        = .ok (server, port) →
      (∀ m p, QueryUnescape (sliceTo (shadowsocksBody (TrimPrefix uri "ss://")) atIdx)
          = .ok (m ++ ":" ++ p) → ':' ∉ m.data →
        ∃ node, ShadowsocksParser.Parse h uri = .ok node ∧ node.Server = server ∧
          node.ServerPort = port ∧
          node.Extra = [("method", Value.str m), ("password", Value.str p)]) ∧
      (∀ decoded, QueryUnescape (sliceTo (shadowsocksBody (TrimPrefix uri "ss://")) atIdx)
          = .ok decoded → ':' ∉ decoded.data →
        ShadowsocksParser.Parse h uri = .error "无效的用户信息格式")) ∧
    (∀ decoded, QueryUnescape (sliceTo (shadowsocksBody (TrimPrefix uri "ss://")) atIdx)
        = .ok decoded → ':' ∉ decoded.data →
      ∃ e, ShadowsocksParser.Parse h uri = .error e) := by
  have hbase : DecodeBase64 (sliceTo (shadowsocksBody (TrimPrefix uri "ss://")) atIdx)
      = .error "illegal base64 data" := by
    rcases hplain with hc | hc
    · exact decodeBase64_invalid _ ':' hc (Or.inl rfl)
    · exact decodeBase64_invalid _ '%' hc (Or.inr rfl)
  have hcases : ∀ server port,
      h.parseServerInfo (sliceFrom (shadowsocksBody (TrimPrefix uri "ss://")) (atIdx + 1))
        = .ok (server, port) →
      (∀ m p, QueryUnescape (sliceTo (shadowsocksBody (TrimPrefix uri "ss://")) atIdx)
          = .ok (m ++ ":" ++ p) → ':' ∉ m.data →
        ∃ node, ShadowsocksParser.Parse h uri = .ok node ∧ node.Server = server ∧
          node.ServerPort = port ∧
          node.Extra = [("method", Value.str m), ("password", Value.str p)]) ∧
      (∀ decoded, QueryUnescape (sliceTo (shadowsocksBody (TrimPrefix uri "ss://")) atIdx)
          = .ok decoded → ':' ∉ decoded.data →
        ShadowsocksParser.Parse h uri = .error "无效的用户信息格式") := by
    intro server port hsrv
    constructor
    · intro m p hdec hm
      have hcred := (shadowsocksCredentials_fallback h _ atIdx server port _ hlast hbase
        hsrv hdec).1 m p rfl hm
      have hres : ShadowsocksParser.Parse h uri
          = .ok { Tag := if shadowsocksName (TrimPrefix uri "ss://") = "" then
                      server ++ ":" ++ formatInt port
                    else shadowsocksName (TrimPrefix uri "ss://"),
                  NodeType := "shadowsocks", Server := server, ServerPort := port,
                  Country := "",
                  Extra := [("method", Value.str m), ("password", Value.str p)] } := by
        simp only [ShadowsocksParser.Parse, hcred]
      exact ⟨_, hres, rfl, rfl, rfl⟩
    · intro decoded hdec hno
      have hcred := (shadowsocksCredentials_fallback h _ atIdx server port _ hlast hbase
        hsrv hdec).2 hno
      simp only [ShadowsocksParser.Parse, hcred]
  refine ⟨⟨_, hbase⟩, hcases, ?_⟩
  intro decoded hdec hno
  cases hsrv : h.parseServerInfo
      (sliceFrom (shadowsocksBody (TrimPrefix uri "ss://")) (atIdx + 1)) with
  | error e =>
    have hres : ShadowsocksParser.Parse h uri = .error ("解析服务器地址失败: " ++ e) := by
      simp only [ShadowsocksParser.Parse, shadowsocksCredentials, hlast, hsrv]
    exact ⟨_, hres⟩
  | ok sp =>
    obtain ⟨server, port⟩ := sp
    exact ⟨_, (hcases server port hsrv).2 decoded hdec hno⟩

/-- Witness for C26: a user-info in plain text with a percent-encoded `@` in the
password; a user-info whose first byte `C3` is no UTF-8 text, where the colon is found all
the same; and a user-info whose bytes `C0 BA` hold no colon, which is rejected. -/
theorem shadowsocks_plain_user_info_witness :
    shadowsocksBody (TrimPrefix "ss://aes-256-gcm:pa%40ss@example.com:8388#Home" "ss://")
      = "aes-256-gcm:pa%40ss@example.com:8388" ∧
    LastIndex "aes-256-gcm:pa%40ss@example.com:8388" "@" = some 19 ∧
    sliceTo "aes-256-gcm:pa%40ss@example.com:8388" 19 = "aes-256-gcm:pa%40ss" ∧
    QueryUnescape "aes-256-gcm:pa%40ss" = .ok ("aes-256-gcm" ++ ":" ++ "pa@ss") ∧
    ShadowsocksParser.Parse specHelpers "ss://aes-256-gcm:pa%40ss@example.com:8388#Home"
      = .ok { Tag := "Home", NodeType := "shadowsocks", Server := "example.com",
              ServerPort := 8388, Country := "",
              Extra := [("method", Value.str "aes-256-gcm"),
                ("password", Value.str "pa@ss")] } ∧
    (∃ node, ShadowsocksParser.Parse specHelpers
        "ss://aes-256-gcm:pa%40ss@example.com:8388#Home" = .ok node ∧
      node.Server = "example.com" ∧ node.ServerPort = 8388 ∧
      node.Extra = [("method", Value.str "aes-256-gcm"), ("password", Value.str "pa@ss")]) ∧
    QueryUnescape "%C3:pw" = .ok (bytesString [0xC3] ++ ":" ++ "pw") ∧
    (∃ node, ShadowsocksParser.Parse specHelpers "ss://%C3:pw@example.com:8388" = .ok node ∧
      node.Server = "example.com" ∧ node.ServerPort = 8388 ∧
      node.Extra = [("method", Value.str (bytesString [0xC3])),
        ("password", Value.str "pw")]) ∧
    QueryUnescape "%C0%BA" = .ok (bytesString [0xC0, 0xBA]) ∧
    ShadowsocksParser.Parse specHelpers "ss://%C0%BA@example.com:8388"
      = .error "无效的用户信息格式" :=
  ⟨by decide, by decide, by decide, by decide, by decide,
    ((shadowsocks_plain_user_info specHelpers
      "ss://aes-256-gcm:pa%40ss@example.com:8388#Home" 19 (by decide)
      (Or.inl (by decide))).2.1 "example.com" 8388 (by decide)).1
      "aes-256-gcm" "pa@ss" (by decide) (by decide),
    by decide,
    ((shadowsocks_plain_user_info specHelpers "ss://%C3:pw@example.com:8388" 6 (by decide)
      (Or.inl (by decide))).2.1 "example.com" 8388 (by decide)).1
      (bytesString [0xC3]) "pw" (by decide) (by decide),
    by decide,
    ((shadowsocks_plain_user_info specHelpers "ss://%C0%BA@example.com:8388" 6 (by decide)
      (Or.inr (by decide))).2.1 "example.com" 8388 (by decide)).2
      (bytesString [0xC0, 0xBA]) (by decide) (by decide)⟩

/-! ## The envelope and `Extra` -/

theorem extraFold_some (extra : List (String × Value)) (init : Outbound) (k : String)
    (v : Value) (hnodup : (mapKeys extra).Nodup) (h : mapGet extra k = some v) :
    mapGet (extra.foldl (fun outbound kv => mapSet outbound kv.1 kv.2) init) k = some v := by
  induction extra generalizing init with
  | nil => simp [mapGet] at h
  | cons p rest ih =>
    obtain ⟨a, w⟩ := p
    have hn : a ∉ mapKeys rest ∧ (mapKeys rest).Nodup := by
      simpa [mapKeys] using hnodup
    rw [List.foldl_cons]
    by_cases hk : a = k
    · subst hk
      have hv : w = v := by simpa [mapGet] using h
      subst hv
      rw [extraFold_get _ _ _ hn.1, mapGet_mapSet]
      simp
    · have h2 : mapGet rest k = some v := by simpa [mapGet, hk] using h
      exact ih _ hn.2 h2

theorem nodeToOutbound_envelope (n : Node) (k : String) (h : mapGet n.Extra k = none) :
    mapGet (nodeToOutbound n) k
      = mapGet [("tag", Value.str n.Tag), ("type", Value.str n.NodeType),
          ("server", Value.str n.Server), ("server_port", Value.int n.ServerPort)] k := by
  rw [nodeToOutbound, extraFold_get _ _ _ ((mapGet_eq_none_iff _ _).1 h)]

theorem mem_buildOutbounds_node (x : Externals) (b : ConfigBuilder) (node : Node)
    (hmem : node ∈ b.nodes) : nodeToOutbound node ∈ buildOutbounds x b := by
  rw [buildOutbounds_sections]
  simp only [List.mem_append, nodeSection, List.mem_map]
  exact Or.inl (Or.inl (Or.inl (Or.inl (Or.inl (Or.inl (Or.inr ⟨node, hmem, rfl⟩))))))

theorem node_referenced (x : Externals) (b : ConfigBuilder) (node : Node)
    (hmem : node ∈ b.nodes) :
    (∃ g ∈ buildOutbounds x b,
      mapGet g "tag" = some (Value.str "Auto") ∧ node.Tag ∈ memberTags g) ∧
    (∃ g ∈ buildOutbounds x b,
      mapGet g "tag" = some (Value.str "Proxy") ∧ node.Tag ∈ memberTags g) ∧
    (node.Country ≠ "" → ∃ g ∈ buildOutbounds x b,
      mapGet g "tag" = some (Value.str (countryGroupTag x node.Country)) ∧
      node.Tag ∈ memberTags g) ∧
    (∀ f ∈ b.filters, f.Enabled = true → matchFilter x node f = true →
      ∃ g ∈ buildOutbounds x b,
        mapGet g "tag" = some (Value.str f.Name) ∧ node.Tag ∈ memberTags g) := by
  have hne : b.nodes ≠ [] := List.ne_nil_of_mem hmem
  have htag : node.Tag ∈ nodeTags b := by
    rw [nodeTags, mem_firstSeen]
    exact List.mem_map.2 ⟨node, hmem, rfl⟩
  refine ⟨⟨urltestGroup "Auto" (nodeTags b), ?_, by simp [urltestGroup, mapGet], ?_⟩,
    ⟨proxySelector x b, ?_, by simp [proxySelector, selectorGroup, mapGet], ?_⟩, ?_, ?_⟩
  · rw [buildOutbounds_sections]
    simp [autoSection, hne]
  · rw [memberTags_urltestGroup]; exact htag
  · rw [buildOutbounds_sections]
    simp
  · rw [proxySelector, memberTags_selectorGroup]
    simp [htag]
  · intro hc
    refine ⟨urltestGroup (countryGroupTag x node.Country)
      (countryMembers b.nodes node.Country), ?_, by simp [urltestGroup, mapGet], ?_⟩
    · rw [buildOutbounds_sections]
      have : urltestGroup (countryGroupTag x node.Country)
          (countryMembers b.nodes node.Country) ∈ countrySection x b :=
        List.mem_map.2 ⟨node.Country, (mem_countryCodes _ _).2 ⟨hc, node, hmem, rfl⟩, rfl⟩
      simp [this]
    · rw [memberTags_urltestGroup]
      exact List.mem_map.2 ⟨node, List.mem_filter.2 ⟨hmem, by simp⟩, rfl⟩
  · intro f hf hen hmatch
    refine ⟨filterGroup f (matchingTags x b.nodes f), ?_, (filterGroup_fields f _).1, ?_⟩
    · rw [buildOutbounds_sections]
      have : filterGroup f (matchingTags x b.nodes f) ∈ filterSection x b :=
        List.mem_map.2 ⟨f, (mem_emittedFilters x b f).2 ⟨hf, hen, node, hmem, hmatch⟩, rfl⟩
      simp [this]
    · rw [memberTags_filterGroup]
      exact List.mem_map.2 ⟨node, List.mem_filter.2 ⟨hmem, hmatch⟩, rfl⟩

/-- C27, amended: for a node of the build input whose `Extra` is a map (no key twice), the
emitted outbound carries every entry of `Extra`, also under the keys `tag`, `type`, `server`
and `server_port`, and carries the node's `Tag`, `Type`, `Server` and `ServerPort` under
those keys where `Extra` has no such key; so a node whose `Extra` has under `tag` a value
other than the string `Node.Tag` is emitted under a tag that is not `Node.Tag`, while the
Auto group, the Proxy selector, the node's country group and the groups of the enabled
filters matching it list the node as `Node.Tag`. -/
theorem extra_overrides_envelope (x : Externals) (b : ConfigBuilder) (node : Node)
    (hmem : node ∈ b.nodes) (hkeys : (mapKeys node.Extra).Nodup) :
    nodeToOutbound node ∈ buildOutbounds x b ∧
    (∀ k v, mapGet node.Extra k = some v → mapGet (nodeToOutbound node) k = some v) ∧
    (mapGet node.Extra "tag" = none →
      mapGet (nodeToOutbound node) "tag" = some (Value.str node.Tag)) ∧
    (mapGet node.Extra "type" = none →
      mapGet (nodeToOutbound node) "type" = some (Value.str node.NodeType)) ∧
    (mapGet node.Extra "server" = none →
      mapGet (nodeToOutbound node) "server" = some (Value.str node.Server)) ∧
    (mapGet node.Extra "server_port" = none →
      mapGet (nodeToOutbound node) "server_port" = some (Value.int node.ServerPort)) ∧
    (∀ v, mapGet node.Extra "tag" = some v → v ≠ Value.str node.Tag →
      mapGet (nodeToOutbound node) "tag" ≠ some (Value.str node.Tag)) ∧
    (∃ g ∈ buildOutbounds x b,
      mapGet g "tag" = some (Value.str "Auto") ∧ node.Tag ∈ memberTags g) ∧
    (∃ g ∈ buildOutbounds x b,
      mapGet g "tag" = some (Value.str "Proxy") ∧ node.Tag ∈ memberTags g) ∧
    (node.Country ≠ "" → ∃ g ∈ buildOutbounds x b,
      mapGet g "tag" = some (Value.str (countryGroupTag x node.Country)) ∧
      node.Tag ∈ memberTags g) ∧
    (∀ f ∈ b.filters, f.Enabled = true → matchFilter x node f = true →
      ∃ g ∈ buildOutbounds x b,
        mapGet g "tag" = some (Value.str f.Name) ∧ node.Tag ∈ memberTags g) := by
  have hover : ∀ k v, mapGet node.Extra k = some v →
      mapGet (nodeToOutbound node) k = some v :=
    fun k v h => extraFold_some _ _ k v hkeys h
  obtain ⟨hauto, hproxy, hcountry, hfilter⟩ := node_referenced x b node hmem
  refine ⟨mem_buildOutbounds_node x b node hmem, hover, ?_, ?_, ?_, ?_, ?_, hauto, hproxy,
    hcountry, hfilter⟩
  · intro h; rw [nodeToOutbound_envelope _ _ h]; simp [mapGet]
  · intro h; rw [nodeToOutbound_envelope _ _ h]; simp [mapGet]
  · intro h; rw [nodeToOutbound_envelope _ _ h]; simp [mapGet]
  · intro h; rw [nodeToOutbound_envelope _ _ h]; simp [mapGet]
  · intro v hv hne
    rw [hover "tag" v hv]
    intro e
    exact hne (Option.some.inj e)

/-- Witness for C27: the single node of the sample input carries `renamed` under `tag` and
is emitted under that tag, while the Auto group lists it as `JP-01`. -/
theorem extra_overrides_envelope_witness :
    nodeRetagged ∈ retaggedBuilder.nodes ∧ (mapKeys nodeRetagged.Extra).Nodup ∧
    mapGet nodeRetagged.Extra "tag" = some (Value.str "renamed") ∧
    Value.str "renamed" ≠ Value.str nodeRetagged.Tag ∧
    mapGet (nodeToOutbound nodeRetagged) "tag" = some (Value.str "renamed") ∧
    mapGet (nodeToOutbound nodeRetagged) "tag" ≠ some (Value.str nodeRetagged.Tag) ∧
    (∃ g ∈ buildOutbounds sampleExternals retaggedBuilder,
      mapGet g "tag" = some (Value.str "Auto") ∧ nodeRetagged.Tag ∈ memberTags g) :=
  ⟨by decide, by decide, by decide, by decide, by decide,
    (extra_overrides_envelope sampleExternals retaggedBuilder nodeRetagged (by decide)
      (by decide)).2.2.2.2.2.2.1 (Value.str "renamed") (by decide) (by decide),
    (extra_overrides_envelope sampleExternals retaggedBuilder nodeRetagged (by decide)
      (by decide)).2.2.2.2.2.2.2.1⟩

/-- C27 as stated fails where `Extra` repeats the node's own tag: the node's `Extra` has the
key `tag`, and the node is emitted under `Node.Tag`. -/
theorem extra_overrides_envelope_counterexample :
    mapGet nodeSameTag.Extra "tag" = some (Value.str "SG-01") ∧
    nodeToOutbound nodeSameTag
      = [("tag", Value.str "SG-01"), ("type", Value.str "trojan"),
         ("server", Value.str "sg1.example.com"), ("server_port", Value.int 443)] ∧
    mapGet (nodeToOutbound nodeSameTag) "tag" = some (Value.str nodeSameTag.Tag) := by
  decide

/-! ## Custom rules of an unlisted type -/

theorem customRouteRule_unlisted (rule : Rule)
    (htype : rule.RuleType ∉ ["domain_suffix", "domain_keyword", "domain", "ip_cidr", "port",
      "geosite", "geoip"]) :
    customRouteRule rule = [("outbound", Value.str rule.Outbound)] := by
  simp only [List.mem_cons, List.mem_singleton, List.not_mem_nil, or_false, not_or] at htype
  obtain ⟨h1, h2, h3, h4, h5, h6, h7⟩ := htype
  simp [customRouteRule, h1, h2, h3, h4, h5, h6, h7]

theorem buildRoute_rules (b : ConfigBuilder) :
    (buildRoute b).Rules
      = [[("protocol", Value.str "dns"), ("outbound", Value.str "dns-out")]]
        ++ ((sortRules b.rules).filter (fun r => r.Enabled)).map customRouteRule
        ++ (b.ruleGroups.filter (fun rg => rg.Enabled)).flatMap groupRouteRules := by
  unfold buildRoute
  simp only []
  rw [ruleGroupRuleLoop, customRuleLoop]

theorem enabledSorted_split (b : ConfigBuilder) (rule : Rule) (hmem : rule ∈ b.rules)
    (hen : rule.Enabled = true) :
    ∃ pre post, (sortRules b.rules).filter (fun r => r.Enabled) = pre ++ rule :: post ∧
      (∀ r ∈ pre, r.Priority ≤ rule.Priority) ∧
      (∀ r ∈ post, rule.Priority ≤ r.Priority) := by
  have hin : rule ∈ (sortRules b.rules).filter (fun r => r.Enabled) :=
    List.mem_filter.2 ⟨(sortRules_perm b.rules).mem_iff.2 hmem, by simp [hen]⟩
  obtain ⟨pre, post, hsplit⟩ := List.append_of_mem hin
  have hsorted : ((sortRules b.rules).filter (fun r => r.Enabled)).Pairwise
      (fun r s => r.Priority ≤ s.Priority) :=
    List.Pairwise.filter _ (sortRules_sorted b.rules)
  rw [hsplit, List.pairwise_append, List.pairwise_cons] at hsorted
  exact ⟨pre, post, hsplit, fun r hr => hsorted.2.2 r hr rule (List.mem_cons_self _ _),
    fun r hr => hsorted.2.1.1 r hr⟩

/-- C28: an enabled custom rule whose type is none of `domain_suffix`, `domain_keyword`,
`domain`, `ip_cidr`, `port`, `geosite`, `geoip` still yields a route rule; that route rule
has the single key `outbound`, holding the rule's outbound, and stands among the route
rules of the enabled custom rules at the rule's place in an order of non-decreasing
priority, after the DNS-hijack rule and before the rules of the rule groups. -/
theorem unlisted_rule_type (b : ConfigBuilder) (rule : Rule) (hmem : rule ∈ b.rules)
    (hen : rule.Enabled = true)
    (htype : rule.RuleType ∉ ["domain_suffix", "domain_keyword", "domain", "ip_cidr", "port",
      "geosite", "geoip"]) :
    customRouteRule rule = [("outbound", Value.str rule.Outbound)] ∧
    mapKeys (customRouteRule rule) = ["outbound"] ∧
    [("outbound", Value.str rule.Outbound)] ∈ (buildRoute b).Rules ∧
    ∃ sorted : List Rule, sorted.Perm b.rules ∧
      sorted.Sorted (fun r s => r.Priority ≤ s.Priority) ∧
      ∃ pre post, sorted.filter (fun r => r.Enabled) = pre ++ rule :: post ∧
        (∀ r ∈ pre, r.Priority ≤ rule.Priority) ∧
        (∀ r ∈ post, rule.Priority ≤ r.Priority) ∧
        (buildRoute b).Rules
          = [[("protocol", Value.str "dns"), ("outbound", Value.str "dns-out")]]
            ++ pre.map customRouteRule
            ++ [[("outbound", Value.str rule.Outbound)]]
            ++ post.map customRouteRule
            ++ (b.ruleGroups.filter (fun rg => rg.Enabled)).flatMap groupRouteRules := by
  have hrule := customRouteRule_unlisted rule htype
  obtain ⟨pre, post, hsplit, hpre, hpost⟩ := enabledSorted_split b rule hmem hen
  have hrules : (buildRoute b).Rules
      = [[("protocol", Value.str "dns"), ("outbound", Value.str "dns-out")]]
        ++ pre.map customRouteRule
        ++ [[("outbound", Value.str rule.Outbound)]]
        ++ post.map customRouteRule
        ++ (b.ruleGroups.filter (fun rg => rg.Enabled)).flatMap groupRouteRules := by
    rw [buildRoute_rules, hsplit]
    simp [hrule]
  refine ⟨hrule, by rw [hrule]; rfl, ?_, sortRules b.rules, sortRules_perm b.rules,
    sortRules_sorted b.rules, pre, post, hsplit, hpre, hpost, hrules⟩
  rw [hrules]
  simp

/-- Witness for C28: the rule of type `process_name` and priority 12 of the sample input
yields the route rule with the single key `outbound`. -/
theorem unlisted_rule_type_witness :
    ruleUnknown ∈ unknownRuleBuilder.rules ∧ ruleUnknown.Enabled = true ∧
    ruleUnknown.RuleType ∉ ["domain_suffix", "domain_keyword", "domain", "ip_cidr", "port",
      "geosite", "geoip"] ∧
    [("outbound", Value.str "DIRECT")] ∈ (buildRoute unknownRuleBuilder).Rules :=
  ⟨by decide, by decide, by decide,
    (unlisted_rule_type unknownRuleBuilder ruleUnknown (by decide) (by decide)
      (by decide)).2.2.1⟩

/-! ## Rule sets that are referenced but not declared -/

theorem prefixed_inj (p a b : String) (h : p ++ a = p ++ b) : a = b := by
  have := congrArg String.data h
  simp only [String.data_append] at this
  exact String.ext (List.append_cancel_left this)

theorem geoip_ne_geosite (i s : String) : "geoip-" ++ i ≠ "geosite-" ++ s := by
  intro h
  have := congrArg String.data h
  simp [String.data_append] at this

theorem mem_buildRoute_ruleSet (b : ConfigBuilder) (e : RuleSet)
    (he : e ∈ (buildRoute b).RuleSet) :
    ∃ rg ∈ b.ruleGroups, rg.Enabled = true ∧
      ((∃ s ∈ rg.SiteRules, e.Tag = "geosite-" ++ s) ∨
       (∃ i ∈ rg.IPRules, e.Tag = "geoip-" ++ i)) := by
  rw [buildRoute_ruleSet] at he
  rcases addRuleSetLoop_mem _ _ _ he with h | h
  · simp at h
  · simp only [referencedRuleSets, List.mem_flatMap, List.mem_filter, List.mem_append,
      List.mem_map] at h
    obtain ⟨rg, ⟨hrg, hen⟩, hs | hi⟩ := h
    · obtain ⟨s, hs, rfl⟩ := hs
      exact ⟨rg, hrg, hen, Or.inl ⟨s, hs, rfl⟩⟩
    · obtain ⟨i, hi, rfl⟩ := hi
      exact ⟨rg, hrg, hen, Or.inr ⟨i, hi, rfl⟩⟩

theorem geosite_undeclared (b : ConfigBuilder) (name : String)
    (hno : ∀ rg ∈ b.ruleGroups, rg.Enabled = true → name ∉ rg.SiteRules) :
    ∀ e ∈ (buildRoute b).RuleSet, e.Tag ≠ "geosite-" ++ name := by
  intro e he htag
  obtain ⟨rg, hrg, hen, ⟨s, hs, hst⟩ | ⟨i, _, hit⟩⟩ := mem_buildRoute_ruleSet b e he
  · rw [htag] at hst
    have : name = s := prefixed_inj _ _ _ hst
    subst this
    exact hno rg hrg hen hs
  · rw [htag] at hit
    exact geoip_ne_geosite _ _ hit.symm

theorem geoip_undeclared (b : ConfigBuilder) (name : String)
    (hno : ∀ rg ∈ b.ruleGroups, rg.Enabled = true → name ∉ rg.IPRules) :
    ∀ e ∈ (buildRoute b).RuleSet, e.Tag ≠ "geoip-" ++ name := by
  intro e he htag
  obtain ⟨rg, hrg, hen, ⟨s, _, hst⟩ | ⟨i, hi, hit⟩⟩ := mem_buildRoute_ruleSet b e he
  · rw [htag] at hst
    exact geoip_ne_geosite _ _ hst
  · rw [htag] at hit
    have : name = i := prefixed_inj _ _ _ hit
    subst this
    exact hno rg hrg hen hi

theorem customRouteRule_geo (rule : Rule) :
    (rule.RuleType = "geosite" →
      customRouteRule rule = [("outbound", Value.str rule.Outbound),
        ("rule_set", Value.strs (rule.Values.map (fun v => "geosite-" ++ v)))]) ∧
    (rule.RuleType = "geoip" →
      customRouteRule rule = [("outbound", Value.str rule.Outbound),
        ("rule_set", Value.strs (rule.Values.map (fun v => "geoip-" ++ v)))]) := by
  constructor <;> intro h <;> simp [customRouteRule, h, prefixFold_eq, mapSet]

theorem mem_buildRoute_custom (b : ConfigBuilder) (rule : Rule) (hmem : rule ∈ b.rules)
    (hen : rule.Enabled = true) : customRouteRule rule ∈ (buildRoute b).Rules := by
  rw [buildRoute_rules]
  have hin : rule ∈ (sortRules b.rules).filter (fun r => r.Enabled) :=
    List.mem_filter.2 ⟨(sortRules_perm b.rules).mem_iff.2 hmem, by simp [hen]⟩
  simp only [List.mem_append, List.mem_map]
  exact Or.inl (Or.inr ⟨rule, hin, rfl⟩)

/-- C29: `Build` returns a configuration whose DNS rules reference the rule-set tags
`geosite-category-ads-all`, `geosite-geolocation-cn` and `geosite-geolocation-!cn`, while
its `route.rule_set` has no entry with such a tag unless an enabled rule group lists that
category among its site rules; the entries of `route.rule_set` do not depend on the custom
rules, and an enabled custom rule of type `geosite` (`geoip`) yields a route rule over the
tags `geosite-<v>` (`geoip-<v>`) of its values, none of which is declared in
`route.rule_set` unless an enabled rule group lists `<v>` among its site (IP) rules. -/
theorem undeclared_rule_sets (x : Externals) (b : ConfigBuilder) :
    ∃ cfg dns route, Build x b = .ok cfg ∧ cfg.DNS = some dns ∧ cfg.Route = some route ∧
      (∀ name ∈ ["category-ads-all", "geolocation-cn", "geolocation-!cn"],
        (∃ r ∈ dns.Rules, "geosite-" ++ name ∈ r.RuleSet) ∧
        ((∀ rg ∈ b.ruleGroups, rg.Enabled = true → name ∉ rg.SiteRules) →
          ∀ e ∈ route.RuleSet, e.Tag ≠ "geosite-" ++ name)) ∧
      (∀ rules : List Rule, route.RuleSet = (buildRoute { b with rules := rules }).RuleSet) ∧
      (∀ rule ∈ b.rules, rule.Enabled = true → rule.RuleType = "geosite" →
        [("outbound", Value.str rule.Outbound),
          ("rule_set", Value.strs (rule.Values.map (fun v => "geosite-" ++ v)))]
            ∈ route.Rules ∧
        ∀ v ∈ rule.Values,
          (∀ rg ∈ b.ruleGroups, rg.Enabled = true → v ∉ rg.SiteRules) →
          ∀ e ∈ route.RuleSet, e.Tag ≠ "geosite-" ++ v) ∧
      (∀ rule ∈ b.rules, rule.Enabled = true → rule.RuleType = "geoip" →
        [("outbound", Value.str rule.Outbound),
          ("rule_set", Value.strs (rule.Values.map (fun v => "geoip-" ++ v)))]
            ∈ route.Rules ∧
        ∀ v ∈ rule.Values,
          (∀ rg ∈ b.ruleGroups, rg.Enabled = true → v ∉ rg.IPRules) →
          ∀ e ∈ route.RuleSet, e.Tag ≠ "geoip-" ++ v) := by
  obtain ⟨cfg, hcfg, hdns, hroute⟩ : ∃ cfg, Build x b = .ok cfg ∧
      cfg.DNS = some (buildDNS b) ∧ cfg.Route = some (buildRoute b) := by
    by_cases hport : b.settings.ClashAPIPort > 0
    · have hb : Build x b = .ok
          { Log := some (buildLog b), DNS := some (buildDNS b), NTP := some (buildNTP b),
            Inbounds := buildInbounds b, Outbounds := buildOutbounds x b,
            Route := some (buildRoute b), Experimental := some (buildExperimental b) } := by
        simp only [Build, hport, if_true]
      exact ⟨_, hb, rfl, rfl⟩
    · have hb : Build x b = .ok
          { Log := some (buildLog b), DNS := some (buildDNS b), NTP := some (buildNTP b),
            Inbounds := buildInbounds b, Outbounds := buildOutbounds x b,
            Route := some (buildRoute b), Experimental := none } := by
        simp only [Build, hport, if_false]
      exact ⟨_, hb, rfl, rfl⟩
  refine ⟨cfg, buildDNS b, buildRoute b, hcfg, hdns, hroute, ?_, ?_, ?_, ?_⟩
  · intro name hname
    refine ⟨?_, geosite_undeclared b name⟩
    simp only [List.mem_cons, List.mem_singleton, List.not_mem_nil, or_false] at hname
    rcases hname with rfl | rfl | rfl <;> simp [buildDNS]
  · intro rules
    rw [buildRoute_ruleSet, buildRoute_ruleSet]
    rfl
  · intro rule hmem hen htype
    refine ⟨?_, fun v _ => geosite_undeclared b v⟩
    rw [← (customRouteRule_geo rule).1 htype]
    exact mem_buildRoute_custom b rule hmem hen
  · intro rule hmem hen htype
    refine ⟨?_, fun v _ => geoip_undeclared b v⟩
    rw [← (customRouteRule_geo rule).2 htype]
    exact mem_buildRoute_custom b rule hmem hen

/-- Witness for C29: in the sample input no enabled rule group lists `category-ads-all` or
`openai`, and the rule-set entries have neither tag although the DNS rules and the custom
rule of type `geosite` reference them. -/
theorem undeclared_rule_sets_witness :
    (∀ rg ∈ routeBuilder.ruleGroups, rg.Enabled = true → "category-ads-all" ∉ rg.SiteRules) ∧
    ∃ cfg route, Build sampleExternals routeBuilder = .ok cfg ∧ cfg.Route = some route ∧
      (∀ e ∈ route.RuleSet, e.Tag ≠ "geosite-" ++ "category-ads-all") ∧
      [("outbound", Value.str "Proxy"), ("rule_set", Value.strs ["geosite-openai"])]
        ∈ route.Rules ∧
      (∀ e ∈ route.RuleSet, e.Tag ≠ "geosite-" ++ "openai") :=
  ⟨by decide,
    match undeclared_rule_sets sampleExternals routeBuilder with
    | ⟨cfg, _, route, hcfg, _, hroute, hdns, _, hsite, _⟩ =>
      ⟨cfg, route, hcfg, hroute, (hdns "category-ads-all" (by decide)).2 (by decide),
        (hsite { Priority := 20, Enabled := true, RuleType := "geosite", Values := ["openai"],
                 Outbound := "Proxy" } (by decide) rfl rfl).1,
        (hsite { Priority := 20, Enabled := true, RuleType := "geosite", Values := ["openai"],
                 Outbound := "Proxy" } (by decide) rfl rfl).2 "openai" (by decide)
          (by decide)⟩⟩

end SingBox
